import Mathlib

/-!
# ETL (expression templates library): operator catalog, shape checks, standard evaluation

A shallow embedding of the parts of ETL that the verified properties are about:

* `etl/op/binary_op.hpp`: the `apply` functions of the element-wise binary operators;
* `etl/checks.hpp`: `validate_expression`, `validate_assign`, `validate_pmax_pooling`;
* `etl/op/dim_view.hpp`: the six `assign_*_to` entry points of a node;
* `etl/builder/pooling_expression_builder.hpp`: `p_max_pool_h`, `p_max_pool_p`.

Headers that these files rely on but that are not part of the sources at hand (`traits.hpp`,
`evaluator.hpp`, the expression nodes and the value classes) are modelled from the
specification; each such definition says so in its doc comment.
-/

namespace etl

/-! ## Element types -/

/-- The C++ element type `int`. The built-in operators are those of C++ on the values for which
C++ defines them: `/` truncates towards zero and `%` is the matching remainder. Signed overflow
and a zero divisor are undefined in C++ and lie outside what this type describes. -/
structure cpp_int where
  /-- The mathematical value of the `int`. -/
  val : Int
deriving DecidableEq, Repr

instance : Add cpp_int := ⟨fun l r => ⟨l.val + r.val⟩⟩
instance : Sub cpp_int := ⟨fun l r => ⟨l.val - r.val⟩⟩
instance : Mul cpp_int := ⟨fun l r => ⟨l.val * r.val⟩⟩
instance : Div cpp_int := ⟨fun l r => ⟨Int.tdiv l.val r.val⟩⟩
instance : Mod cpp_int := ⟨fun l r => ⟨Int.tmod l.val r.val⟩⟩

/-! ## Operator catalog (`etl/op/binary_op.hpp`) -/

/-- The scalar function of `plus_binary_op<T>`: `return lhs + rhs;`. -/
def plus_binary_op.apply {T : Type} [Add T] (lhs rhs : T) : T := lhs + rhs

/-- The scalar function of `minus_binary_op<T>`: `return lhs - rhs;`. -/
def minus_binary_op.apply {T : Type} [Sub T] (lhs rhs : T) : T := lhs - rhs

/-- The scalar function of `mul_binary_op<T>`: `return lhs * rhs;`. -/
def mul_binary_op.apply {T : Type} [Mul T] (lhs rhs : T) : T := lhs * rhs

/-- The scalar function of `div_binary_op<T>`: `return lhs / rhs;`. -/
def div_binary_op.apply {T : Type} [Div T] (lhs rhs : T) : T := lhs / rhs

/-- The scalar function of `mod_binary_op<T>`: `return lhs % rhs;`. -/
def mod_binary_op.apply {T : Type} [Mod T] (lhs rhs : T) : T := lhs % rhs

/-- An arithmetic operator of the catalog for the element type `T`, together with the built-in
operator of `T` that its `apply` function uses. -/
inductive binary_op (T : Type) where
  | plus (add : Add T)
  | minus (sub : Sub T)
  | mul (mul : Mul T)
  | div (div : Div T)
  | mod (mod : Mod T)

/-- The `apply` function of an operator of the catalog. -/
def binary_op.apply {T : Type} : binary_op T → T → T → T
  | .plus _ => plus_binary_op.apply
  | .minus _ => minus_binary_op.apply
  | .mul _ => mul_binary_op.apply
  | .div _ => div_binary_op.apply
  | .mod _ => mod_binary_op.apply

/-! ## Operand traits and assertions used by `etl/checks.hpp` -/

/-- Modelled from the spec: what the checks read off an operand through `etl_traits`, `size` and
`dim` (`etl/traits.hpp` is not among the sources). An operand is a plain container that is not an
ETL expression, a generator (an expression without a size), or a sized ETL expression whose
extents are known statically (`fast`) or only at run time. -/
inductive operand where
  | container (n : Nat)
  | generator
  | expr (fast : Bool) (dims : List Nat)
deriving DecidableEq, Repr

/-- The trait `is_etl_expr<E>::value`. -/
def is_etl_expr : operand → Bool
  | .container _ => false
  | .generator => true
  | .expr _ _ => true

/-- The trait `etl_traits<E>::is_generator`. -/
def operand.is_generator : operand → Bool
  | .generator => true
  | _ => false

/-- The trait `etl_traits<E>::is_fast`. -/
def operand.is_fast : operand → Bool
  | .expr fast _ => fast
  | _ => false

/-- The trait `etl_traits<E>::dimensions()`. -/
def operand.dimensions : operand → Nat
  | .container _ => 1
  | .generator => 0
  | .expr _ dims => dims.length

/-- The extent `etl::dim<k>(e)`. -/
def dim (k : Nat) : operand → Nat
  | .container n => if k = 0 then n else 0
  | .generator => 0
  | .expr _ dims => dims.getD k 0

/-- The element count `size(e)`: the product of the extents; a generator has none. -/
def size : operand → Option Nat
  | .container n => some n
  | .generator => none
  | .expr _ dims => some dims.prod

/-- The trait `all_etl_expr<E...>::value`. -/
def all_etl_expr (es : List operand) : Bool := es.all is_etl_expr

/-- The trait `all_fast<E...>::value`. -/
def all_fast (es : List operand) : Bool := es.all operand.is_fast

/-- The ways a check can fail. -/
inductive check_error where
  /-- A `static_assert` is false: the program does not build. -/
  | static_assertion
  /-- A `cpp_assert` is false: fatal failure at run time. -/
  | assertion
  /-- No overload of the called function is enabled for the argument types. -/
  | no_matching_function
  /-- More than one overload is enabled for the argument types. -/
  | ambiguous_call
  /-- The source of an assignment would break the structural invariant of the destination:
  fatal failure at run time, before any write. -/
  | structural_invariant
deriving DecidableEq, Repr

/-- The C++ `static_assert(c, ...)`. -/
def static_assert (c : Bool) : Except check_error Unit :=
  if c then .ok () else .error .static_assertion

/-- Modelled from the spec: the macro `cpp_assert(c, ...)` of the assertion header, which is not
among the sources: a false condition is a fatal failure raised before anything else happens. -/
def cpp_assert (c : Bool) : Except check_error Unit :=
  if c then .ok () else .error .assertion

/-- An overload of a function template guarded by `cpp_enable_if`: the condition under which it
takes part in overload resolution, and its body. The argument `α` stands for the function
arguments together with their types. -/
structure overload (α : Type) where
  /-- The conjunction of the conditions of `cpp_enable_if`. -/
  enabled : α → Bool
  /-- The function body. -/
  body : α → Except check_error Unit

/-- Overload resolution among function templates guarded by `cpp_enable_if`: the call runs the
one enabled overload and is ill-formed when none or several are enabled. -/
def call {α : Type} (overloads : List (overload α)) (args : α) : Except check_error Unit :=
  match overloads.filter (fun o => o.enabled args) with
  | [] => .error .no_matching_function
  | [o] => o.body args
  | _ :: _ :: _ => .error .ambiguous_call

/-! ## `etl/checks.hpp` -/

/-- First overload of `validate_expression_impl`: one side is a generator, nothing to test. -/
def validate_expression_impl_generator : overload (operand × operand) where
  enabled := fun (lhs, rhs) => lhs.is_generator || rhs.is_generator
  body := fun _ => .ok ()

/-- Second overload of `validate_expression_impl`: run-time comparison of the sizes. -/
def validate_expression_impl_dyn : overload (operand × operand) where
  enabled := fun (lhs, rhs) =>
    !(lhs.is_generator || rhs.is_generator) && all_etl_expr [lhs, rhs] && !all_fast [lhs, rhs]
  body := fun (lhs, rhs) => cpp_assert (size lhs == size rhs)

/-- Third overload of `validate_expression_impl`: compile-time comparison of the sizes. -/
def validate_expression_impl_fast : overload (operand × operand) where
  enabled := fun (lhs, rhs) =>
    !(lhs.is_generator || rhs.is_generator) && all_etl_expr [lhs, rhs] && all_fast [lhs, rhs]
  body := fun (lhs, rhs) => static_assert (size lhs == size rhs)

/-- The overload set `validate_expression_impl(lhs, rhs)`. -/
def validate_expression_impl (lhs rhs : operand) : Except check_error Unit :=
  call [validate_expression_impl_generator, validate_expression_impl_dyn,
    validate_expression_impl_fast] (lhs, rhs)

/-- The macro `validate_expression(lhs, rhs)`: both operands must be ETL expressions, then
`validate_expression_impl(lhs, rhs)`. -/
def validate_expression (lhs rhs : operand) : Except check_error Unit := do
  static_assert (is_etl_expr lhs && is_etl_expr rhs)
  validate_expression_impl lhs rhs

/-- First overload of `validate_assign`: the right-hand side is a generator. -/
def validate_assign_generator : overload (operand × operand) where
  enabled := fun (_, rhs) => rhs.is_generator
  body := fun (lhs, _) => static_assert (is_etl_expr lhs)

/-- Second overload of `validate_assign`: an ETL right-hand side, sizes compared at run time. -/
def validate_assign_dyn : overload (operand × operand) where
  enabled := fun (lhs, rhs) => !rhs.is_generator && all_etl_expr [rhs] && !all_fast [lhs, rhs]
  body := fun (lhs, rhs) => do
    static_assert (is_etl_expr lhs)
    cpp_assert (size lhs == size rhs)

/-- Third overload of `validate_assign`: an ETL right-hand side, sizes compared at compile
time. -/
def validate_assign_fast : overload (operand × operand) where
  enabled := fun (lhs, rhs) => !rhs.is_generator && all_etl_expr [rhs] && all_fast [lhs, rhs]
  body := fun (lhs, rhs) => do
    static_assert (is_etl_expr lhs)
    static_assert (size lhs == size rhs)

/-- Fourth overload of `validate_assign`: the right-hand side is not an ETL expression. -/
def validate_assign_container : overload (operand × operand) where
  enabled := fun (_, rhs) => !all_etl_expr [rhs]
  body := fun (lhs, rhs) => do
    static_assert (is_etl_expr lhs)
    cpp_assert (size lhs == size rhs)

/-- The four overloads of `validate_assign`, in source order. -/
def validate_assign_overloads : List (overload (operand × operand)) :=
  [validate_assign_generator, validate_assign_dyn, validate_assign_fast,
    validate_assign_container]

/-- The overload set `validate_assign(lhs, rhs)`. -/
def validate_assign (lhs rhs : operand) : Except check_error Unit :=
  call validate_assign_overloads (lhs, rhs)

/-- Overload of `detail::validate_pmax_pooling_impl<C1, C2>` for a 2D expression that is not
fast. -/
def validate_pmax_pooling_impl_2d_dyn (C1 C2 : Nat) : overload operand where
  enabled := fun e => e.dimensions == 2 && !e.is_fast
  body := fun e => cpp_assert (dim 0 e % C1 == 0 && dim 1 e % C2 == 0)

/-- Overload of `detail::validate_pmax_pooling_impl<C1, C2>` for a 3D expression that is not
fast. -/
def validate_pmax_pooling_impl_3d_dyn (C1 C2 : Nat) : overload operand where
  enabled := fun e => e.dimensions == 3 && !e.is_fast
  body := fun e => cpp_assert (dim 1 e % C1 == 0 && dim 2 e % C2 == 0)

/-- Overload of `detail::validate_pmax_pooling_impl<C1, C2>` for a fast 2D expression. -/
def validate_pmax_pooling_impl_2d_fast (C1 C2 : Nat) : overload operand where
  enabled := fun e => e.dimensions == 2 && e.is_fast
  body := fun e => static_assert (dim 0 e % C1 == 0 && dim 1 e % C2 == 0)

/-- Overload of `detail::validate_pmax_pooling_impl<C1, C2>` for a fast 3D expression. -/
def validate_pmax_pooling_impl_3d_fast (C1 C2 : Nat) : overload operand where
  enabled := fun e => e.dimensions == 3 && e.is_fast
  body := fun e => static_assert (dim 1 e % C1 == 0 && dim 2 e % C2 == 0)

/-- The overload set `detail::validate_pmax_pooling_impl<C1, C2>(e)`. -/
def validate_pmax_pooling_impl (C1 C2 : Nat) (e : operand) : Except check_error Unit :=
  call [validate_pmax_pooling_impl_2d_dyn C1 C2, validate_pmax_pooling_impl_3d_dyn C1 C2,
    validate_pmax_pooling_impl_2d_fast C1 C2, validate_pmax_pooling_impl_3d_fast C1 C2] e

/-- The check `validate_pmax_pooling<C1, C2>(expr)`. -/
def validate_pmax_pooling (C1 C2 : Nat) (expr : operand) : Except check_error Unit := do
  static_assert (is_etl_expr expr)
  static_assert (expr.dimensions == 2 || expr.dimensions == 3)
  validate_pmax_pooling_impl C1 C2 expr

/-! ## `etl/builder/pooling_expression_builder.hpp` -/

/-- Modelled from the spec: the unary node over a probabilistic max pooling transformer that
the builders return (`unary_expr` and the transformers are not among the sources); it records
the transformer, its ratios and the expression it was built over. -/
inductive pooling_node where
  | p_max_pool_h_transformer (C1 C2 : Nat) (value : operand)
  | p_max_pool_p_transformer (C1 C2 : Nat) (value : operand)
deriving DecidableEq, Repr

/-- The builder `p_max_pool_h<C1, C2>(value)`, enabled for ETL expressions. -/
def p_max_pool_h (C1 C2 : Nat) (value : operand) : Except check_error pooling_node :=
  if is_etl_expr value then do
    validate_pmax_pooling C1 C2 value
    return .p_max_pool_h_transformer C1 C2 value
  else .error .no_matching_function

/-- The builder `p_max_pool_p<C1, C2>(value)`, enabled for ETL expressions. -/
def p_max_pool_p (C1 C2 : Nat) (value : operand) : Except check_error pooling_node :=
  if is_etl_expr value then do
    validate_pmax_pooling C1 C2 value
    return .p_max_pool_p_transformer C1 C2 value
  else .error .no_matching_function

/-! ## Tensor values, expression nodes and the standard evaluation -/

/-- Modelled from the spec: a Tensor Value (the value classes `fast_matrix` and `dyn_matrix`
are not among the sources): extents known statically (`fast`) or at run time, and a flat
buffer whose positions below the product of the extents hold the elements. -/
structure tensor (T : Type) where
  /-- Whether the extents are part of the type. -/
  fast : Bool
  /-- The extent of every dimension. -/
  dims : List Nat
  /-- The flat buffer. -/
  data : Nat → T

/-- The tensor values of a program, by identity. -/
abbrev memory (T : Type) := Nat → tensor T

/-- The element count of the tensor `d`. -/
def memory.size {T : Type} (mem : memory T) (d : Nat) : Nat := (mem d).dims.prod

/-- The element write `d[i] = v`. -/
def memory.write {T : Type} (mem : memory T) (d i : Nat) (v : T) : memory T :=
  Function.update mem d { mem d with data := Function.update (mem d).data i v }

/-- Modelled from the spec: the Expression Node variants that are evaluated element by element
(the node classes are not among the sources): a value node referring to a tensor, a scalar
and a generator node (both without a size), a unary node and a binary node carrying the
`apply` function of their operator. -/
inductive expr (T : Type) where
  | value (id : Nat)
  | scalar (s : T)
  | generator (g : Nat → T)
  | unary (op : T → T) (sub : expr T)
  | binary (op : T → T → T) (lhs rhs : expr T)

/-- Modelled from the spec: the element of a node at flat index `i`, read from the current
contents of the tensors; a binary node applies its operator to the elements of its children
at the same index. -/
def expr.read_flat {T : Type} (mem : memory T) : expr T → Nat → T
  | .value id, i => (mem id).data i
  | .scalar s, _ => s
  | .generator g, i => g i
  | .unary op sub, i => op (sub.read_flat mem i)
  | .binary op lhs rhs, i => op (lhs.read_flat mem i) (rhs.read_flat mem i)

/-- Modelled from the spec: the traits of a node. Scalars and generators have no size; a unary
node has the shape of its child; a binary node takes its shape from its left child, or from
its right child when the left one is a generator. -/
def expr.traits {T : Type} (mem : memory T) : expr T → operand
  | .value id => .expr (mem id).fast (mem id).dims
  | .scalar _ => .generator
  | .generator _ => .generator
  | .unary _ sub => sub.traits mem
  | .binary _ lhs rhs =>
    if (lhs.traits mem).is_generator then rhs.traits mem else lhs.traits mem

/-- Whether a node refers to the tensor `d`. -/
def expr.refers {T : Type} (d : Nat) : expr T → Bool
  | .value id => id == d
  | .scalar _ => false
  | .generator _ => false
  | .unary _ sub => sub.refers d
  | .binary _ lhs rhs => lhs.refers d || rhs.refers d

/-- Modelled from the spec: the builder of the binary node `lhs op rhs` (the expression
builders are not among the sources): the operands are validated, then the node is built. -/
def binary_expr {T : Type} (mem : memory T) (op : T → T → T) (lhs rhs : expr T) :
    Except check_error (expr T) := do
  validate_expression (lhs.traits mem) (rhs.traits mem)
  return .binary op lhs rhs

/-- Modelled from the spec: the standard element-by-element evaluation of a source into the
tensor `lhs` (`evaluator.hpp` is not among the sources): for every index below the size of `lhs`,
in increasing order, the element of `lhs` becomes `combine` of its current value and the
element of the source read at that moment. -/
def std_evaluate {T : Type} (combine : T → T → T) (read_flat : memory T → Nat → T) (lhs : Nat)
    (mem : memory T) : memory T :=
  (List.range (mem.size lhs)).foldl
    (fun m i => m.write lhs i (combine ((m lhs).data i) (read_flat m i))) mem

/-- The evaluation `lhs[i] = expr[i]`. -/
def std_assign_evaluate {T : Type} (read_flat : memory T → Nat → T) (lhs : Nat) :
    memory T → memory T :=
  std_evaluate (fun _ r => r) read_flat lhs

/-- The evaluation `lhs[i] += expr[i]`. -/
def std_add_evaluate {T : Type} [Add T] (read_flat : memory T → Nat → T) (lhs : Nat) :
    memory T → memory T :=
  std_evaluate (fun l r => l + r) read_flat lhs

/-- The evaluation `lhs[i] -= expr[i]`. -/
def std_sub_evaluate {T : Type} [Sub T] (read_flat : memory T → Nat → T) (lhs : Nat) :
    memory T → memory T :=
  std_evaluate (fun l r => l - r) read_flat lhs

/-- The evaluation `lhs[i] *= expr[i]`. -/
def std_mul_evaluate {T : Type} [Mul T] (read_flat : memory T → Nat → T) (lhs : Nat) :
    memory T → memory T :=
  std_evaluate (fun l r => l * r) read_flat lhs

/-- The evaluation `lhs[i] /= expr[i]`. -/
def std_div_evaluate {T : Type} [Div T] (read_flat : memory T → Nat → T) (lhs : Nat) :
    memory T → memory T :=
  std_evaluate (fun l r => l / r) read_flat lhs

/-- The evaluation `lhs[i] %= expr[i]`. -/
def std_mod_evaluate {T : Type} [Mod T] (read_flat : memory T → Nat → T) (lhs : Nat) :
    memory T → memory T :=
  std_evaluate (fun l r => l % r) read_flat lhs

/-- The outcome of an assignment statement: whether it went through, and the tensors after
it. -/
structure assign_result (T : Type) where
  /-- The error that stopped the statement, if any. -/
  status : Except check_error Unit
  /-- The tensor values after the statement. -/
  mem : memory T

/-- Modelled from the spec: an assignment operator of a value class (the value classes are not
among the sources), following the evaluator states Validate, then Execute: the source is
validated against the destination `d`, a failed validation stops the statement before any
write, and otherwise the evaluation of the operator runs. -/
def assign_with {T : Type} (evaluate : (memory T → Nat → T) → Nat → memory T → memory T)
    (d : Nat) (e : expr T) (mem : memory T) : assign_result T :=
  match validate_assign (.expr (mem d).fast (mem d).dims) (e.traits mem) with
  | .error err => { status := .error err, mem := mem }
  | .ok () => { status := .ok (), mem := evaluate (fun m i => e.read_flat m i) d mem }

/-- The statement `d = e`. -/
def operator_assign {T : Type} : Nat → expr T → memory T → assign_result T :=
  assign_with std_assign_evaluate

/-- The statement `d += e`. -/
def operator_add_assign {T : Type} [Add T] : Nat → expr T → memory T → assign_result T :=
  assign_with std_add_evaluate

/-- The statement `d -= e`. -/
def operator_sub_assign {T : Type} [Sub T] : Nat → expr T → memory T → assign_result T :=
  assign_with std_sub_evaluate

/-- The statement `d *= e`. -/
def operator_mul_assign {T : Type} [Mul T] : Nat → expr T → memory T → assign_result T :=
  assign_with std_mul_evaluate

/-- The statement `d /= e`. -/
def operator_div_assign {T : Type} [Div T] : Nat → expr T → memory T → assign_result T :=
  assign_with std_div_evaluate

/-- The statement `d %= e`. -/
def operator_mod_assign {T : Type} [Mod T] : Nat → expr T → memory T → assign_result T :=
  assign_with std_mod_evaluate

/-- An assignment operator for the element type `T`: `=`, or one of `+=`, `-=`, `*=`, `/=`,
`%=` together with the built-in operator of `T` that it uses. -/
inductive assign_mode (T : Type) where
  | assign
  | add (add : Add T)
  | sub (sub : Sub T)
  | mul (mul : Mul T)
  | div (div : Div T)
  | mod (mod : Mod T)

/-- The assignment statement of a mode. -/
def assign_mode.statement {T : Type} : assign_mode T → Nat → expr T → memory T → assign_result T
  | .assign => operator_assign
  | .add _ => operator_add_assign
  | .sub _ => operator_sub_assign
  | .mul _ => operator_mul_assign
  | .div _ => operator_div_assign
  | .mod _ => operator_mod_assign

/-- The standard evaluation that a mode stands for. -/
def assign_mode.evaluate {T : Type} :
    assign_mode T → (memory T → Nat → T) → Nat → memory T → memory T
  | .assign => std_assign_evaluate
  | .add _ => std_add_evaluate
  | .sub _ => std_sub_evaluate
  | .mul _ => std_mul_evaluate
  | .div _ => std_div_evaluate
  | .mod _ => std_mod_evaluate

/-- What the evaluation of a mode stores in an element of the destination, from the old
element and the element of the source. -/
def assign_mode.combine {T : Type} : assign_mode T → T → T → T
  | .assign => fun _ r => r
  | .add _ => fun l r => l + r
  | .sub _ => fun l r => l - r
  | .mul _ => fun l r => l * r
  | .div _ => fun l r => l / r
  | .mod _ => fun l r => l % r

/-- The operator of the catalog that a compound assignment applies to the old element of
the destination and the element of the source; plain assignment has none. -/
def assign_mode.op {T : Type} : assign_mode T → Option (binary_op T)
  | .assign => none
  | .add i => some (.plus i)
  | .sub i => some (.minus i)
  | .mul i => some (.mul i)
  | .div i => some (.div i)
  | .mod i => some (.mod i)

/-- The statements `tmp = e; a = tmp`: the second one runs only when the first one went
through. -/
def assign_through_temporary {T : Type} (a tmp : Nat) (e : expr T) (mem : memory T) :
    assign_result T :=
  match (operator_assign tmp e mem).status with
  | .error err => { status := .error err, mem := (operator_assign tmp e mem).mem }
  | .ok () => operator_assign a (.value tmp) (operator_assign tmp e mem).mem

/-- The tensor values of a program holding the given tensors at the identities `0, 1, ...`
and copies of `other` elsewhere. -/
def memory.of_list {T : Type} (ts : List (tensor T)) (other : tensor T) : memory T :=
  fun id => ts.getD id other

/-- The tensor with the given extents whose buffer starts with the elements of `l`, followed by
`pad`. -/
def tensor.of_list {T : Type} (fast : Bool) (dims : List Nat) (l : List T) (pad : T) :
    tensor T :=
  { fast := fast, dims := dims, data := fun i => l.getD i pad }

/-- The first `n` elements of the tensor `d`. -/
def memory.elements {T : Type} (mem : memory T) (d n : Nat) : List T :=
  (List.range n).map (mem d).data

/-- The tensors `m` and `mem` agree everywhere except for the elements of `d` below index
`k`. -/
def memory.agree_from {T : Type} (d k : Nat) (m mem : memory T) : Prop :=
  (∀ id, id ≠ d → m id = mem id) ∧ (m d).fast = (mem d).fast ∧ (m d).dims = (mem d).dims ∧
    ∀ i, k ≤ i → (m d).data i = (mem d).data i

/-! ## `etl/op/dim_view.hpp` -/

/-- Modelled from the spec: the two-index access `sub(i, j)` of a two-dimensional value in
row-major order (the value classes are not among the sources). -/
def expr.at2 {T : Type} (mem : memory T) (sub : expr T) (i j : Nat) : T :=
  sub.read_flat mem (i * dim 1 (sub.traits mem) + j)

/-- The view `dim_view<T, D>` of one row (`D == 1`) or one column (`D == 2`) of `sub`. -/
structure dim_view (T : Type) where
  /-- The dimension that the view shows. -/
  D : Nat
  /-- The sub expression. -/
  sub : expr T
  /-- The index. -/
  i : Nat

/-- The element read `dim_view::read_flat(j)`. -/
def dim_view.read_flat {T : Type} (v : dim_view T) (mem : memory T) (j : Nat) : T :=
  if v.D == 1 then v.sub.at2 mem v.i j else v.sub.at2 mem j v.i

/-- The entry point `dim_view::assign_to(lhs)`. -/
def dim_view.assign_to {T : Type} (v : dim_view T) (lhs : Nat) : memory T → memory T :=
  std_assign_evaluate v.read_flat lhs

/-- The entry point `dim_view::assign_add_to(lhs)`. -/
def dim_view.assign_add_to {T : Type} [Add T] (v : dim_view T) (lhs : Nat) :
    memory T → memory T :=
  std_add_evaluate v.read_flat lhs

/-- The entry point `dim_view::assign_sub_to(lhs)`. -/
def dim_view.assign_sub_to {T : Type} [Sub T] (v : dim_view T) (lhs : Nat) :
    memory T → memory T :=
  std_sub_evaluate v.read_flat lhs

/-- The entry point `dim_view::assign_mul_to(lhs)`. -/
def dim_view.assign_mul_to {T : Type} [Mul T] (v : dim_view T) (lhs : Nat) :
    memory T → memory T :=
  std_mul_evaluate v.read_flat lhs

/-- The entry point `dim_view::assign_div_to(lhs)`. -/
def dim_view.assign_div_to {T : Type} [Div T] (v : dim_view T) (lhs : Nat) :
    memory T → memory T :=
  std_div_evaluate v.read_flat lhs

/-- The entry point `dim_view::assign_mod_to(lhs)`. -/
def dim_view.assign_mod_to {T : Type} [Mod T] (v : dim_view T) (lhs : Nat) :
    memory T → memory T :=
  std_mod_evaluate v.read_flat lhs

/-- The entry point of `dim_view` for a mode. -/
def dim_view.assign_mode_to {T : Type} (v : dim_view T) :
    assign_mode T → Nat → memory T → memory T
  | .assign => v.assign_to
  | .add _ => v.assign_add_to
  | .sub _ => v.assign_sub_to
  | .mul _ => v.assign_mul_to
  | .div _ => v.assign_div_to
  | .mod _ => v.assign_mod_to

/-! ## Reference definitions and the tensors of the test cases -/

/-- The floor-based modulo `l - floor(l / r) * r`, for comparison with the remainder that
`mod_binary_op` computes. -/
def floor_mod (l r : Int) : Int := l - Int.fdiv l r * r

/-- The tensors of `fast_matrix/add_1`: `a` at `0`, `b` at `1`, the destination `c` at `2`. The
values of the test are doubles that are dyadic rationals, as are the sums, so that rational
arithmetic gives the results of the test. -/
def add_1_memory : memory ℚ :=
  memory.of_list [tensor.of_list true [2, 2] [-1, 2, 5, 1] 0,
    tensor.of_list true [2, 2] [2.5, 3, 4, 1] 0, tensor.of_list true [2, 2] [] 0]
    (tensor.of_list false [0] [] 0)

/-- The tensor of `fast_matrix/add_scalar_2` and `fast_matrix/sub_scalar_1`, at `0`. -/
def add_scalar_memory : memory ℚ :=
  memory.of_list [tensor.of_list true [2, 2] [-1, 2, 5.5, 1] 0] (tensor.of_list false [0] [] 0)

/-- The tensors of `fast_matrix/mod_1`: `a` at `0`, `b` at `1`, the destination `c` at `2`. -/
def mod_1_memory : memory cpp_int :=
  memory.of_list [tensor.of_list true [2, 2] [⟨-1⟩, ⟨2⟩, ⟨5⟩, ⟨1⟩] ⟨0⟩,
    tensor.of_list true [2, 2] [⟨2⟩, ⟨3⟩, ⟨4⟩, ⟨1⟩] ⟨0⟩, tensor.of_list true [2, 2] [] ⟨0⟩]
    (tensor.of_list false [0] [] ⟨0⟩)

/-! ## `etl/checks.hpp`: `assert_square`, and `etl/crtp/dim_testable.hpp` -/

/-- Overload of `assert_square` for a fast expression: both conditions are checked at compile
time. -/
def assert_square_fast : overload operand where
  enabled := fun expr => all_fast [expr]
  body := fun expr => do
    static_assert (expr.dimensions == 2)
    static_assert (dim 0 expr == dim 1 expr)

/-- Overload of `assert_square` for an expression that is not fast: the extents are compared at
run time. -/
def assert_square_dyn : overload operand where
  enabled := fun expr => !all_fast [expr]
  body := fun expr => do
    static_assert (expr.dimensions == 2)
    cpp_assert (dim 0 expr == dim 1 expr)

/-- The overload set `assert_square(expr)`. -/
def assert_square (expr : operand) : Except check_error Unit :=
  call [assert_square_fast, assert_square_dyn] expr

/-- The member `dim_testable::is_square()`. -/
def dim_testable.is_square (d : operand) : Except check_error Bool := do
  cpp_assert (d.dimensions == 2)
  return dim 0 d == dim 1 d

/-- The member `dim_testable::is_rectangular()`. -/
def dim_testable.is_rectangular (d : operand) : Except check_error Bool := do
  return !(← dim_testable.is_square d)

/-- The member `dim_testable::is_sub_square()`. -/
def dim_testable.is_sub_square (d : operand) : Except check_error Bool := do
  cpp_assert (d.dimensions == 3)
  return dim 1 d == dim 2 d

/-- The member `dim_testable::is_sub_rectangular()`. -/
def dim_testable.is_sub_rectangular (d : operand) : Except check_error Bool := do
  return !(← dim_testable.is_sub_square d)

/-! ## `etl/crtp/comparable.hpp` -/

/-- Modelled from the spec: what `comparable` reads of an expression or value (the classes it is
injected into are not among the sources): the element count `etl::size` and the elements that
`begin()` .. `end()` go through, in flat order. -/
structure sequence (T : Type) where
  /-- The element count. -/
  size : Nat
  /-- The element at a flat index. -/
  elem : Nat → T

/-- The algorithm `std::equal(first1, last1, first2)` on two sequences, the first one of `n`
elements: whether every element of the first equals the element of the second at the same
position. -/
def std_equal {T : Type} [BEq T] (n : Nat) (first1 first2 : Nat → T) : Bool :=
  (List.range n).all (fun k => first1 k == first2 k)

/-- The operator `comparable::operator==(rhs)`. -/
def comparable.operator_eq {T : Type} [BEq T] (lhs rhs : sequence T) : Bool :=
  if lhs.size != rhs.size then false
  else std_equal lhs.size lhs.elem rhs.elem

/-- The operator `comparable::operator!=(rhs)`. -/
def comparable.operator_ne {T : Type} [BEq T] (lhs rhs : sequence T) : Bool :=
  !(comparable.operator_eq lhs rhs)

/-- The elements of a tensor as a sequence. -/
def memory.sequence {T : Type} (mem : memory T) (d : Nat) : sequence T :=
  { size := mem.size d, elem := (mem d).data }

/-! ## `etl/op/binary_op.hpp`: `one_if_binary_op` -/

/-- The scalar function of `one_if_binary_op<T, E>`: `return 1.0 ? x == value : 0.0;`, with `E`
taken to be `T`. The condition of the conditional operator is the literal `1.0`, which is true
as it is not zero; its second operand is the comparison `x == value`, a `bool` that is then
converted to the result type (`true` to one, `false` to zero); its third operand is `0.0`. -/
def one_if_binary_op.apply {T : Type} [BEq T] [Zero T] [One T] (x value : T) : T :=
  if (1.0 : ℚ) ≠ 0 then (if x == value then 1 else 0) else 0

/-! ## The built-in operators of `int` (32 bits) -/

/-- The least value of the C++ type `int` (32 bits). -/
def INT_MIN : Int := -2147483648

/-- The greatest value of the C++ type `int` (32 bits). -/
def INT_MAX : Int := 2147483647

/-- Whether an integer is a value of the type `int`. -/
def cpp_int.representable (x : Int) : Bool := decide (INT_MIN ≤ x) && decide (x ≤ INT_MAX)

/-- The result of an `int` division whose mathematical quotient is `x`: there is none when `x`
is not representable (the division traps). -/
def cpp_int.result (x : Int) : Option cpp_int :=
  if cpp_int.representable x then some ⟨x⟩ else none

/-- The value of type `int` that an `int` addition, subtraction or multiplication with the
mathematical result `x` leaves: `x` itself when it is representable, and otherwise `x` reduced
modulo `2^32` into the range of `int` (two's complement wrap-around, which is what the compiled
code computes). -/
def cpp_int.wrap (x : Int) : cpp_int := ⟨(x + 2147483648) % 4294967296 - 2147483648⟩

/-- The built-in `l + r` on `int`: always a value, wrapped when the sum is not representable. -/
def cpp_int.builtin_add (l r : cpp_int) : Option cpp_int := some (cpp_int.wrap (l.val + r.val))

/-- The built-in `l - r` on `int`: always a value, wrapped when the difference is not
representable. -/
def cpp_int.builtin_sub (l r : cpp_int) : Option cpp_int := some (cpp_int.wrap (l.val - r.val))

/-- The built-in `l * r` on `int`: always a value, wrapped when the product is not
representable. -/
def cpp_int.builtin_mul (l r : cpp_int) : Option cpp_int := some (cpp_int.wrap (l.val * r.val))

/-- The built-in `l / r` on `int`: no value when `r` is zero, nor when the quotient is not
representable (the division traps). -/
def cpp_int.builtin_div (l r : cpp_int) : Option cpp_int :=
  if r.val = 0 then none else cpp_int.result (Int.tdiv l.val r.val)

/-- The built-in `l % r` on `int`: no value when `r` is zero, nor when the quotient `l / r` is
not representable (the division traps). -/
def cpp_int.builtin_mod (l r : cpp_int) : Option cpp_int :=
  if r.val = 0 then none
  else if cpp_int.representable (Int.tdiv l.val r.val) then some ⟨Int.tmod l.val r.val⟩
  else none

/-- The call `plus_binary_op<int>::apply(lhs, rhs)` as C++ evaluates it: `return lhs + rhs;`. -/
def plus_binary_op.apply_int (lhs rhs : cpp_int) : Option cpp_int := cpp_int.builtin_add lhs rhs

/-- The call `minus_binary_op<int>::apply(lhs, rhs)` as C++ evaluates it: `return lhs - rhs;`. -/
def minus_binary_op.apply_int (lhs rhs : cpp_int) : Option cpp_int := cpp_int.builtin_sub lhs rhs

/-- The call `mul_binary_op<int>::apply(lhs, rhs)` as C++ evaluates it: `return lhs * rhs;`. -/
def mul_binary_op.apply_int (lhs rhs : cpp_int) : Option cpp_int := cpp_int.builtin_mul lhs rhs

/-- The call `div_binary_op<int>::apply(lhs, rhs)` as C++ evaluates it: `return lhs / rhs;`. -/
def div_binary_op.apply_int (lhs rhs : cpp_int) : Option cpp_int := cpp_int.builtin_div lhs rhs

/-- The call `mod_binary_op<int>::apply(lhs, rhs)` as C++ evaluates it: `return lhs % rhs;`. -/
def mod_binary_op.apply_int (lhs rhs : cpp_int) : Option cpp_int := cpp_int.builtin_mod lhs rhs

/-! ## `etl/impl/cudnn/conv.hpp` -/

/-- The status that a cuDNN function returns (the values that matter here). -/
inductive cudnnStatus_t where
  | CUDNN_STATUS_SUCCESS
  | CUDNN_STATUS_NOT_INITIALIZED
  | CUDNN_STATUS_ALLOC_FAILED
  | CUDNN_STATUS_BAD_PARAM
  | CUDNN_STATUS_EXECUTION_FAILED
  | CUDNN_STATUS_NOT_SUPPORTED
deriving DecidableEq, Repr

/-- The cuDNN functions that the convolutions call. -/
inductive cudnn_function where
  | cudnnCreateTensorDescriptor
  | cudnnSetTensor4dDescriptor
  | cudnnCreateFilterDescriptor
  | cudnnSetFilter4dDescriptor
  | cudnnCreateConvolutionDescriptor
  | cudnnSetConvolution2dDescriptor
  | cudnnGetConvolutionForwardAlgorithm
  | cudnnGetConvolutionForwardWorkspaceSize
  | cudnnConvolutionForward
  | cudnnGetConvolutionBackwardDataAlgorithm
  | cudnnGetConvolutionBackwardDataWorkspaceSize
  | cudnnConvolutionBackwardData
  | cudnnDestroyConvolutionDescriptor
  | cudnnDestroyFilterDescriptor
  | cudnnDestroyTensorDescriptor
deriving DecidableEq, Repr

/-- The cuDNN library as the convolutions see it: the status of a call, given how many calls
were made before it and which function is called. -/
abbrev cudnn_backend := Nat → cudnn_function → cudnnStatus_t

/-- What an evaluation has done so far: the backend calls it executed, oldest first, and the
error messages it wrote to `std::cerr`, each naming the call and its status. -/
structure cudnn_state where
  /-- The backend calls executed, in order. -/
  calls : List cudnn_function
  /-- The error messages written to `std::cerr`, in order. -/
  cerr : List (cudnn_function × cudnnStatus_t)
deriving DecidableEq, Repr

/-- A backend call made outside the macro: the call is executed and its status is dropped. -/
def cudnn_unchecked (_backend : cudnn_backend) (f : cudnn_function) (s : cudnn_state) :
    Except cudnnStatus_t cudnn_state :=
  .ok { s with calls := s.calls ++ [f] }

/-- The macro `cudnn_check(call)`: the call is executed; if its status is not
`CUDNN_STATUS_SUCCESS` a message is written to `std::cerr`; in both cases execution goes on
with the next statement. -/
def cudnn_check (backend : cudnn_backend) (f : cudnn_function) (s : cudnn_state) :
    Except cudnnStatus_t cudnn_state :=
  let status := backend s.calls.length f
  if status != .CUDNN_STATUS_SUCCESS then
    .ok { calls := s.calls ++ [f], cerr := s.cerr ++ [(f, status)] }
  else
    .ok { s with calls := s.calls ++ [f] }

/-- The backend calls of a function body in program order, each with whether it is wrapped in
`cudnn_check`. -/
abbrev cudnn_script := List (Bool × cudnn_function)

/-- The execution of the backend calls of a function body, one after the other. -/
def cudnn_run (backend : cudnn_backend) (script : cudnn_script) (s : cudnn_state) :
    Except cudnnStatus_t cudnn_state :=
  script.foldlM
    (fun s c => if c.1 then cudnn_check backend c.2 s else cudnn_unchecked backend c.2 s) s

/-- The calls that prepare the input tensor, the output tensor, the filter and the convolution
descriptor, all inside `cudnn_check`; every convolution starts with them. -/
def cudnn_prepare : cudnn_script :=
  [(true, .cudnnCreateTensorDescriptor), (true, .cudnnSetTensor4dDescriptor),
   (true, .cudnnCreateTensorDescriptor), (true, .cudnnSetTensor4dDescriptor),
   (true, .cudnnCreateFilterDescriptor), (true, .cudnnSetFilter4dDescriptor),
   (true, .cudnnCreateConvolutionDescriptor), (true, .cudnnSetConvolution2dDescriptor)]

/-- The calls that release the resources, all inside `cudnn_check`; every convolution ends with
them. -/
def cudnn_release : cudnn_script :=
  [(true, .cudnnDestroyConvolutionDescriptor), (true, .cudnnDestroyFilterDescriptor),
   (true, .cudnnDestroyTensorDescriptor), (true, .cudnnDestroyTensorDescriptor)]

/-- The backend calls of a forward convolution; `checked` tells whether the call of
`cudnnConvolutionForward` is inside `cudnn_check`. -/
def cudnn_forward (checked : Bool) : cudnn_script :=
  cudnn_prepare ++
  [(true, .cudnnGetConvolutionForwardAlgorithm),
   (true, .cudnnGetConvolutionForwardWorkspaceSize),
   (checked, .cudnnConvolutionForward)] ++
  cudnn_release

/-- The backend calls of a backward data convolution. -/
def cudnn_backward_data : cudnn_script :=
  cudnn_prepare ++
  [(true, .cudnnGetConvolutionBackwardDataAlgorithm),
   (true, .cudnnGetConvolutionBackwardDataWorkspaceSize),
   (true, .cudnnConvolutionBackwardData)] ++
  cudnn_release

/-- The function `cudnn::conv2_valid(input, kernel, conv)`. -/
def cudnn.conv2_valid (backend : cudnn_backend) : cudnn_state → Except cudnnStatus_t cudnn_state :=
  cudnn_run backend (cudnn_forward true)

/-- The function `cudnn::conv4_valid(input, kernel, conv)`; its call of
`cudnnConvolutionForward` is not inside `cudnn_check`. -/
def cudnn.conv4_valid (backend : cudnn_backend) : cudnn_state → Except cudnnStatus_t cudnn_state :=
  cudnn_run backend (cudnn_forward false)

/-- The function `cudnn::conv2_full(input, kernel, conv)`. -/
def cudnn.conv2_full (backend : cudnn_backend) : cudnn_state → Except cudnnStatus_t cudnn_state :=
  cudnn_run backend cudnn_backward_data

/-- The function `cudnn::conv2_full_flipped(input, kernel, conv)`. -/
def cudnn.conv2_full_flipped (backend : cudnn_backend) :
    cudnn_state → Except cudnnStatus_t cudnn_state :=
  cudnn_run backend cudnn_backward_data

/-- The function `cudnn::conv4_full(input, kernel, conv)`. -/
def cudnn.conv4_full (backend : cudnn_backend) : cudnn_state → Except cudnnStatus_t cudnn_state :=
  cudnn_run backend cudnn_backward_data

/-- The function `cudnn::conv2_valid_multi(input, kernel, conv)`. -/
def cudnn.conv2_valid_multi (backend : cudnn_backend) :
    cudnn_state → Except cudnnStatus_t cudnn_state :=
  cudnn_run backend (cudnn_forward true)

/-- The function `cudnn::conv2_valid_multi_flipped(input, kernel, conv)`. -/
def cudnn.conv2_valid_multi_flipped (backend : cudnn_backend) :
    cudnn_state → Except cudnnStatus_t cudnn_state :=
  cudnn_run backend (cudnn_forward true)

/-- The function `cudnn::conv2_full_multi(input, kernel, conv)`: one `conv2_full` for each of
the `K` kernels (`K` is `kernel.dim<0>()`). -/
def cudnn.conv2_full_multi (backend : cudnn_backend) (K : Nat) (s : cudnn_state) :
    Except cudnnStatus_t cudnn_state :=
  (List.range K).foldlM (fun s _ => cudnn.conv2_full backend s) s

/-- The function `cudnn::conv2_full_multi_flipped(input, kernel, conv)`: one
`conv2_full_flipped` for each of the `K` kernels. -/
def cudnn.conv2_full_multi_flipped (backend : cudnn_backend) (K : Nat) (s : cudnn_state) :
    Except cudnnStatus_t cudnn_state :=
  (List.range K).foldlM (fun s _ => cudnn.conv2_full_flipped backend s) s

/-- The messages that running a script writes to `std::cerr` when `n` calls were made before
it: one for each call inside `cudnn_check` whose status is not `CUDNN_STATUS_SUCCESS`. -/
def cudnn_reports (backend : cudnn_backend) : Nat → cudnn_script → List (cudnn_function × cudnnStatus_t)
  | _, [] => []
  | n, (checked, f) :: rest =>
    (if checked && backend n f != .CUDNN_STATUS_SUCCESS then [(f, backend n f)] else []) ++
      cudnn_reports backend (n + 1) rest

/-- A backend whose first call fails with `CUDNN_STATUS_ALLOC_FAILED` and whose other calls
succeed. -/
def cudnn_first_call_fails : cudnn_backend :=
  fun n _ => if n = 0 then .CUDNN_STATUS_ALLOC_FAILED else .CUDNN_STATUS_SUCCESS

/-- The list `l` repeated `K` times. -/
def cudnn_repeat {α : Type} : Nat → List α → List α
  | 0, _ => []
  | K + 1, l => cudnn_repeat K l ++ l

/-! ## `etl/sse_vectorization.hpp` and the batched functions of `etl/op/binary_op.hpp`

Lane values are elements of a type `R` with exact arithmetic: what is described is which lanes an
operation combines and how, not the rounding of floating point. -/

/-- Modelled from the spec: the instruction-set tiers (`vectorization.hpp` is not among the
sources). -/
inductive vector_mode_t where
  | NONE | SSE3 | AVX | AVX512
deriving DecidableEq, Repr

/-- The element types that have `intrinsic_traits` in the SSE header. -/
inductive element_type where
  | float | double | complex_float | complex_double
deriving DecidableEq, Repr

/-- The trait `is_complex_t<T>::value`. -/
def is_complex_t : element_type → Bool
  | .complex_float => true
  | .complex_double => true
  | _ => false

/-- The constant `intrinsic_traits<T>::size` of the SSE header: elements per register. -/
def intrinsic_traits.size : element_type → Nat
  | .float => 4
  | .double => 2
  | .complex_float => 2
  | .complex_double => 1

/-- The flag `plus_binary_op<T>::vectorizable`. -/
def plus_binary_op.vectorizable (_vector_mode : vector_mode_t) (_T : element_type) : Bool := true

/-- The flag `minus_binary_op<T>::vectorizable`. -/
def minus_binary_op.vectorizable (_vector_mode : vector_mode_t) (_T : element_type) : Bool := true

/-- The flag `mul_binary_op<T>::vectorizable`:
`vector_mode == vector_mode_t::AVX512 ? !is_complex_t<T>::value : true`. -/
def mul_binary_op.vectorizable (vector_mode : vector_mode_t) (T : element_type) : Bool :=
  if vector_mode = .AVX512 then !is_complex_t T else true

/-- The flag `div_binary_op<T>::vectorizable`:
`vector_mode == vector_mode_t::AVX512 ? !is_complex_t<T>::value : true`. -/
def div_binary_op.vectorizable (vector_mode : vector_mode_t) (T : element_type) : Bool :=
  if vector_mode = .AVX512 then !is_complex_t T else true

/-- The flag `mod_binary_op<T>::vectorizable`. -/
def mod_binary_op.vectorizable (_vector_mode : vector_mode_t) (_T : element_type) : Bool := false

/-- A complex number `std::complex<R>` with its real and imaginary part. -/
structure complex (R : Type) where
  /-- The real part. -/
  re : R
  /-- The imaginary part. -/
  im : R
deriving DecidableEq, Repr

instance {R : Type} [Add R] : Add (complex R) := ⟨fun x y => ⟨x.re + y.re, x.im + y.im⟩⟩
instance {R : Type} [Sub R] : Sub (complex R) := ⟨fun x y => ⟨x.re - y.re, x.im - y.im⟩⟩
instance {R : Type} [Add R] [Sub R] [Mul R] : Mul (complex R) :=
  ⟨fun x y => ⟨x.re * y.re - x.im * y.im, x.im * y.re + x.re * y.im⟩⟩
instance {R : Type} [Add R] [Sub R] [Mul R] [Div R] : Div (complex R) :=
  ⟨fun x y => ⟨(x.re * y.re + x.im * y.im) / (y.re * y.re + y.im * y.im),
    (x.im * y.re - x.re * y.im) / (y.re * y.re + y.im * y.im)⟩⟩

/-- The register type `__m128`: four lanes, lowest first. -/
structure m128 (R : Type) where
  /-- Lane 0. -/
  e0 : R
  /-- Lane 1. -/
  e1 : R
  /-- Lane 2. -/
  e2 : R
  /-- Lane 3. -/
  e3 : R
deriving DecidableEq, Repr

/-- The register type `__m128d`: two lanes, lowest first. -/
structure m128d (R : Type) where
  /-- Lane 0. -/
  e0 : R
  /-- Lane 1. -/
  e1 : R
deriving DecidableEq, Repr

/-- The register that `loadu(const std::complex<float>*)` fills from two consecutive complex
numbers: `[x1.real, x1.img, x2.real, x2.img]`. -/
def m128.of_complex {R : Type} (x1 x2 : complex R) : m128 R := ⟨x1.re, x1.im, x2.re, x2.im⟩

/-- The register that `loadu(const std::complex<double>*)` fills from one complex number:
`[x.real, x.img]`. -/
def m128d.of_complex {R : Type} (x : complex R) : m128d R := ⟨x.re, x.im⟩

/-- The intrinsic `_mm_add_ps`: lane by lane. -/
def _mm_add_ps {R : Type} [Add R] (a b : m128 R) : m128 R :=
  ⟨a.e0 + b.e0, a.e1 + b.e1, a.e2 + b.e2, a.e3 + b.e3⟩

/-- The intrinsic `_mm_sub_ps`: lane by lane. -/
def _mm_sub_ps {R : Type} [Sub R] (a b : m128 R) : m128 R :=
  ⟨a.e0 - b.e0, a.e1 - b.e1, a.e2 - b.e2, a.e3 - b.e3⟩

/-- The intrinsic `_mm_mul_ps`: lane by lane. -/
def _mm_mul_ps {R : Type} [Mul R] (a b : m128 R) : m128 R :=
  ⟨a.e0 * b.e0, a.e1 * b.e1, a.e2 * b.e2, a.e3 * b.e3⟩

/-- The intrinsic `_mm_div_ps`: lane by lane. -/
def _mm_div_ps {R : Type} [Div R] (a b : m128 R) : m128 R :=
  ⟨a.e0 / b.e0, a.e1 / b.e1, a.e2 / b.e2, a.e3 / b.e3⟩

/-- The intrinsic `_mm_moveldup_ps`: the even lanes, duplicated. -/
def _mm_moveldup_ps {R : Type} (a : m128 R) : m128 R := ⟨a.e0, a.e0, a.e2, a.e2⟩

/-- The intrinsic `_mm_movehdup_ps`: the odd lanes, duplicated. -/
def _mm_movehdup_ps {R : Type} (a : m128 R) : m128 R := ⟨a.e1, a.e1, a.e3, a.e3⟩

/-- The lane of a register selected by a two-bit index. -/
def m128.lane {R : Type} (a : m128 R) (k : Nat) : R :=
  match k % 4 with
  | 0 => a.e0
  | 1 => a.e1
  | 2 => a.e2
  | _ => a.e3

/-- The macro `_MM_SHUFFLE(z, y, x, w)`. -/
def _MM_SHUFFLE (z y x w : Nat) : Nat := z * 64 + y * 16 + x * 4 + w

/-- The intrinsic `_mm_shuffle_ps(a, b, imm)`: lanes 0 and 1 are picked from `a` by bits 1..0 and
3..2 of `imm`, lanes 2 and 3 from `b` by bits 5..4 and 7..6. -/
def _mm_shuffle_ps {R : Type} (a b : m128 R) (imm : Nat) : m128 R :=
  ⟨a.lane imm, a.lane (imm / 4), b.lane (imm / 16), b.lane (imm / 64)⟩

/-- The intrinsic `_mm_addsub_ps`: subtraction in the even lanes, addition in the odd ones. -/
def _mm_addsub_ps {R : Type} [Add R] [Sub R] (a b : m128 R) : m128 R :=
  ⟨a.e0 - b.e0, a.e1 + b.e1, a.e2 - b.e2, a.e3 + b.e3⟩

/-- The intrinsic `_mm_add_pd`: lane by lane. -/
def _mm_add_pd {R : Type} [Add R] (a b : m128d R) : m128d R := ⟨a.e0 + b.e0, a.e1 + b.e1⟩

/-- The intrinsic `_mm_sub_pd`: lane by lane. -/
def _mm_sub_pd {R : Type} [Sub R] (a b : m128d R) : m128d R := ⟨a.e0 - b.e0, a.e1 - b.e1⟩

/-- The intrinsic `_mm_mul_pd`: lane by lane. -/
def _mm_mul_pd {R : Type} [Mul R] (a b : m128d R) : m128d R := ⟨a.e0 * b.e0, a.e1 * b.e1⟩

/-- The intrinsic `_mm_div_pd`: lane by lane. -/
def _mm_div_pd {R : Type} [Div R] (a b : m128d R) : m128d R := ⟨a.e0 / b.e0, a.e1 / b.e1⟩

/-- The intrinsic `_mm_movedup_pd`: lane 0, duplicated. -/
def _mm_movedup_pd {R : Type} (a : m128d R) : m128d R := ⟨a.e0, a.e0⟩

/-- The macro `_MM_SHUFFLE2(x, y)`. -/
def _MM_SHUFFLE2 (x y : Nat) : Nat := x * 2 + y

/-- The intrinsic `_mm_shuffle_pd(a, b, imm)`: lane 0 is picked from `a` by bit 0 of `imm`, lane 1
from `b` by bit 1. -/
def _mm_shuffle_pd {R : Type} (a b : m128d R) (imm : Nat) : m128d R :=
  ⟨if imm % 2 = 0 then a.e0 else a.e1, if (imm / 2) % 2 = 0 then b.e0 else b.e1⟩

/-- The intrinsic `_mm_addsub_pd`: subtraction in lane 0, addition in lane 1. -/
def _mm_addsub_pd {R : Type} [Add R] [Sub R] (a b : m128d R) : m128d R :=
  ⟨a.e0 - b.e0, a.e1 + b.e1⟩

/-- The function `vec::add(__m128, __m128)`. -/
def vec.add_m128 {R : Type} [Add R] (lhs rhs : m128 R) : m128 R := _mm_add_ps lhs rhs

/-- The function `vec::sub(__m128, __m128)`. -/
def vec.sub_m128 {R : Type} [Sub R] (lhs rhs : m128 R) : m128 R := _mm_sub_ps lhs rhs

/-- The function `vec::add(__m128d, __m128d)`. -/
def vec.add_m128d {R : Type} [Add R] (lhs rhs : m128d R) : m128d R := _mm_add_pd lhs rhs

/-- The function `vec::sub(__m128d, __m128d)`. -/
def vec.sub_m128d {R : Type} [Sub R] (lhs rhs : m128d R) : m128d R := _mm_sub_pd lhs rhs

/-- The function template `vec::div<Complex>(__m128, __m128)`: the primary template is the only
definition, so that it is the one used for `Complex == true` as well. -/
def vec.div_m128 {R : Type} [Div R] (_Complex : Bool) (lhs rhs : m128 R) : m128 R :=
  _mm_div_ps lhs rhs

/-- The function template `vec::div<Complex>(__m128d, __m128d)`: the primary template is the
only definition. -/
def vec.div_m128d {R : Type} [Div R] (_Complex : Bool) (lhs rhs : m128d R) : m128d R :=
  _mm_div_pd lhs rhs

/-- The function template `vec::mul<Complex>(__m128, __m128)`, with its specialization for
`Complex == true`. -/
def vec.mul_m128 {R : Type} [Add R] [Sub R] [Mul R] (Complex : Bool) (lhs rhs : m128 R) :
    m128 R :=
  if Complex then
    let ymm1 := _mm_moveldup_ps rhs
    let ymm2 := _mm_mul_ps lhs ymm1
    let ymm3 := _mm_shuffle_ps lhs lhs (_MM_SHUFFLE 2 3 0 1)
    let ymm1 := _mm_movehdup_ps rhs
    let ymm4 := _mm_mul_ps ymm3 ymm1
    _mm_addsub_ps ymm2 ymm4
  else _mm_mul_ps lhs rhs

/-- The function template `vec::mul<Complex>(__m128d, __m128d)`, with its specialization for
`Complex == true`. -/
def vec.mul_m128d {R : Type} [Add R] [Sub R] [Mul R] (Complex : Bool) (lhs rhs : m128d R) :
    m128d R :=
  if Complex then
    let ymm1 := _mm_movedup_pd rhs
    let ymm2 := _mm_mul_pd lhs ymm1
    let ymm1 := _mm_shuffle_pd lhs lhs (_MM_SHUFFLE2 0 1)
    let ymm3 := _mm_shuffle_pd rhs rhs (_MM_SHUFFLE2 0 1)
    let ymm4 := _mm_movedup_pd ymm3
    let ymm3 := _mm_mul_pd ymm1 ymm4
    _mm_addsub_pd ymm2 ymm3
  else _mm_mul_pd lhs rhs

/-- The batched function `plus_binary_op<T>::load` on `__m128` registers. -/
def plus_binary_op.load_m128 {R : Type} [Add R] (lhs rhs : m128 R) : m128 R :=
  vec.add_m128 lhs rhs

/-- The batched function `plus_binary_op<T>::load` on `__m128d` registers. -/
def plus_binary_op.load_m128d {R : Type} [Add R] (lhs rhs : m128d R) : m128d R :=
  vec.add_m128d lhs rhs

/-- The batched function `minus_binary_op<T>::load` on `__m128` registers. -/
def minus_binary_op.load_m128 {R : Type} [Sub R] (lhs rhs : m128 R) : m128 R :=
  vec.sub_m128 lhs rhs

/-- The batched function `minus_binary_op<T>::load` on `__m128d` registers. -/
def minus_binary_op.load_m128d {R : Type} [Sub R] (lhs rhs : m128d R) : m128d R :=
  vec.sub_m128d lhs rhs

/-- The batched function `mul_binary_op<T>::load` on `__m128` registers (`T` is `float` or
`std::complex<float>`): `default_vec::mul<is_complex_t<T>::value>(ymm1, ymm2)`. -/
def mul_binary_op.load_m128 {R : Type} [Add R] [Sub R] [Mul R] (T : element_type)
    (lhs rhs : m128 R) : m128 R :=
  vec.mul_m128 (is_complex_t T) lhs rhs

/-- The batched function `mul_binary_op<T>::load` on `__m128d` registers (`T` is `double` or
`std::complex<double>`). -/
def mul_binary_op.load_m128d {R : Type} [Add R] [Sub R] [Mul R] (T : element_type)
    (lhs rhs : m128d R) : m128d R :=
  vec.mul_m128d (is_complex_t T) lhs rhs

/-- The batched function `div_binary_op<T>::load` on `__m128` registers (`T` is `float` or
`std::complex<float>`): `default_vec::div<is_complex_t<T>::value>(ymm1, ymm2)`. -/
def div_binary_op.load_m128 {R : Type} [Div R] (T : element_type) (lhs rhs : m128 R) :
    m128 R :=
  vec.div_m128 (is_complex_t T) lhs rhs

/-- The batched function `div_binary_op<T>::load` on `__m128d` registers (`T` is `double` or
`std::complex<double>`). -/
def div_binary_op.load_m128d {R : Type} [Div R] (T : element_type) (lhs rhs : m128d R) :
    m128d R :=
  vec.div_m128d (is_complex_t T) lhs rhs

/-! ## Transposition -/

/-- Modelled from the spec: a node of two dimensions (the transformers and the views are not
among the sources): its traits and its two-index access `e(i, j)`. -/
structure matrix_node (T : Type) where
  /-- The traits of the node. -/
  traits : memory T → operand
  /-- The access `e(i, j)`. -/
  call : memory T → Nat → Nat → T

/-- The element of a two-dimensional node at a flat index, in row-major order. -/
def matrix_node.read_flat {T : Type} (e : matrix_node T) (mem : memory T) (k : Nat) : T :=
  e.call mem (k / dim 1 (e.traits mem)) (k % dim 1 (e.traits mem))

/-- The elements of a two-dimensional node in flat order. -/
def matrix_node.sequence {T : Type} (e : matrix_node T) (mem : memory T) : sequence T :=
  { size := dim 0 (e.traits mem) * dim 1 (e.traits mem), elem := e.read_flat mem }

/-- Modelled from the spec: a matrix value as a two-dimensional node: `a(i, j)` is the element at
flat index `i * dim1 + j`. -/
def matrix_node.value {T : Type} (a : Nat) : matrix_node T :=
  { traits := fun mem => .expr (mem a).fast (mem a).dims,
    call := fun mem i j => (mem a).data (i * dim 1 (.expr (mem a).fast (mem a).dims) + j) }

/-- Modelled from the spec: the node `transpose(e)` (the transpose transformer is not among the
sources): its extents are those of `e` exchanged and `transpose(e)(i, j)` is `e(j, i)`. -/
def transpose {T : Type} (e : matrix_node T) : matrix_node T :=
  { traits := fun mem =>
      .expr (e.traits mem).is_fast [dim 1 (e.traits mem), dim 0 (e.traits mem)],
    call := fun mem i j => e.call mem j i }

/-- Modelled from the spec: the assignment of a two-dimensional node to the tensor `d`, as for
the element-wise nodes: validation, then the standard evaluation. -/
def assign_matrix {T : Type} (d : Nat) (e : matrix_node T) (mem : memory T) : assign_result T :=
  match validate_assign (.expr (mem d).fast (mem d).dims) (e.traits mem) with
  | .error err => { status := .error err, mem := mem }
  | .ok () => { status := .ok (), mem := std_assign_evaluate e.read_flat d mem }

/-- The exchange `swap(d[p], d[q])` of two elements of a tensor. -/
def memory.swap {T : Type} (mem : memory T) (d p q : Nat) : memory T :=
  (mem.write d p ((mem d).data q)).write d q ((mem d).data p)

/-- Modelled from the spec: the transposition in place of the square block of `n` rows and `n`
columns that starts at flat index `offset` of the tensor `d` (the implementation is not among the
sources): every element above the diagonal is exchanged with its mirror image. -/
def inplace_square_transpose {T : Type} (d offset n : Nat) (mem : memory T) : memory T :=
  (List.range n).foldl
    (fun m i => (List.range n).foldl
      (fun m j => if i < j then m.swap d (offset + i * n + j) (offset + j * n + i) else m) m)
    mem

/-- Modelled from the spec: the member `a.transpose_inplace()` of a square matrix. -/
def transpose_inplace {T : Type} (a : Nat) (mem : memory T) : memory T :=
  inplace_square_transpose a 0 (dim 0 (.expr (mem a).fast (mem a).dims)) mem

/-- Modelled from the spec: the statement `a(k).transpose_inplace()` on the slice `k` of a tensor
of three dimensions whose slices are square: the slice is the block that starts at flat index
`k * (dim1 * dim2)`. -/
def sub_transpose_inplace {T : Type} (a k : Nat) (mem : memory T) : memory T :=
  inplace_square_transpose a
    (k * (dim 1 (.expr (mem a).fast (mem a).dims) * dim 2 (.expr (mem a).fast (mem a).dims)))
    (dim 1 (.expr (mem a).fast (mem a).dims)) mem

/-- Modelled from the spec: the three-index access `a(s, i, j)` of a tensor of three dimensions
in row-major order. -/
def memory.call3 {T : Type} (mem : memory T) (a s i j : Nat) : T :=
  (mem a).data
    (s * (dim 1 (.expr (mem a).fast (mem a).dims) * dim 2 (.expr (mem a).fast (mem a).dims)) +
      i * dim 2 (.expr (mem a).fast (mem a).dims) + j)

/-- The tensors of `transpose/fast_matrix_1` and `transpose/fast_matrix_3`: the 3x2 matrix `a`
at `0`, the 2x3 destination `b` at `1`, and the 3x3 matrix `1..9` at `2`. -/
def transpose_1_memory : memory ℚ :=
  memory.of_list [tensor.of_list true [3, 2] [1, -2, 3, 0.5, 0, -1] 0,
    tensor.of_list true [2, 3] [] 0, tensor.of_list true [3, 3] [1, 2, 3, 4, 5, 6, 7, 8, 9] 0]
    (tensor.of_list false [0] [] 0)

/-- The tensors of `transpose/dyn_matrix_3` and `transpose/expr_1`: the 3x3 matrix `1..9` at `0`
and the 3x3x3 tensor holding `1..9` three times at `1`. -/
def transpose_3_memory : memory Int :=
  memory.of_list [tensor.of_list false [3, 3] [1, 2, 3, 4, 5, 6, 7, 8, 9] 0,
    tensor.of_list false [3, 3, 3]
      [1, 2, 3, 4, 5, 6, 7, 8, 9, 1, 2, 3, 4, 5, 6, 7, 8, 9, 1, 2, 3, 4, 5, 6, 7, 8, 9] 0]
    (tensor.of_list false [0] [] 0)

/-! ## Symmetric matrices -/

/-- Modelled from the spec: the test `is_symmetric(a)` of a matrix value (the adapter
`sym_matrix` and its helpers are not among the sources): `a` is square and `a(i, j) == a(j, i)`
for all `i` and `j`. -/
def is_symmetric {T : Type} [BEq T] (mem : memory T) (a : Nat) : Bool :=
  (.expr (mem a).fast (mem a).dims : operand).dimensions == 2 &&
  dim 0 (.expr (mem a).fast (mem a).dims) == dim 1 (.expr (mem a).fast (mem a).dims) &&
  (List.range (dim 0 (.expr (mem a).fast (mem a).dims))).all (fun i =>
    (List.range (dim 0 (.expr (mem a).fast (mem a).dims))).all (fun j =>
      (matrix_node.value a).call mem i j == (matrix_node.value a).call mem j i))

/-- Modelled from the spec: a freshly constructed symmetric matrix of `n` rows: all zeros. -/
def sym_matrix.construct {T : Type} [Zero T] (fast : Bool) (n : Nat) : tensor T :=
  { fast := fast, dims := [n, n], data := fun _ => 0 }

/-- Modelled from the spec: the element write `b(i, j) = v` on a symmetric matrix: the element
and its mirror image both receive the value. -/
def sym_matrix.set {T : Type} (b i j : Nat) (v : T) (mem : memory T) : memory T :=
  (mem.write b (i * dim 1 (.expr (mem b).fast (mem b).dims) + j) v).write b
    (j * dim 1 (.expr (mem b).fast (mem b).dims) + i) v

/-- Modelled from the spec: the compound element update `b(i, j) op= v` on a symmetric matrix:
the element and its mirror image both receive `b(i, j) op v`. -/
def sym_matrix.update {T : Type} (op : T → T → T) (b i j : Nat) (v : T) (mem : memory T) :
    memory T :=
  sym_matrix.set b i j (op ((matrix_node.value b).call mem i j) v) mem

/-- Modelled from the spec: the assignment `b = a` of a matrix value `a` to a symmetric matrix
`b`: after the validation of the sizes, a source that is not symmetric would break the invariant
of the destination and is refused before any write; a symmetric source is copied. -/
def sym_matrix.assign {T : Type} [BEq T] (b a : Nat) (mem : memory T) : assign_result T :=
  match validate_assign (.expr (mem b).fast (mem b).dims) (.expr (mem a).fast (mem a).dims) with
  | .error err => { status := .error err, mem := mem }
  | .ok () =>
    if is_symmetric mem a then
      { status := .ok (), mem := std_assign_evaluate (fun m i => (expr.value a).read_flat m i) b mem }
    else { status := .error .structural_invariant, mem := mem }

/-- The invariant of a symmetric matrix `b` of `n` rows: it is `n x n` and `b(i, j)` equals
`b(j, i)` for all `i` and `j`. -/
def sym_matrix.invariant {T : Type} (mem : memory T) (b n : Nat) : Prop :=
  (mem b).dims = [n, n] ∧ ∀ i j, i < n → j < n → (mem b).data (i * n + j) = (mem b).data (j * n + i)

/-- The tensors of `sym/fast_matrix/4`: the dense symmetric 3x3 matrix `a` at `0` and a freshly
constructed symmetric matrix `b` at `1`; at `2` a dense 2x2 matrix that is not symmetric and at
`3` a freshly constructed symmetric 2x2 matrix. -/
def sym_4_memory : memory Int :=
  memory.of_list [tensor.of_list true [3, 3] [0, 1, 2, 1, 1, 3, 2, 3, 2] 0,
    sym_matrix.construct true 3, tensor.of_list true [2, 2] [0, 1, 2, 0] 0,
    sym_matrix.construct true 2] (tensor.of_list false [0] [] 0)

/-! ## `im2col` -/

/-- The positions that `im2col_direct` goes through, in order: for every column `b` of the
result (one patch of the input), every row `b_i` and every column `b_j` of the window. -/
def im2col_positions (m_width k1 k2 : Nat) : List (Nat × Nat × Nat) :=
  (List.range m_width).flatMap (fun b =>
    (List.range k1).flatMap (fun b_i => (List.range k2).map (fun b_j => (b, b_i, b_j))))

/-- Modelled from the spec: the function `im2col_direct(C, I, k1, k2)` (its implementation is
not among the sources): with `H = dim0(I) - k1 + 1` and `W = dim1(I) - k2 + 1`, column `b` of `C`
receives the `k1 x k2` patch of `I` whose top-left corner is at row `b % H` and column `b / H`,
read in column-major order: the element `(b_i, b_j)` of the patch goes to row `b_j * k1 + b_i`. -/
def im2col_direct {T : Type} (C I k1 k2 : Nat) (mem : memory T) : memory T :=
  let i1 := dim 0 (.expr (mem I).fast (mem I).dims)
  let i2 := dim 1 (.expr (mem I).fast (mem I).dims)
  let H := i1 - k1 + 1
  let W := i2 - k2 + 1
  let m_width := H * W
  (im2col_positions m_width k1 k2).foldl
    (fun m p => m.write C ((p.2.2 * k1 + p.2.1) * m_width + p.1)
      ((m I).data ((p.1 % H + p.2.1) * i2 + (p.1 / H + p.2.2)))) mem

/-- The tensors of `im2col/im2col_1`: the 4x4 matrix `1..16` at `0` and the 4x9 destination at
`1`. -/
def im2col_1_memory : memory ℚ :=
  memory.of_list [tensor.of_list false [4, 4]
      [1, 2, 3, 4, 5, 6, 7, 8, 9, 10, 11, 12, 13, 14, 15, 16] 0,
    tensor.of_list false [4, 9] [] 0] (tensor.of_list false [0] [] 0)

/-! ## `etl/op/binary_op.hpp`: `max`, `min` and `clip` -/

/-- The algorithm `std::max(a, b)` of the standard library: `(a < b) ? b : a`. -/
def std_max {T : Type} [LT T] [∀ a b : T, Decidable (a < b)] (a b : T) : T :=
  if a < b then b else a

/-- The algorithm `std::min(a, b)` of the standard library: `(b < a) ? b : a`. -/
def std_min {T : Type} [LT T] [∀ a b : T, Decidable (a < b)] (a b : T) : T :=
  if b < a then b else a

/-- The scalar function of `max_binary_op<T, E>`, with `E` taken to be `T` (`std::max` takes
two arguments of one type). -/
def max_binary_op.apply {T : Type} [LT T] [∀ a b : T, Decidable (a < b)] (x value : T) : T :=
  std_max x value

/-- The scalar function of `min_binary_op<T, E>`, with `E` taken to be `T`. -/
def min_binary_op.apply {T : Type} [LT T] [∀ a b : T, Decidable (a < b)] (x value : T) : T :=
  std_min x value

/-- The operator `min_scalar_op<T, S>`, which holds its scalar; `S` is taken to be `T`. -/
structure min_scalar_op (T : Type) where
  /-- The scalar. -/
  s : T

/-- The scalar function `min_scalar_op::apply(x)`. -/
def min_scalar_op.apply {T : Type} [LT T] [∀ a b : T, Decidable (a < b)]
    (op : min_scalar_op T) (x : T) : T :=
  std_min x op.s

/-- The operator `max_scalar_op<T, S>`, which holds its scalar; `S` is taken to be `T`. -/
structure max_scalar_op (T : Type) where
  /-- The scalar. -/
  s : T

/-- The scalar function `max_scalar_op::apply(x)`. -/
def max_scalar_op.apply {T : Type} [LT T] [∀ a b : T, Decidable (a < b)]
    (op : max_scalar_op T) (x : T) : T :=
  std_max x op.s

/-- The operator `clip_scalar_op<T, S>`, which holds its two bounds; `S` is taken to be `T`. -/
structure clip_scalar_op (T : Type) where
  /-- The lower bound. -/
  min : T
  /-- The upper bound. -/
  max : T

/-- The scalar function `clip_scalar_op::apply(x)`. -/
def clip_scalar_op.apply {T : Type} [LT T] [∀ a b : T, Decidable (a < b)]
    (op : clip_scalar_op T) (x : T) : T :=
  std_min (std_max x op.min) op.max

/-- The tensor of `fast_matrix/max` and `fast_matrix/min`: `a` at `0`, the destination `d`
at `1`. -/
def max_memory : memory ℚ :=
  memory.of_list [tensor.of_list true [2, 2] [-1, 2, 0, 1] 0, tensor.of_list true [2, 2] [] 0]
    (tensor.of_list false [0] [] 0)

/-! ## `etl/op/dim_view.hpp`: element access, traits and memory range -/

/-- The constraint `static_assert(D == 1 || D == 2, "Invalid dimension")` of `dim_view`. -/
def dim_view.valid {T : Type} (v : dim_view T) : Except check_error Unit :=
  static_assert (v.D == 1 || v.D == 2)

/-- The element read `dim_view::operator[](j) const`. -/
def dim_view.operator_index {T : Type} (v : dim_view T) (mem : memory T) (j : Nat) : T :=
  if v.D == 1 then v.sub.at2 mem v.i j else v.sub.at2 mem j v.i

/-- The element read `dim_view::operator()(j) const`. -/
def dim_view.operator_call {T : Type} (v : dim_view T) (mem : memory T) (j : Nat) : T :=
  if v.D == 1 then v.sub.at2 mem v.i j else v.sub.at2 mem j v.i

/-- Modelled from the spec: the place that the mutable two-index access `sub(i, j)` refers to (the
value classes are not among the sources): for a value node, the element `i * dim1 + j` of its
tensor; the other nodes return a value, to which nothing can be assigned. -/
def expr.ref2 {T : Type} (mem : memory T) : expr T → Nat → Nat → Option (Nat × Nat)
  | .value id, i, j => some (id, i * dim 1 ((expr.value id : expr T).traits mem) + j)
  | _, _, _ => none

/-- The reference returned by the mutable `dim_view::operator[](j)`. -/
def dim_view.operator_index_ref {T : Type} (v : dim_view T) (mem : memory T) (j : Nat) :
    Option (Nat × Nat) :=
  if v.D == 1 then v.sub.ref2 mem v.i j else v.sub.ref2 mem j v.i

/-- The reference returned by the mutable `dim_view::operator()(j)`. -/
def dim_view.operator_call_ref {T : Type} (v : dim_view T) (mem : memory T) (j : Nat) :
    Option (Nat × Nat) :=
  if v.D == 1 then v.sub.ref2 mem v.i j else v.sub.ref2 mem j v.i

/-- The write of `x` through a reference. -/
def memory.store {T : Type} (mem : memory T) (ref : Option (Nat × Nat)) (x : T) :
    Option (memory T) :=
  ref.map (fun p => mem.write p.1 p.2 x)

/-- The statement `view[j] = x`. -/
def dim_view.set_index {T : Type} (v : dim_view T) (j : Nat) (x : T) (mem : memory T) :
    Option (memory T) :=
  mem.store (v.operator_index_ref mem j) x

/-- The statement `view(j) = x`. -/
def dim_view.set_call {T : Type} (v : dim_view T) (j : Nat) (x : T) (mem : memory T) :
    Option (memory T) :=
  mem.store (v.operator_call_ref mem j) x

/-- The trait `etl_traits<dim_view<T, D>>::size(v)`. -/
def dim_view.size {T : Type} (v : dim_view T) (mem : memory T) : Nat :=
  if v.D == 1 then etl.dim 1 (v.sub.traits mem) else etl.dim 0 (v.sub.traits mem)

/-- The trait `etl_traits<dim_view<T, D>>::dim(v, d)`. -/
def dim_view.dim {T : Type} (v : dim_view T) (mem : memory T) (d : Nat) :
    Except check_error Nat := do
  cpp_assert (d == 0)
  return v.size mem

/-- The trait `etl_traits<dim_view<T, D>>::size()` of a view over a sub expression of a fast
type, whose extents `sub` are part of the type. -/
def dim_view.static_size (D : Nat) (sub : operand) : Nat :=
  if D == 1 then etl.dim 1 sub else etl.dim 0 sub

/-- The trait `etl_traits<dim_view<T, D>>::dim<D2>()`. -/
def dim_view.static_dim (D : Nat) (sub : operand) (D2 : Nat) : Except check_error Nat := do
  static_assert (D2 == 0)
  return dim_view.static_size D sub

/-- The trait `etl_traits<dim_view<T, D>>::dimensions()`. -/
def dim_view.dimensions : Nat := 1

/-- Modelled from the spec: the `direct-memory` flag of a node (`has_direct_access`, not among
the sources): whether a raw pointer to contiguous backing storage exists; a value node has
one, a node that computes its elements has none. -/
def expr.is_direct {T : Type} : expr T → Bool
  | .value _ => true
  | _ => false

/-- The trait `etl_traits<dim_view<T, D>>::is_direct`. -/
def dim_view.is_direct {T : Type} (v : dim_view T) : Bool :=
  v.sub.is_direct && v.D == 1

/-- Modelled from the spec: the helper `subsize(sub)` (not among the sources): the number of
elements of one sub-tensor along the first dimension, `size(sub) / dim<0>(sub)`. -/
def subsize (sub : operand) : Nat := (size sub).getD 0 / dim 0 sub

/-- The accessor `dim_view::memory_start()`, as an address counted in elements;
`sub_memory_start` is the address `sub.memory_start()`. -/
def dim_view.memory_start {T : Type} (v : dim_view T) (mem : memory T)
    (sub_memory_start : Nat) : Except check_error Nat := do
  static_assert (v.sub.is_direct && v.D == 1)
  return sub_memory_start + v.i * subsize (v.sub.traits mem)

/-- The accessor `dim_view::memory_start() const`. -/
def dim_view.memory_start_const {T : Type} (v : dim_view T) (mem : memory T)
    (sub_memory_start : Nat) : Except check_error Nat := do
  static_assert (v.sub.is_direct && v.D == 1)
  return sub_memory_start + v.i * subsize (v.sub.traits mem)

/-- The accessor `dim_view::memory_end()`. -/
def dim_view.memory_end {T : Type} (v : dim_view T) (mem : memory T)
    (sub_memory_start : Nat) : Except check_error Nat := do
  static_assert (v.sub.is_direct && v.D == 1)
  return sub_memory_start + (v.i + 1) * subsize (v.sub.traits mem)

/-- The accessor `dim_view::memory_end() const`. -/
def dim_view.memory_end_const {T : Type} (v : dim_view T) (mem : memory T)
    (sub_memory_start : Nat) : Except check_error Nat := do
  static_assert (v.sub.is_direct && v.D == 1)
  return sub_memory_start + (v.i + 1) * subsize (v.sub.traits mem)

/-- The matrix of the examples on views: the fixed-size 2x3 matrix `{1, 2, 3, 4, 5, 6}`. -/
def dim_view_memory : memory Int :=
  memory.of_list [tensor.of_list true [2, 3] [1, 2, 3, 4, 5, 6] 0] (tensor.of_list false [0] [] 0)

/-- The tensors of `mem` and `mem2` have the same shapes: the same extents, known statically or at
run time in both; their elements may differ. -/
def memory.same_shapes {T : Type} (mem mem2 : memory T) : Prop :=
  ∀ id, (mem id).fast = (mem2 id).fast ∧ (mem id).dims = (mem2 id).dims

/-! ## GPU residency: `etl/impl/cublas/outer.hpp` and `etl/impl/cudnn/conv.hpp` -/

/-- An operand of an accelerated operation: a tensor, or the sub view `e(i)` of an operand,
which has a residency of its own. -/
inductive gpu_operand where
  | tensor (id : Nat)
  | sub (e : gpu_operand) (i : Nat)
deriving DecidableEq, Repr

/-- Modelled from the spec: the residency of the data of an operand (the GPU memory handler
behind `direct()` is not among the sources): whether device memory is allocated for it, whether
its host copy is current (not stale) and whether its device copy is current. -/
structure gpu_memory_handler where
  /-- Device memory is allocated. -/
  gpu_allocated : Bool
  /-- The host copy is current: it is not marked stale. -/
  cpu_up_to_date : Bool
  /-- The device copy is current. -/
  gpu_up_to_date : Bool
deriving DecidableEq, Repr

/-- Modelled from the spec: `ensure_gpu_allocated()` allocates device memory when there is
none. -/
def gpu_memory_handler.ensure_gpu_allocated (h : gpu_memory_handler) : gpu_memory_handler :=
  { h with gpu_allocated := true }

/-- Modelled from the spec: `ensure_gpu_up_to_date()` makes the operand current on the device:
device memory is allocated when there is none and the host copy is transferred when the
device copy is not current. -/
def gpu_memory_handler.ensure_gpu_up_to_date (h : gpu_memory_handler) : gpu_memory_handler :=
  { h with gpu_allocated := true, gpu_up_to_date := true }

/-- Modelled from the spec: `invalidate_cpu()` marks the host copy stale. -/
def gpu_memory_handler.invalidate_cpu (h : gpu_memory_handler) : gpu_memory_handler :=
  { h with cpu_up_to_date := false }

/-- Modelled from the spec: `gpu_allocate_if_necessary()` allocates device memory when there
is none. -/
def gpu_memory_handler.gpu_allocate_if_necessary (h : gpu_memory_handler) :
    gpu_memory_handler :=
  { h with gpu_allocated := true }

/-- Modelled from the spec: `gpu_allocate_copy_if_necessary()` allocates device memory when
there is none and then transfers the host copy to it. -/
def gpu_memory_handler.gpu_allocate_copy_if_necessary (h : gpu_memory_handler) :
    gpu_memory_handler :=
  if h.gpu_allocated then h else { h with gpu_allocated := true, gpu_up_to_date := true }

/-- Modelled from the spec: `gpu_copy_from()` transfers the device copy back to the host, which
makes the host copy current. -/
def gpu_memory_handler.gpu_copy_from (h : gpu_memory_handler) : gpu_memory_handler :=
  { h with cpu_up_to_date := true }

/-- Modelled from the spec: `gpu_evict()` releases the device memory. -/
def gpu_memory_handler.gpu_evict (h : gpu_memory_handler) : gpu_memory_handler :=
  { h with gpu_allocated := false, gpu_up_to_date := false }

/-- The backend functions that compute on device memory. -/
inductive gpu_kernel where
  | cublasSgemm
  | cublasDgemm
  | cudnnConvolutionForward
  | cudnnConvolutionBackwardData
deriving DecidableEq, Repr

/-- What an accelerated operation does to the residency of its operands, step by step: a call of
a method of the memory handler of an operand, or the backend call, which reads the device
memory of `inputs` and writes that of `output`. -/
inductive gpu_event where
  | ensure_gpu_up_to_date (e : gpu_operand)
  | ensure_gpu_allocated (e : gpu_operand)
  | invalidate_cpu (e : gpu_operand)
  | gpu_allocate_copy_if_necessary (e : gpu_operand)
  | gpu_allocate_if_necessary (e : gpu_operand)
  | gpu_copy_from (e : gpu_operand)
  | gpu_evict (e : gpu_operand)
  | backend_call (f : gpu_kernel) (inputs : List gpu_operand) (output : gpu_operand)
deriving DecidableEq, Repr

/-- The residency of every operand. -/
abbrev gpu_residency := gpu_operand → gpu_memory_handler

/-- The effect of one step on the residency. The backend call writes the device memory of its
output, whose device copy is current afterwards; it does not touch any host flag. -/
def gpu_event.apply (s : gpu_residency) : gpu_event → gpu_residency
  | .ensure_gpu_up_to_date e => Function.update s e (s e).ensure_gpu_up_to_date
  | .ensure_gpu_allocated e => Function.update s e (s e).ensure_gpu_allocated
  | .invalidate_cpu e => Function.update s e (s e).invalidate_cpu
  | .gpu_allocate_copy_if_necessary e => Function.update s e (s e).gpu_allocate_copy_if_necessary
  | .gpu_allocate_if_necessary e => Function.update s e (s e).gpu_allocate_if_necessary
  | .gpu_copy_from e => Function.update s e (s e).gpu_copy_from
  | .gpu_evict e => Function.update s e (s e).gpu_evict
  | .backend_call _ _ output => Function.update s output { s output with gpu_up_to_date := true }

/-- The residency after the steps of an operation, in program order. -/
def gpu_run (steps : List gpu_event) (s : gpu_residency) : gpu_residency :=
  steps.foldl gpu_event.apply s

/-- Whether a step is a backend call. -/
def gpu_event.is_backend_call : gpu_event → Bool
  | .backend_call _ _ _ => true
  | _ => false

/-- The steps of an operation that come before its first backend call. -/
def gpu_before_call (steps : List gpu_event) : List gpu_event :=
  steps.takeWhile (fun ev => !ev.is_backend_call)

/-- The steps of `impl::cublas::batch_outer(a, b, c)` on the residency of its operands, in
program order; `single` selects the single precision overload (`cublasSgemm`), otherwise the
double precision one (`cublasDgemm`). -/
def cublas.batch_outer (single : Bool) (a b c : gpu_operand) : List gpu_event :=
  [.ensure_gpu_up_to_date a, .ensure_gpu_up_to_date b, .ensure_gpu_allocated c,
    .backend_call (if single then .cublasSgemm else .cublasDgemm) [b, a] c,
    .invalidate_cpu c]

/-- The steps on the residency of the operands that are common to the cuDNN forward
convolutions `conv2_valid`, `conv4_valid`, `conv2_valid_multi` and `conv2_valid_multi_flipped`,
in program order. -/
def cudnn.forward_residency (input kernel conv : gpu_operand) : List gpu_event :=
  [.gpu_allocate_copy_if_necessary input, .gpu_allocate_copy_if_necessary kernel,
    .gpu_allocate_if_necessary conv,
    .backend_call .cudnnConvolutionForward [input, kernel] conv]

/-- The steps on the residency of the operands that are common to the cuDNN backward-data
convolutions `conv2_full`, `conv2_full_flipped`, `conv4_full`, `conv2_full_multi_real` and
`conv2_full_multi_flipped_real`, in program order. -/
def cudnn.backward_data_residency (input kernel conv : gpu_operand) : List gpu_event :=
  [.gpu_allocate_copy_if_necessary input, .gpu_allocate_copy_if_necessary kernel,
    .gpu_allocate_if_necessary conv,
    .backend_call .cudnnConvolutionBackwardData [kernel, input] conv]

/-- The steps of `impl::cudnn::conv2_valid(input, kernel, conv)` on the residency. -/
def cudnn.conv2_valid_residency (input kernel conv : gpu_operand) : List gpu_event :=
  cudnn.forward_residency input kernel conv

/-- The steps of `impl::cudnn::conv4_valid(input, kernel, conv)` on the residency. -/
def cudnn.conv4_valid_residency (input kernel conv : gpu_operand) : List gpu_event :=
  cudnn.forward_residency input kernel conv

/-- The steps of `impl::cudnn::conv2_valid_multi(input, kernel, conv)` on the residency. -/
def cudnn.conv2_valid_multi_residency (input kernel conv : gpu_operand) : List gpu_event :=
  cudnn.forward_residency input kernel conv

/-- The steps of `impl::cudnn::conv2_valid_multi_flipped(input, kernel, conv)` on the
residency. -/
def cudnn.conv2_valid_multi_flipped_residency (input kernel conv : gpu_operand) :
    List gpu_event :=
  cudnn.forward_residency input kernel conv

/-- The steps of `impl::cudnn::conv2_full(input, kernel, conv)` on the residency. -/
def cudnn.conv2_full_residency (input kernel conv : gpu_operand) : List gpu_event :=
  cudnn.backward_data_residency input kernel conv

/-- The steps of `impl::cudnn::conv2_full_flipped(input, kernel, conv)` on the residency. -/
def cudnn.conv2_full_flipped_residency (input kernel conv : gpu_operand) : List gpu_event :=
  cudnn.backward_data_residency input kernel conv

/-- The steps of `impl::cudnn::conv4_full(input, kernel, conv)` on the residency. -/
def cudnn.conv4_full_residency (input kernel conv : gpu_operand) : List gpu_event :=
  cudnn.backward_data_residency input kernel conv

/-- The steps of `impl::cudnn::conv2_full_multi(input, kernel, conv)` on the residency, for a
kernel of `K` sub kernels: for every `i`, `conv2_full` on `kernel(i)` and `conv(i)`, then
`gpu_copy_from` and `gpu_evict` on `conv(i)`. -/
def cudnn.conv2_full_multi_residency (K : Nat) (input kernel conv : gpu_operand) :
    List gpu_event :=
  (List.range K).flatMap (fun i =>
    cudnn.conv2_full_residency input (.sub kernel i) (.sub conv i) ++
      [.gpu_copy_from (.sub conv i), .gpu_evict (.sub conv i)])

/-- The steps of `impl::cudnn::conv2_full_multi_flipped(input, kernel, conv)` on the
residency. -/
def cudnn.conv2_full_multi_flipped_residency (K : Nat) (input kernel conv : gpu_operand) :
    List gpu_event :=
  (List.range K).flatMap (fun i =>
    cudnn.conv2_full_flipped_residency input (.sub kernel i) (.sub conv i) ++
      [.gpu_copy_from (.sub conv i), .gpu_evict (.sub conv i)])

/-- The residency of operands that live on the host only: nothing is allocated on the device
and every host copy is current. -/
def gpu_host_only : gpu_residency :=
  fun _ => { gpu_allocated := false, cpu_up_to_date := true, gpu_up_to_date := false }

/-! ## The types `std::size_t` and `double`, and the derivative of the average pooling
(`etl/builder/pooling_expression_builder.hpp`) -/

/-- The product of two values of type `std::size_t` (64 bits): the product modulo `2^64`. -/
def size_t.mul (a b : Nat) : Nat := (a * b) % 2 ^ 64

/-- The integer nearest to `x`, the even one of the two when `x` is half-way between them. -/
def round_half_even (x : ℚ) : ℤ :=
  if x - ⌊x⌋ < 1 / 2 then ⌊x⌋
  else if 1 / 2 < x - ⌊x⌋ then ⌊x⌋ + 1
  else if ⌊x⌋ % 2 = 0 then ⌊x⌋ else ⌊x⌋ + 1

/-- The value of type `double` (IEEE 754 binary64) nearest to the rational `q`: `q` is rounded to
a significand of 53 bits, to nearest, ties to even. The exponent range is not modelled: the
values met here lie between `2^-64` and `2^64`, far inside it. -/
def binary64.round (q : ℚ) : ℚ :=
  if q = 0 then 0
  else round_half_even (q / 2 ^ (Int.log 2 |q| - 52)) * 2 ^ (Int.log 2 |q| - 52)

/-- A value of type `double` that is not negative: a finite value, `+infinity` or a NaN. -/
inductive cpp_double where
  | finite (q : ℚ)
  | infinity
  | nan
deriving DecidableEq

/-- The conversion of a `std::size_t` to `double`. -/
def cpp_double.of_size_t (n : Nat) : cpp_double := .finite (binary64.round n)

/-- The quotient `a / b` of two values of type `double` that are not negative. -/
def cpp_double.div : cpp_double → cpp_double → cpp_double
  | .finite a, .finite b =>
    if b = 0 then (if a = 0 then .nan else .infinity) else .finite (binary64.round (a / b))
  | .finite _, .infinity => .finite 0
  | .infinity, .finite _ => .infinity
  | _, _ => .nan

/-- The product `a * b` of two values of type `double` that are not negative. -/
def cpp_double.mul : cpp_double → cpp_double → cpp_double
  | .finite a, .finite b => .finite (binary64.round (a * b))
  | .finite a, .infinity => if a = 0 then .nan else .infinity
  | .infinity, .finite b => if b = 0 then .nan else .infinity
  | .infinity, .infinity => .infinity
  | _, _ => .nan

/-- The function template `avg_pool_derivative_2d<C1, C2>(input, output)`:
`return 1.0 / (C1 * C2);`. -/
def avg_pool_derivative_2d_static (C1 C2 : Nat) {E F : Type} (_input : E) (_output : F) :
    cpp_double :=
  cpp_double.div (.finite 1) (cpp_double.of_size_t (size_t.mul C1 C2))

/-- The function `avg_pool_derivative_2d(input, output, c1, c2)`: `return 1.0 / (c1 * c2);`. -/
def avg_pool_derivative_2d {E F : Type} (_input : E) (_output : F) (c1 c2 : Nat) :
    cpp_double :=
  cpp_double.div (.finite 1) (cpp_double.of_size_t (size_t.mul c1 c2))

/-- The function template `avg_pool_derivative_3d<C1, C2, C3>(input, output)`:
`return 1.0 / (C1 * C2 * C3);`. -/
def avg_pool_derivative_3d_static (C1 C2 C3 : Nat) {E F : Type} (_input : E) (_output : F) :
    cpp_double :=
  cpp_double.div (.finite 1) (cpp_double.of_size_t (size_t.mul (size_t.mul C1 C2) C3))

/-- The function `avg_pool_derivative_3d(input, output, c1, c2, c3)`:
`return 1.0 / (c1 * c2 * c3);`. -/
def avg_pool_derivative_3d {E F : Type} (_input : E) (_output : F) (c1 c2 c3 : Nat) :
    cpp_double :=
  cpp_double.div (.finite 1) (cpp_double.of_size_t (size_t.mul (size_t.mul c1 c2) c3))

/-! ## Shape checks -/

theorem static_assert_ok_iff (c : Bool) : static_assert c = .ok () ↔ c = true := by
  cases c <;> simp [static_assert]

theorem cpp_assert_ok_iff (c : Bool) : cpp_assert c = .ok () ↔ c = true := by
  cases c <;> simp [cpp_assert]

theorem validate_expression_generator (lhs rhs : operand) (hl : is_etl_expr lhs = true)
    (hr : is_etl_expr rhs = true)
    (hg : lhs.is_generator = true ∨ rhs.is_generator = true) :
    validate_expression lhs rhs = .ok () := by
  cases lhs <;> cases rhs <;>
    simp_all [validate_expression, validate_expression_impl, call, static_assert, is_etl_expr,
      operand.is_generator, validate_expression_impl_generator, validate_expression_impl_dyn,
      validate_expression_impl_fast, all_etl_expr, all_fast, operand.is_fast, bind, Except.bind]

theorem validate_expression_sized (f g : Bool) (ds es : List Nat) :
    validate_expression (.expr f ds) (.expr g es) = .ok () ↔ ds.prod = es.prod := by
  cases f <;> cases g <;>
    simp [validate_expression, validate_expression_impl, call, static_assert, cpp_assert,
      is_etl_expr, operand.is_generator, validate_expression_impl_generator,
      validate_expression_impl_dyn, validate_expression_impl_fast, all_etl_expr, all_fast,
      operand.is_fast, bind, Except.bind, size]

theorem validate_expression_not_etl (lhs rhs : operand)
    (h : is_etl_expr lhs = false ∨ is_etl_expr rhs = false) :
    validate_expression lhs rhs = .error .static_assertion := by
  cases lhs <;> cases rhs <;>
    simp_all [validate_expression, static_assert, is_etl_expr, bind, Except.bind]

theorem validate_expression_size_mismatch (lhs rhs : operand)
    (hl : lhs.is_generator = false) (hr : rhs.is_generator = false)
    (hs : size lhs ≠ size rhs) :
    ∃ err, validate_expression lhs rhs = .error err := by
  cases lhs with
  | container n => exact ⟨_, validate_expression_not_etl _ _ (Or.inl rfl)⟩
  | generator => simp [operand.is_generator] at hl
  | expr f ds =>
    cases rhs with
    | container n => exact ⟨_, validate_expression_not_etl _ _ (Or.inr rfl)⟩
    | generator => simp [operand.is_generator] at hr
    | expr g es =>
      have hne : ¬ validate_expression (.expr f ds) (.expr g es) = .ok () := by
        rw [validate_expression_sized]
        intro h
        exact hs (by simp [size, h])
      cases hv : validate_expression (.expr f ds) (.expr g es) with
      | error err => exact ⟨err, rfl⟩
      | ok u => exact absurd hv hne

/-- C2: `validate_expression(lhs, rhs)` on two ETL expressions succeeds whenever one of them is
a generator, and when neither is a generator it succeeds exactly when `size(lhs) == size(rhs)`. -/
theorem validate_expression_succeeds_iff (lhs rhs : operand) (hl : is_etl_expr lhs = true)
    (hr : is_etl_expr rhs = true) :
    (lhs.is_generator = true ∨ rhs.is_generator = true →
      validate_expression lhs rhs = .ok ()) ∧
    (lhs.is_generator = false → rhs.is_generator = false →
      (validate_expression lhs rhs = .ok () ↔ size lhs = size rhs)) := by
  refine ⟨validate_expression_generator lhs rhs hl hr, ?_⟩
  intro hgl hgr
  cases lhs with
  | container n => simp [is_etl_expr] at hl
  | generator => simp [operand.is_generator] at hgl
  | expr f ds =>
    cases rhs with
    | container n => simp [is_etl_expr] at hr
    | generator => simp [operand.is_generator] at hgr
    | expr g es => simp [validate_expression_sized, size]

/-- Witness for C2: a generator against a 2x2 matrix, and two dynamic matrices of four
elements. -/
theorem validate_expression_succeeds_iff_witness :
    validate_expression .generator (.expr false [2, 2]) = .ok () ∧
    (validate_expression (.expr false [2, 2]) (.expr false [4]) = .ok () ↔
      size (.expr false [2, 2]) = size (.expr false [4])) :=
  ⟨(validate_expression_succeeds_iff .generator (.expr false [2, 2]) rfl rfl).1 (Or.inl rfl),
   (validate_expression_succeeds_iff (.expr false [2, 2]) (.expr false [4]) rfl rfl).2 rfl rfl⟩

/-- Counterexample to C3 as stated: a 2x3 matrix and a 3x2 matrix have different shapes, yet
`validate_expression` accepts the pair and the binary node over them is built. -/
theorem validate_expression_accepts_2x3_3x2 :
    ([2, 3] : List Nat) ≠ [3, 2] ∧
    validate_expression (.expr false [2, 3]) (.expr false [3, 2]) = .ok () ∧
    ∃ e, binary_expr (fun id => if id = 0 then ⟨false, [2, 3], fun _ => (0 : Int)⟩
        else ⟨false, [3, 2], fun _ => 0⟩) plus_binary_op.apply (.value 0) (.value 1) = .ok e :=
  ⟨by decide, rfl, ⟨_, rfl⟩⟩

/-- C3 (amended): two operands that are not generators and whose sizes (element counts) differ
are rejected by `validate_expression`, so no binary node is built over them. -/
theorem validate_expression_rejects_size_mismatch (lhs rhs : operand)
    (hl : lhs.is_generator = false) (hr : rhs.is_generator = false)
    (hs : size lhs ≠ size rhs) :
    (∃ err, validate_expression lhs rhs = .error err) ∧
    ∀ (T : Type) (mem : memory T) (op : T → T → T) (l r : expr T),
      l.traits mem = lhs → r.traits mem = rhs →
      ∃ err, binary_expr mem op l r = .error err := by
  obtain ⟨err, herr⟩ := validate_expression_size_mismatch lhs rhs hl hr hs
  refine ⟨⟨err, herr⟩, ?_⟩
  intro T mem op l r htl htr
  refine ⟨err, ?_⟩
  simp [binary_expr, htl, htr, herr, bind, Except.bind]

/-- Witness for C3 (amended): a 2x3 matrix against a 2x2 matrix. -/
theorem validate_expression_rejects_size_mismatch_witness :
    (∃ err, validate_expression (.expr false [2, 3]) (.expr false [2, 2]) = .error err) ∧
    ∀ (T : Type) (mem : memory T) (op : T → T → T) (l r : expr T),
      l.traits mem = .expr false [2, 3] → r.traits mem = .expr false [2, 2] →
      ∃ err, binary_expr mem op l r = .error err :=
  validate_expression_rejects_size_mismatch (.expr false [2, 3]) (.expr false [2, 2]) rfl rfl
    (by decide)

theorem is_etl_expr_container (n : Nat) : is_etl_expr (.container n) = false := rfl

theorem is_etl_expr_generator : is_etl_expr .generator = true := rfl

theorem is_etl_expr_expr (f : Bool) (ds : List Nat) : is_etl_expr (.expr f ds) = true := rfl

theorem validate_assign_generator_ok (lhs rhs : operand) (hl : is_etl_expr lhs = true)
    (hg : rhs.is_generator = true) : validate_assign lhs rhs = .ok () := by
  cases rhs <;> simp [operand.is_generator] at hg
  simp [validate_assign, validate_assign_overloads, call, validate_assign_generator,
    validate_assign_dyn, validate_assign_fast, validate_assign_container, all_etl_expr,
    is_etl_expr_generator, operand.is_generator, static_assert, hl]

theorem validate_assign_sized_ok_iff (lhs rhs : operand) (hl : is_etl_expr lhs = true)
    (hg : rhs.is_generator = false) :
    validate_assign lhs rhs = .ok () ↔ size lhs = size rhs := by
  cases rhs with
  | generator => simp [operand.is_generator] at hg
  | container n =>
    simp [validate_assign, validate_assign_overloads, call, validate_assign_generator,
      validate_assign_dyn, validate_assign_fast, validate_assign_container, all_etl_expr,
      is_etl_expr_container, operand.is_generator, static_assert, cpp_assert, hl, bind,
      Except.bind]
  | expr g es =>
    cases h : all_fast [lhs, .expr g es] <;>
      simp [validate_assign, validate_assign_overloads, call, validate_assign_generator,
        validate_assign_dyn, validate_assign_fast, validate_assign_container, all_etl_expr,
        is_etl_expr_expr, operand.is_generator, static_assert, cpp_assert, hl, h, bind,
        Except.bind]

theorem validate_assign_one_overload (lhs rhs : operand) :
    (validate_assign_overloads.filter (fun o => o.enabled (lhs, rhs))).length = 1 := by
  cases rhs with
  | generator =>
    simp [validate_assign_overloads, validate_assign_generator, validate_assign_dyn,
      validate_assign_fast, validate_assign_container, all_etl_expr, is_etl_expr,
      operand.is_generator]
  | container n =>
    simp [validate_assign_overloads, validate_assign_generator, validate_assign_dyn,
      validate_assign_fast, validate_assign_container, all_etl_expr, is_etl_expr,
      operand.is_generator]
  | expr g es =>
    cases h : all_fast [lhs, .expr g es] <;>
      simp [validate_assign_overloads, validate_assign_generator, validate_assign_dyn,
        validate_assign_fast, validate_assign_container, all_etl_expr, is_etl_expr,
        operand.is_generator, h]

/-- C4: for a destination `lhs` that is an ETL expression, `validate_assign(lhs, rhs)` succeeds
when `rhs` is a generator, and for every other `rhs` (ETL expression or plain container) it
succeeds exactly when `size(lhs) == size(rhs)`; for every pair of operands exactly one of the four
overloads is enabled. -/
theorem validate_assign_succeeds_iff (lhs rhs : operand) (hl : is_etl_expr lhs = true) :
    (rhs.is_generator = true → validate_assign lhs rhs = .ok ()) ∧
    (rhs.is_generator = false → (validate_assign lhs rhs = .ok () ↔ size lhs = size rhs)) ∧
    (validate_assign_overloads.filter (fun o => o.enabled (lhs, rhs))).length = 1 :=
  ⟨validate_assign_generator_ok lhs rhs hl, validate_assign_sized_ok_iff lhs rhs hl,
    validate_assign_one_overload lhs rhs⟩

/-- Witness for C4: a plain container of four elements assigned to a fast 2x2 matrix. -/
theorem validate_assign_succeeds_iff_witness :
    (operand.is_generator (.container 4) = true →
      validate_assign (.expr true [2, 2]) (.container 4) = .ok ()) ∧
    (operand.is_generator (.container 4) = false →
      (validate_assign (.expr true [2, 2]) (.container 4) = .ok () ↔
        size (.expr true [2, 2]) = size (.container 4))) ∧
    (validate_assign_overloads.filter
      (fun o => o.enabled (.expr true [2, 2], .container 4))).length = 1 :=
  validate_assign_succeeds_iff (.expr true [2, 2]) (.container 4) rfl

theorem validate_pmax_pooling_2d (C1 C2 d0 d1 : Nat) :
    validate_pmax_pooling C1 C2 (.expr false [d0, d1]) = .ok () ↔
      d0 % C1 = 0 ∧ d1 % C2 = 0 := by
  simp [validate_pmax_pooling, validate_pmax_pooling_impl, call,
    validate_pmax_pooling_impl_2d_dyn, validate_pmax_pooling_impl_3d_dyn,
    validate_pmax_pooling_impl_2d_fast, validate_pmax_pooling_impl_3d_fast,
    operand.dimensions, operand.is_fast, is_etl_expr, static_assert, cpp_assert, dim, bind,
    Except.bind]

theorem validate_pmax_pooling_3d (C1 C2 d0 d1 d2 : Nat) :
    validate_pmax_pooling C1 C2 (.expr false [d0, d1, d2]) = .ok () ↔
      d1 % C1 = 0 ∧ d2 % C2 = 0 := by
  simp [validate_pmax_pooling, validate_pmax_pooling_impl, call,
    validate_pmax_pooling_impl_2d_dyn, validate_pmax_pooling_impl_3d_dyn,
    validate_pmax_pooling_impl_2d_fast, validate_pmax_pooling_impl_3d_fast,
    operand.dimensions, operand.is_fast, is_etl_expr, static_assert, cpp_assert, dim, bind,
    Except.bind]

theorem p_max_pool_h_checks_first (C1 C2 : Nat) (e : operand) (he : is_etl_expr e = true) :
    (∀ err, validate_pmax_pooling C1 C2 e = .error err → p_max_pool_h C1 C2 e = .error err) ∧
    (validate_pmax_pooling C1 C2 e = .ok () →
      p_max_pool_h C1 C2 e = .ok (.p_max_pool_h_transformer C1 C2 e)) := by
  constructor
  · intro err h
    simp [p_max_pool_h, he, h, bind, Except.bind]
  · intro h
    simp [p_max_pool_h, he, h, bind, Except.bind, pure, Except.pure]

theorem p_max_pool_p_checks_first (C1 C2 : Nat) (e : operand) (he : is_etl_expr e = true) :
    (∀ err, validate_pmax_pooling C1 C2 e = .error err → p_max_pool_p C1 C2 e = .error err) ∧
    (validate_pmax_pooling C1 C2 e = .ok () →
      p_max_pool_p C1 C2 e = .ok (.p_max_pool_p_transformer C1 C2 e)) := by
  constructor
  · intro err h
    simp [p_max_pool_p, he, h, bind, Except.bind]
  · intro h
    simp [p_max_pool_p, he, h, bind, Except.bind, pure, Except.pure]

/-- C10: for ratios `C1, C2 >= 1` (the ratios for which C++ defines `%`),
`validate_pmax_pooling<C1, C2>(e)` succeeds on a dynamically sized 2D expression exactly when
`dim0 % C1 == 0` and `dim1 % C2 == 0`, and on a dynamically sized 3D expression exactly when
`dim1 % C1 == 0` and `dim2 % C2 == 0`; `p_max_pool_h` and `p_max_pool_p` run the check first: they
fail with its error when it fails and build their node when it passes. -/
theorem validate_pmax_pooling_succeeds_iff (C1 C2 : Nat) (h1 : 1 ≤ C1) (h2 : 1 ≤ C2) :
    (∀ d0 d1, validate_pmax_pooling C1 C2 (.expr false [d0, d1]) = .ok () ↔
      d0 % C1 = 0 ∧ d1 % C2 = 0) ∧
    (∀ d0 d1 d2, validate_pmax_pooling C1 C2 (.expr false [d0, d1, d2]) = .ok () ↔
      d1 % C1 = 0 ∧ d2 % C2 = 0) ∧
    (∀ e, is_etl_expr e = true →
      (∀ err, validate_pmax_pooling C1 C2 e = .error err →
        p_max_pool_h C1 C2 e = .error err ∧ p_max_pool_p C1 C2 e = .error err) ∧
      (validate_pmax_pooling C1 C2 e = .ok () →
        p_max_pool_h C1 C2 e = .ok (.p_max_pool_h_transformer C1 C2 e) ∧
        p_max_pool_p C1 C2 e = .ok (.p_max_pool_p_transformer C1 C2 e))) := by
  have _ := h1
  have _ := h2
  refine ⟨fun d0 d1 => validate_pmax_pooling_2d C1 C2 d0 d1,
    fun d0 d1 d2 => validate_pmax_pooling_3d C1 C2 d0 d1 d2, ?_⟩
  intro e he
  exact ⟨fun err h => ⟨(p_max_pool_h_checks_first C1 C2 e he).1 err h,
      (p_max_pool_p_checks_first C1 C2 e he).1 err h⟩,
    fun h => ⟨(p_max_pool_h_checks_first C1 C2 e he).2 h,
      (p_max_pool_p_checks_first C1 C2 e he).2 h⟩⟩


/-! ## Standard evaluation -/

theorem memory.write_other {T : Type} (mem : memory T) (d i : Nat) (v : T) (id : Nat)
    (h : id ≠ d) : (mem.write d i v) id = mem id := by
  simp [memory.write, Function.update, h]

theorem memory.write_fast {T : Type} (mem : memory T) (d i : Nat) (v : T) :
    ((mem.write d i v) d).fast = (mem d).fast := by
  simp [memory.write]

theorem memory.write_dims {T : Type} (mem : memory T) (d i : Nat) (v : T) :
    ((mem.write d i v) d).dims = (mem d).dims := by
  simp [memory.write]

theorem memory.write_data {T : Type} (mem : memory T) (d i : Nat) (v : T) (j : Nat) :
    ((mem.write d i v) d).data j = if j = i then v else (mem d).data j := by
  simp [memory.write, Function.update]

theorem memory.agree_from_refl {T : Type} (d k : Nat) (mem : memory T) :
    memory.agree_from d k mem mem :=
  ⟨fun _ _ => rfl, rfl, rfl, fun _ _ => rfl⟩

theorem std_evaluate_loop {T : Type} (combine : T → T → T) (read_flat : memory T → Nat → T)
    (d : Nat) (mem : memory T)
    (hst : ∀ k m, memory.agree_from d k m mem → read_flat m k = read_flat mem k) (n : Nat) :
    memory.agree_from d n
      ((List.range n).foldl
        (fun m i => m.write d i (combine ((m d).data i) (read_flat m i))) mem) mem ∧
    ∀ i, i < n →
      (((List.range n).foldl
        (fun m i => m.write d i (combine ((m d).data i) (read_flat m i))) mem) d).data i =
      combine ((mem d).data i) (read_flat mem i) := by
  induction n with
  | zero => exact ⟨memory.agree_from_refl d 0 mem, fun i hi => absurd hi (Nat.not_lt_zero i)⟩
  | succ n ih =>
    obtain ⟨hag, hlt⟩ := ih
    rw [List.range_succ, List.foldl_append]
    simp only [List.foldl_cons, List.foldl_nil]
    have hread := hst n _ hag
    obtain ⟨hoth, hfast, hdims, hge⟩ := hag
    have hn := hge n (Nat.le_refl n)
    refine ⟨⟨?_, ?_, ?_, ?_⟩, ?_⟩
    · intro id hid
      rw [memory.write_other _ _ _ _ _ hid]
      exact hoth id hid
    · rw [memory.write_fast]; exact hfast
    · rw [memory.write_dims]; exact hdims
    · intro i hi
      rw [memory.write_data]
      have hne : i ≠ n := by omega
      simp only [hne, if_false]
      exact hge i (by omega)
    · intro i hi
      rw [memory.write_data]
      by_cases hin : i = n
      · subst hin
        simp only [if_true]
        rw [hread, hn]
      · simp only [hin, if_false]
        exact hlt i (by omega)

theorem std_evaluate_spec {T : Type} (combine : T → T → T) (read_flat : memory T → Nat → T)
    (d : Nat) (mem : memory T)
    (hst : ∀ k m, memory.agree_from d k m mem → read_flat m k = read_flat mem k) :
    (∀ id, id ≠ d → (std_evaluate combine read_flat d mem) id = mem id) ∧
    ((std_evaluate combine read_flat d mem) d).fast = (mem d).fast ∧
    ((std_evaluate combine read_flat d mem) d).dims = (mem d).dims ∧
    ∀ i, ((std_evaluate combine read_flat d mem) d).data i =
      if i < mem.size d then combine ((mem d).data i) (read_flat mem i) else (mem d).data i := by
  obtain ⟨⟨hoth, hfast, hdims, hge⟩, hlt⟩ :=
    std_evaluate_loop combine read_flat d mem hst (mem.size d)
  refine ⟨hoth, hfast, hdims, ?_⟩
  intro i
  by_cases hi : i < mem.size d
  · simp only [hi, if_true]
    exact hlt i hi
  · simp only [hi, if_false]
    exact hge i (by omega)

theorem expr.read_flat_agree {T : Type} (d k : Nat) (m mem : memory T)
    (h : memory.agree_from d k m mem) (e : expr T) : e.read_flat m k = e.read_flat mem k := by
  induction e with
  | value id =>
    by_cases hid : id = d
    · subst hid
      exact h.2.2.2 k (Nat.le_refl k)
    · simp only [expr.read_flat]
      rw [h.1 id hid]
  | scalar s => rfl
  | generator g => rfl
  | unary op sub ih => simp only [expr.read_flat, ih]
  | binary op lhs rhs ihl ihr => simp only [expr.read_flat, ihl, ihr]


theorem std_evaluate_expr {T : Type} (combine : T → T → T) (e : expr T) (d : Nat)
    (mem : memory T) :
    (∀ id, ((std_evaluate combine (fun m i => e.read_flat m i) d mem) id).fast = (mem id).fast ∧
      ((std_evaluate combine (fun m i => e.read_flat m i) d mem) id).dims = (mem id).dims) ∧
    ∀ id i, ((std_evaluate combine (fun m i => e.read_flat m i) d mem) id).data i =
      if id = d ∧ i < mem.size d then combine ((mem d).data i) (e.read_flat mem i)
      else (mem id).data i := by
  obtain ⟨hoth, hfast, hdims, hdata⟩ :=
    std_evaluate_spec combine (fun m i => e.read_flat m i) d mem
      (fun k m h => expr.read_flat_agree d k m mem h e)
  constructor
  · intro id
    by_cases hid : id = d
    · subst hid; exact ⟨hfast, hdims⟩
    · rw [hoth id hid]; exact ⟨rfl, rfl⟩
  · intro id i
    by_cases hid : id = d
    · subst hid
      rw [hdata i]
      simp
    · rw [hoth id hid]
      simp [hid]

theorem assign_with_error {T : Type}
    (evaluate : (memory T → Nat → T) → Nat → memory T → memory T) (d : Nat) (e : expr T)
    (mem : memory T) (err : check_error)
    (h : validate_assign (.expr (mem d).fast (mem d).dims) (e.traits mem) = .error err) :
    assign_with evaluate d e mem = { status := .error err, mem := mem } := by
  simp [assign_with, h]

theorem assign_with_ok {T : Type}
    (evaluate : (memory T → Nat → T) → Nat → memory T → memory T) (d : Nat) (e : expr T)
    (mem : memory T)
    (h : validate_assign (.expr (mem d).fast (mem d).dims) (e.traits mem) = .ok ()) :
    assign_with evaluate d e mem =
      { status := .ok (), mem := evaluate (fun m i => e.read_flat m i) d mem } := by
  simp [assign_with, h]

theorem assign_mode.statement_eq {T : Type} (mode : assign_mode T) (d : Nat) (e : expr T)
    (mem : memory T) : mode.statement d e mem = assign_with mode.evaluate d e mem := by
  cases mode <;> rfl

theorem expr.traits_is_etl {T : Type} (mem : memory T) (e : expr T) :
    is_etl_expr (e.traits mem) = true := by
  induction e with
  | value id => rfl
  | scalar s => rfl
  | generator g => rfl
  | unary op sub ih => exact ih
  | binary op lhs rhs ihl ihr =>
    simp only [expr.traits]
    split
    · exact ihr
    · exact ihl

theorem validate_assign_mismatch {T : Type} (mem : memory T) (d : Nat) (e : expr T)
    (hg : (e.traits mem).is_generator = false)
    (hs : some (mem.size d) ≠ size (e.traits mem)) :
    ∃ err, validate_assign (.expr (mem d).fast (mem d).dims) (e.traits mem) = .error err := by
  have hne : ¬ validate_assign (.expr (mem d).fast (mem d).dims) (e.traits mem) = .ok () := by
    rw [validate_assign_sized_ok_iff (.expr (mem d).fast (mem d).dims) (e.traits mem)
      (is_etl_expr_expr _ _) hg]
    exact hs
  cases hv : validate_assign (.expr (mem d).fast (mem d).dims) (e.traits mem) with
  | error err => exact ⟨err, rfl⟩
  | ok u => exact absurd hv hne

/-- C5: when the source `e` is not a generator and `size(d) != size(e)`, the assignment `d = e`
and every compound assignment fail at validation and leave the tensors, in particular every
element of `d`, as they were. -/
theorem assign_size_mismatch_no_mutation {T : Type} (mode : assign_mode T) (mem : memory T)
    (d : Nat) (e : expr T) (hg : (e.traits mem).is_generator = false)
    (hs : some (mem.size d) ≠ size (e.traits mem)) :
    (∃ err, (mode.statement d e mem).status = .error err) ∧
    (mode.statement d e mem).mem = mem ∧
    ∀ i, (((mode.statement d e mem).mem) d).data i = (mem d).data i := by
  obtain ⟨err, herr⟩ := validate_assign_mismatch mem d e hg hs
  rw [assign_mode.statement_eq, assign_with_error _ d e mem err herr]
  exact ⟨⟨err, rfl⟩, rfl, fun _ => rfl⟩


theorem validate_assign_tensor_ok (f g : Bool) (ds es : List Nat) (h : ds.prod = es.prod) :
    validate_assign (.expr f ds) (.expr g es) = .ok () := by
  rw [validate_assign_sized_ok_iff (.expr f ds) (.expr g es) (is_etl_expr_expr f ds) rfl]
  simp [size, h]

theorem operator_assign_ok {T : Type} (d : Nat) (e : expr T) (mem : memory T)
    (h : validate_assign (.expr (mem d).fast (mem d).dims) (e.traits mem) = .ok ()) :
    (operator_assign d e mem).status = .ok () ∧
    (∀ id, ((operator_assign d e mem).mem id).fast = (mem id).fast ∧
      ((operator_assign d e mem).mem id).dims = (mem id).dims) ∧
    ∀ id i, ((operator_assign d e mem).mem id).data i =
      if id = d ∧ i < mem.size d then e.read_flat mem i else (mem id).data i := by
  have hs := std_evaluate_expr (fun _ r => r) e d mem
  rw [operator_assign, assign_with_ok _ d e mem h]
  exact ⟨rfl, hs.1, hs.2⟩

/-- C1: for every operator `op` of the catalog (plus, minus, mul, div, mod) and operands `a`, `b` of
equal size `n`, the node `a op b` is built and its evaluation into a destination `c` of that size
succeeds, leaves `c` with size `n` and sets `c[i]` to `op.apply(a[i], b[i])` for every `i < n`;
on the tensors of `fast_matrix/add_1` the result is `{1.5, 5, 9, 2}`. -/
theorem binary_expr_evaluates_elementwise :
    (∀ (T : Type) (op : binary_op T) (mem : memory T) (a b c n : Nat),
      mem.size a = n → mem.size b = n → mem.size c = n →
      binary_expr mem op.apply (.value a) (.value b) =
        .ok (.binary op.apply (.value a) (.value b)) ∧
      (operator_assign c (.binary op.apply (.value a) (.value b)) mem).status = .ok () ∧
      (operator_assign c (.binary op.apply (.value a) (.value b)) mem).mem.size c = n ∧
      ∀ i, i < n →
        ((operator_assign c (.binary op.apply (.value a) (.value b)) mem).mem c).data i =
          op.apply ((mem a).data i) ((mem b).data i)) ∧
    (operator_assign 2 (.binary (binary_op.plus inferInstance).apply (.value 0) (.value 1))
      add_1_memory).mem.elements 2 4 = [1.5, 5, 9, 2] := by
  have main : ∀ (T : Type) (op : T → T → T) (mem : memory T) (a b c n : Nat),
      mem.size a = n → mem.size b = n → mem.size c = n →
      binary_expr mem op (.value a) (.value b) = .ok (.binary op (.value a) (.value b)) ∧
      (operator_assign c (.binary op (.value a) (.value b)) mem).status = .ok () ∧
      (operator_assign c (.binary op (.value a) (.value b)) mem).mem.size c = n ∧
      ∀ i, i < n →
        ((operator_assign c (.binary op (.value a) (.value b)) mem).mem c).data i =
          op ((mem a).data i) ((mem b).data i) := by
    intro T op mem a b c n ha hb hc
    have hv : validate_assign (.expr (mem c).fast (mem c).dims)
        ((expr.binary op (.value a) (.value b)).traits mem) = .ok () := by
      simp only [expr.traits, operand.is_generator]
      exact validate_assign_tensor_ok _ _ _ _ (hc.trans ha.symm)
    obtain ⟨hst, hshape, hdata⟩ := operator_assign_ok c (.binary op (.value a) (.value b)) mem hv
    refine ⟨?_, hst, ?_, ?_⟩
    · have hx : validate_expression (.expr (mem a).fast (mem a).dims)
          (.expr (mem b).fast (mem b).dims) = .ok () :=
        (validate_expression_sized _ _ _ _).2 (ha.trans hb.symm)
      simp [binary_expr, expr.traits, hx, bind, Except.bind, pure, Except.pure]
    · simp only [memory.size, (hshape c).2]
      exact hc
    · intro i hi
      rw [hdata c i]
      have : i < mem.size c := by omega
      simp [this, expr.read_flat]
  refine ⟨fun T op => main T op.apply, ?_⟩
  have h := main ℚ (binary_op.plus inferInstance).apply add_1_memory 0 1 2 4 rfl rfl rfl
  obtain ⟨-, -, -, hd⟩ := h
  simp only [memory.elements, List.range_succ, List.range_zero, List.nil_append,
    List.cons_append, List.map_cons, List.map_nil]
  rw [hd 0 (by omega), hd 1 (by omega), hd 2 (by omega), hd 3 (by omega)]
  norm_num [binary_op.apply, plus_binary_op.apply, add_1_memory, memory.of_list,
    tensor.of_list]


/-- Witness for C1: the operator mod on the tensors of `fast_matrix/mod_1`. -/
theorem binary_expr_evaluates_elementwise_witness :
    binary_expr mod_1_memory (binary_op.mod inferInstance).apply (.value 0) (.value 1) =
        .ok (.binary (binary_op.mod inferInstance).apply (.value 0) (.value 1)) ∧
      (operator_assign 2 (.binary (binary_op.mod inferInstance).apply (.value 0) (.value 1))
        mod_1_memory).status = .ok () ∧
      (operator_assign 2 (.binary (binary_op.mod inferInstance).apply (.value 0) (.value 1))
        mod_1_memory).mem.size 2 = 4 ∧
      ∀ i, i < 4 →
        ((operator_assign 2 (.binary (binary_op.mod inferInstance).apply (.value 0) (.value 1))
          mod_1_memory).mem 2).data i =
          (binary_op.mod inferInstance).apply ((mod_1_memory 0).data i)
            ((mod_1_memory 1).data i) :=
  binary_expr_evaluates_elementwise.1 cpp_int (binary_op.mod inferInstance) mod_1_memory
    0 1 2 4 rfl rfl rfl

theorem assign_through_temporary_eq {T : Type} (mem : memory T) (a tmp : Nat) (e : expr T)
    (hf : (mem tmp).fast = (mem a).fast) (hd : (mem tmp).dims = (mem a).dims) :
    (assign_through_temporary a tmp e mem).status = (operator_assign a e mem).status ∧
    ∀ i, ((assign_through_temporary a tmp e mem).mem a).data i =
      ((operator_assign a e mem).mem a).data i := by
  cases hv : validate_assign (.expr (mem a).fast (mem a).dims) (e.traits mem) with
  | error err =>
    have hv2 : validate_assign (.expr (mem tmp).fast (mem tmp).dims) (e.traits mem) =
        .error err := by rw [hf, hd]; exact hv
    have h1 : operator_assign tmp e mem = { status := .error err, mem := mem } := by
      rw [operator_assign, assign_with_error _ tmp e mem err hv2]
    have h2 : operator_assign a e mem = { status := .error err, mem := mem } := by
      rw [operator_assign, assign_with_error _ a e mem err hv]
    simp [assign_through_temporary, h1, h2]
  | ok u =>
    have hv2 : validate_assign (.expr (mem tmp).fast (mem tmp).dims) (e.traits mem) =
        .ok () := by rw [hf, hd]; exact hv
    obtain ⟨hst1, hshape1, hdata1⟩ := operator_assign_ok tmp e mem hv2
    obtain ⟨hst, -, hdata⟩ := operator_assign_ok a e mem hv
    have hsz : (operator_assign tmp e mem).mem.size a = mem.size a := by
      simp only [memory.size, (hshape1 a).2]
    have hv3 : validate_assign
        (.expr ((operator_assign tmp e mem).mem a).fast ((operator_assign tmp e mem).mem a).dims)
        ((expr.value tmp).traits (operator_assign tmp e mem).mem) = .ok () := by
      simp only [expr.traits]
      apply validate_assign_tensor_ok
      rw [(hshape1 a).2, (hshape1 tmp).2, hd]
    obtain ⟨hst2, -, hdata2⟩ :=
      operator_assign_ok a (.value tmp) (operator_assign tmp e mem).mem hv3
    have hthrough : assign_through_temporary a tmp e mem =
        operator_assign a (.value tmp) (operator_assign tmp e mem).mem := by
      simp [assign_through_temporary, hst1]
    rw [hthrough]
    refine ⟨by rw [hst2, hst], ?_⟩
    intro i
    have hsize : mem.size tmp = mem.size a := by simp only [memory.size, hd]
    rw [hdata2 a i, hdata a i, hsz]
    simp only [expr.read_flat, hdata1, hsize, true_and]
    by_cases hi : i < mem.size a
    · simp [hi]
    · simp [hi]

/-- C6: for every tensor `a` and every element-wise expression `e` (built over `a` or over any
other tensors), the assignment `a = e` ends like `tmp = e; a = tmp` for a temporary `tmp` of the
type of `a`: same outcome, and `a` equal element for element. -/
theorem self_assign_eq_through_temporary {T : Type} (mem : memory T) (a tmp : Nat)
    (e : expr T) (hf : (mem tmp).fast = (mem a).fast) (hd : (mem tmp).dims = (mem a).dims) :
    (operator_assign a e mem).status = (assign_through_temporary a tmp e mem).status ∧
    ∀ i, ((operator_assign a e mem).mem a).data i =
      ((assign_through_temporary a tmp e mem).mem a).data i :=
  ⟨(assign_through_temporary_eq mem a tmp e hf hd).1.symm,
    fun i => ((assign_through_temporary_eq mem a tmp e hf hd).2 i).symm⟩


/-- Witness for C6: `a = a + 1` on the first tensor of `fast_matrix/add_1`, with the third one
as the temporary. -/
theorem self_assign_eq_through_temporary_witness :
    (operator_assign 0 (.binary plus_binary_op.apply (.value 0) (.scalar 1))
        add_1_memory).status =
      (assign_through_temporary 0 2 (.binary plus_binary_op.apply (.value 0) (.scalar 1))
        add_1_memory).status ∧
    ∀ i, ((operator_assign 0 (.binary plus_binary_op.apply (.value 0) (.scalar 1))
        add_1_memory).mem 0).data i =
      ((assign_through_temporary 0 2 (.binary plus_binary_op.apply (.value 0) (.scalar 1))
        add_1_memory).mem 0).data i :=
  self_assign_eq_through_temporary add_1_memory 0 2
    (.binary plus_binary_op.apply (.value 0) (.scalar 1)) rfl rfl

theorem assign_mode.evaluate_eq {T : Type} (mode : assign_mode T)
    (read_flat : memory T → Nat → T) (d : Nat) (mem : memory T) :
    mode.evaluate read_flat d mem = std_evaluate mode.combine read_flat d mem := by
  cases mode <;> rfl

theorem assign_mode.combine_eq {T : Type} (mode : assign_mode T) (op : binary_op T)
    (h : mode.op = some op) : mode.combine = op.apply := by
  cases mode <;> simp [assign_mode.op] at h <;> subst h <;> rfl

theorem dim_view.assign_mode_to_eq {T : Type} (v : dim_view T) (mode : assign_mode T)
    (lhs : Nat) (mem : memory T) :
    v.assign_mode_to mode lhs mem = mode.evaluate v.read_flat lhs mem := by
  cases mode <;> rfl

theorem expr.not_refers_agree {T : Type} (d : Nat) (m mem : memory T)
    (h : ∀ id, id ≠ d → m id = mem id) (e : expr T) (he : e.refers d = false) :
    e.traits m = e.traits mem ∧ ∀ i, e.read_flat m i = e.read_flat mem i := by
  induction e with
  | value id =>
    have hid : id ≠ d := by simpa [expr.refers] using he
    simp [expr.traits, expr.read_flat, h id hid]
  | scalar s => exact ⟨rfl, fun _ => rfl⟩
  | generator g => exact ⟨rfl, fun _ => rfl⟩
  | unary op sub ih =>
    have hs := ih (by simpa [expr.refers] using he)
    exact ⟨hs.1, fun i => by simp only [expr.read_flat, hs.2 i]⟩
  | binary op lhs rhs ihl ihr =>
    have hlr : lhs.refers d = false ∧ rhs.refers d = false := by
      simpa [expr.refers] using he
    have hl := ihl hlr.1
    have hr := ihr hlr.2
    exact ⟨by simp only [expr.traits, hl.1, hr.1],
      fun i => by simp only [expr.read_flat, hl.2 i, hr.2 i]⟩

theorem dim_view.read_flat_stable {T : Type} (v : dim_view T) (d k : Nat) (m mem : memory T)
    (h : memory.agree_from d k m mem) (hv : v.sub.refers d = false) (j : Nat) :
    v.read_flat m j = v.read_flat mem j := by
  obtain ⟨ht, hr⟩ := expr.not_refers_agree d m mem h.1 v.sub hv
  simp only [dim_view.read_flat, expr.at2, ht, hr]


theorem validate_scalar_or_same_size (f : Bool) (ds : List Nat) (rhs : operand)
    (hetl : is_etl_expr rhs = true)
    (hb : rhs.is_generator = true ∨ size rhs = some ds.prod) :
    validate_expression (.expr f ds) rhs = .ok () ∧ validate_assign (.expr f ds) rhs = .ok () := by
  cases rhs with
  | container n => simp [is_etl_expr] at hetl
  | generator =>
    exact ⟨validate_expression_generator _ _ rfl rfl (Or.inr rfl),
      validate_assign_generator_ok _ _ rfl rfl⟩
  | expr g es =>
    have hs : es.prod = ds.prod := by
      rcases hb with hb | hb
      · simp [operand.is_generator] at hb
      · simpa [size] using hb
    exact ⟨(validate_expression_sized f g ds es).2 hs.symm,
      validate_assign_tensor_ok f g ds es hs.symm⟩

theorem assign_mode.statement_ok {T : Type} (mode : assign_mode T) (d : Nat) (e : expr T)
    (mem : memory T)
    (h : validate_assign (.expr (mem d).fast (mem d).dims) (e.traits mem) = .ok ()) :
    (mode.statement d e mem).status = .ok () ∧
    ∀ id i, ((mode.statement d e mem).mem id).data i =
      if id = d ∧ i < mem.size d then mode.combine ((mem d).data i) (e.read_flat mem i)
      else (mem id).data i := by
  have hs := std_evaluate_expr mode.combine e d mem
  rw [assign_mode.statement_eq, assign_with_ok _ d e mem h, assign_mode.evaluate_eq]
  exact ⟨rfl, hs.2⟩

/-- C7: for each compound assignment with catalog operator `op`, every destination `a` and every
operand `b` that is a scalar (a generator) or an expression of the size of `a`: the statement
`a op= b` succeeds and leaves `a[i] == op.apply(old a[i], b[i])` for every `i` below the size,
which is element for element what `a = a op b` leaves; and the entry point of `dim_view` for each
of the six modes forwards to the standard evaluation of that mode on the elements of the view,
so that, when the view is not over the destination, it leaves in every element of the
destination the combination, by that mode, of the old element and the element of the view. -/
theorem compound_assign_eq_assign_op {T : Type} (mode : assign_mode T) (op : binary_op T)
    (hop : mode.op = some op) (mem : memory T) (a : Nat) (b : expr T)
    (hb : (b.traits mem).is_generator = true ∨ size (b.traits mem) = some (mem.size a)) :
    (mode.statement a b mem).status = .ok () ∧
    (∀ i, i < mem.size a →
      ((mode.statement a b mem).mem a).data i = op.apply ((mem a).data i) (b.read_flat mem i)) ∧
    binary_expr mem op.apply (.value a) b = .ok (.binary op.apply (.value a) b) ∧
    (operator_assign a (.binary op.apply (.value a) b) mem).status = .ok () ∧
    (∀ i, ((mode.statement a b mem).mem a).data i =
      ((operator_assign a (.binary op.apply (.value a) b) mem).mem a).data i) ∧
    ∀ (m : assign_mode T) (v : dim_view T) (lhs : Nat),
      v.assign_mode_to m lhs mem = m.evaluate v.read_flat lhs mem ∧
      (v.sub.refers lhs = false → ∀ j, j < mem.size lhs →
        ((v.assign_mode_to m lhs mem) lhs).data j =
          m.combine ((mem lhs).data j) (v.read_flat mem j)) := by
  obtain ⟨hve, hva⟩ := validate_scalar_or_same_size (mem a).fast (mem a).dims (b.traits mem)
    (expr.traits_is_etl mem b) hb
  obtain ⟨hst, hdata⟩ := assign_mode.statement_ok mode a b mem hva
  have hself : validate_assign (.expr (mem a).fast (mem a).dims)
      ((expr.binary op.apply (.value a) b).traits mem) = .ok () := by
    simp only [expr.traits, operand.is_generator]
    exact validate_assign_tensor_ok _ _ _ _ rfl
  obtain ⟨hst2, -, hdata2⟩ := operator_assign_ok a (.binary op.apply (.value a) b) mem hself
  have hc := assign_mode.combine_eq mode op hop
  refine ⟨hst, ?_, ?_, hst2, ?_, ?_⟩
  · intro i hi
    rw [hdata a i, hc]
    simp [hi]
  · have hx : validate_expression ((expr.value a).traits mem) (b.traits mem) = .ok () := hve
    simp [binary_expr, hx, bind, Except.bind, pure, Except.pure]
  · intro i
    rw [hdata a i, hdata2 a i, hc]
    simp only [expr.read_flat]
  · intro m v lhs
    refine ⟨dim_view.assign_mode_to_eq v m lhs mem, ?_⟩
    intro hv j hj
    rw [dim_view.assign_mode_to_eq, assign_mode.evaluate_eq]
    obtain ⟨-, -, -, hd⟩ := std_evaluate_spec m.combine v.read_flat lhs mem
      (fun k m2 h => dim_view.read_flat_stable v lhs k m2 mem h hv k)
    rw [hd j]
    simp [hj]


/-- Witness for C7: `a %= b` on the tensors of `fast_matrix/mod_2`. -/
theorem compound_assign_eq_assign_op_witness :
    ((assign_mode.mod inferInstance).statement 0 (.value 1) mod_1_memory).status = .ok () ∧
    (∀ i, i < mod_1_memory.size 0 →
      (((assign_mode.mod inferInstance).statement 0 (.value 1) mod_1_memory).mem 0).data i =
        (binary_op.mod inferInstance).apply ((mod_1_memory 0).data i)
          ((expr.value 1).read_flat mod_1_memory i)) ∧
    ((assign_mode.mod inferInstance).statement 0 (.value 1) mod_1_memory).mem.elements 0 4 =
      [⟨-1⟩, ⟨2⟩, ⟨1⟩, ⟨0⟩] :=
  ⟨(compound_assign_eq_assign_op (assign_mode.mod inferInstance) (binary_op.mod inferInstance)
      rfl mod_1_memory 0 (.value 1) (Or.inr rfl)).1,
    (compound_assign_eq_assign_op (assign_mode.mod inferInstance) (binary_op.mod inferInstance)
      rfl mod_1_memory 0 (.value 1) (Or.inr rfl)).2.1,
    by decide⟩


theorem scalar_expr_elementwise {T : Type} (op : T → T → T) (mem : memory T) (m : Nat)
    (s : T) :
    binary_expr mem op (.value m) (.scalar s) = .ok (.binary op (.value m) (.scalar s)) ∧
    binary_expr mem op (.scalar s) (.value m) = .ok (.binary op (.scalar s) (.value m)) ∧
    (∀ i, (expr.binary op (.value m) (.scalar s)).read_flat mem i = op ((mem m).data i) s) ∧
    (∀ i, (expr.binary op (.scalar s) (.value m)).read_flat mem i = op s ((mem m).data i)) ∧
    (∀ i, i < mem.size m →
      ((operator_assign m (.binary op (.value m) (.scalar s)) mem).mem m).data i =
        op ((mem m).data i) s) ∧
    ∀ i, i < mem.size m →
      ((operator_assign m (.binary op (.scalar s) (.value m)) mem).mem m).data i =
        op s ((mem m).data i) := by
  have h1 : validate_assign (.expr (mem m).fast (mem m).dims)
      ((expr.binary op (.value m) (.scalar s)).traits mem) = .ok () := by
    simp only [expr.traits, operand.is_generator]
    exact validate_assign_tensor_ok _ _ _ _ rfl
  have h2 : validate_assign (.expr (mem m).fast (mem m).dims)
      ((expr.binary op (.scalar s) (.value m)).traits mem) = .ok () := by
    simp only [expr.traits, operand.is_generator]
    exact validate_assign_tensor_ok _ _ _ _ rfl
  obtain ⟨-, -, hd1⟩ := operator_assign_ok m (.binary op (.value m) (.scalar s)) mem h1
  obtain ⟨-, -, hd2⟩ := operator_assign_ok m (.binary op (.scalar s) (.value m)) mem h2
  have hx1 : validate_expression ((expr.value m).traits mem)
      ((expr.scalar s).traits mem) = .ok () :=
    validate_expression_generator _ _ rfl rfl (Or.inr rfl)
  have hx2 : validate_expression ((expr.scalar s).traits mem)
      ((expr.value m).traits mem) = .ok () :=
    validate_expression_generator _ _ rfl rfl (Or.inl rfl)
  refine ⟨?_, ?_, fun _ => rfl, fun _ => rfl, ?_, ?_⟩
  · simp [binary_expr, hx1, bind, Except.bind, pure, Except.pure]
  · simp [binary_expr, hx2, bind, Except.bind, pure, Except.pure]
  · intro i hi
    rw [hd1 m i]
    simp [hi, expr.read_flat]
  · intro i hi
    rw [hd2 m i]
    simp [hi, expr.read_flat]

/-- C8: for every matrix `m`, scalar `s` and operator `op` of the catalog, the nodes `m op s` and
`s op m` are built, `(m op s)[i] == op.apply(m[i], s)` and `(s op m)[i] == op.apply(s, m[i])` for
every `i`, and assigning either node to `m` leaves these values in `m`; on `{-1, 2, 5.5, 1}`,
`m + 1.0` gives `{0, 3, 6.5, 2}` and `1.0 - m` gives `{2, -1, -4.5, 0}`. -/
theorem scalar_operand_order_preserved :
    (∀ (T : Type) (op : binary_op T) (mem : memory T) (m : Nat) (s : T),
      binary_expr mem op.apply (.value m) (.scalar s) =
        .ok (.binary op.apply (.value m) (.scalar s)) ∧
      binary_expr mem op.apply (.scalar s) (.value m) =
        .ok (.binary op.apply (.scalar s) (.value m)) ∧
      (∀ i, (expr.binary op.apply (.value m) (.scalar s)).read_flat mem i =
        op.apply ((mem m).data i) s) ∧
      (∀ i, (expr.binary op.apply (.scalar s) (.value m)).read_flat mem i =
        op.apply s ((mem m).data i)) ∧
      (∀ i, i < mem.size m →
        ((operator_assign m (.binary op.apply (.value m) (.scalar s)) mem).mem m).data i =
          op.apply ((mem m).data i) s) ∧
      ∀ i, i < mem.size m →
        ((operator_assign m (.binary op.apply (.scalar s) (.value m)) mem).mem m).data i =
          op.apply s ((mem m).data i)) ∧
    (operator_assign 0 (.binary (binary_op.plus inferInstance).apply (.value 0) (.scalar 1))
      add_scalar_memory).mem.elements 0 4 = [0, 3, 6.5, 2] ∧
    (operator_assign 0 (.binary (binary_op.minus inferInstance).apply (.scalar 1) (.value 0))
      add_scalar_memory).mem.elements 0 4 = [2, -1, -4.5, 0] := by
  refine ⟨fun T op mem m s => scalar_expr_elementwise op.apply mem m s, ?_, ?_⟩
  · obtain ⟨-, -, -, -, hd, -⟩ :=
      scalar_expr_elementwise (binary_op.plus inferInstance).apply add_scalar_memory 0 (1 : ℚ)
    have hsz : add_scalar_memory.size 0 = 4 := rfl
    simp only [memory.elements, List.range_succ, List.range_zero, List.nil_append,
      List.cons_append, List.map_cons, List.map_nil]
    rw [hd 0 (by omega), hd 1 (by omega), hd 2 (by omega), hd 3 (by omega)]
    norm_num [binary_op.apply, plus_binary_op.apply, add_scalar_memory, memory.of_list,
      tensor.of_list]
  · obtain ⟨-, -, -, -, -, hd⟩ :=
      scalar_expr_elementwise (binary_op.minus inferInstance).apply add_scalar_memory 0 (1 : ℚ)
    have hsz : add_scalar_memory.size 0 = 4 := rfl
    simp only [memory.elements, List.range_succ, List.range_zero, List.nil_append,
      List.cons_append, List.map_cons, List.map_nil]
    rw [hd 0 (by omega), hd 1 (by omega), hd 2 (by omega), hd 3 (by omega)]
    norm_num [binary_op.apply, minus_binary_op.apply, add_scalar_memory, memory.of_list,
      tensor.of_list]

/-- Witness for C8: the scalar `2` and the operator mod on the first tensor of
`fast_matrix/mod_1`, element `0`. -/
theorem scalar_operand_order_preserved_witness :
    ((operator_assign 0 (.binary (binary_op.mod inferInstance).apply (.value 0) (.scalar ⟨2⟩))
        mod_1_memory).mem 0).data 0 =
      (binary_op.mod inferInstance).apply ((mod_1_memory 0).data 0) ⟨2⟩ ∧
    ((operator_assign 0 (.binary (binary_op.mod inferInstance).apply (.scalar ⟨2⟩) (.value 0))
        mod_1_memory).mem 0).data 0 =
      (binary_op.mod inferInstance).apply ⟨2⟩ ((mod_1_memory 0).data 0) :=
  ⟨(scalar_operand_order_preserved.1 cpp_int (binary_op.mod inferInstance) mod_1_memory 0
      ⟨2⟩).2.2.2.2.1 0 (by decide),
    (scalar_operand_order_preserved.1 cpp_int (binary_op.mod inferInstance) mod_1_memory 0
      ⟨2⟩).2.2.2.2.2 0 (by decide)⟩

theorem tmod_neg_left (a r : Int) : Int.tmod (-a) r = -Int.tmod a r := by
  rw [Int.tmod_def, Int.tmod_def, Int.neg_tdiv]
  ring

theorem tmod_sign_bound (l r : Int) (hr : r ≠ 0) :
    (0 ≤ l → 0 ≤ Int.tmod l r) ∧ (l ≤ 0 → Int.tmod l r ≤ 0) ∧ |Int.tmod l r| < |r| := by
  have key : ∀ a : Int, 0 ≤ a → 0 ≤ Int.tmod a r ∧ Int.tmod a r < |r| := by
    intro a ha
    refine ⟨Int.tmod_nonneg r ha, ?_⟩
    rcases le_total 0 r with h | h
    · rw [abs_of_nonneg h]
      exact Int.tmod_lt_of_pos a (lt_of_le_of_ne h (Ne.symm hr))
    · rw [abs_of_nonpos h, ← Int.tmod_neg a r]
      exact Int.tmod_lt_of_pos a (by omega)
  refine ⟨fun h => (key l h).1, ?_, ?_⟩
  · intro h
    have := (key (-l) (by omega)).1
    rw [tmod_neg_left] at this
    omega
  · rcases le_total 0 l with h | h
    · rw [abs_of_nonneg (key l h).1]
      exact (key l h).2
    · have h1 := key (-l) (by omega)
      rw [tmod_neg_left] at h1
      rw [abs_of_nonpos (by omega)]
      exact h1.2

theorem tmod_eq_fmod_sub (l r : Int) (hl : l < 0) (hr : 0 < r) (hnz : Int.tmod l r ≠ 0) :
    Int.tmod l r = Int.fmod l r - r := by
  have h1 := Int.fmod_nonneg' l hr
  have h2 := Int.fmod_lt_of_pos l hr
  have h3 := Int.tmod_def l r
  have h4 := Int.fmod_def l r
  have h5 := (tmod_sign_bound l r (by omega)).2.1 (by omega)
  have h6 := (tmod_sign_bound l r (by omega)).2.2
  rw [abs_of_nonpos h5, abs_of_pos hr] at h6
  have h7 : Int.fmod l r - Int.tmod l r = r * (Int.tdiv l r - Int.fdiv l r) := by
    rw [h3, h4]; ring
  have h8 : 0 < Int.fmod l r - Int.tmod l r := by omega
  have h9 : Int.fmod l r - Int.tmod l r < 2 * r := by omega
  have h10 : Int.tdiv l r - Int.fdiv l r = 1 := by
    rw [h7] at h8 h9
    have hlo : 0 < Int.tdiv l r - Int.fdiv l r := by
      by_contra hc
      have hle : Int.tdiv l r - Int.fdiv l r ≤ 0 := by omega
      have := mul_nonpos_of_nonneg_of_nonpos (le_of_lt hr) hle
      omega
    have hhi : Int.tdiv l r - Int.fdiv l r < 2 := by
      by_contra hc
      have hge : 2 ≤ Int.tdiv l r - Int.fdiv l r := by omega
      have := mul_le_mul_of_nonneg_left hge (le_of_lt hr)
      omega
    omega
  rw [h10] at h7
  omega

theorem floor_mod_eq_fmod (l r : Int) : floor_mod l r = Int.fmod l r := by
  rw [floor_mod, Int.fmod_def]
  ring


/-- C9: for all integers `l` and `r` with `r != 0`, `mod_binary_op::apply(l, r)` on `int` is the
truncated remainder `l - trunc(l / r) * r`, where the quotient `trunc(l / r)` has the magnitude
of `|l| / |r|` rounded down; the result is zero or has the sign of `l`, its absolute value is less
than `|r|`, it is the floor-based modulo when `l >= 0` and `r > 0` and differs from it by `r`
when `l < 0 < r` and the remainder is not zero (`-1 % 2` is `-1`, the floor-based modulo is `1`);
and `{-1, 2, 5, 1} % {2, 3, 4, 1}` evaluates to `{-1, 2, 1, 0}`. -/
theorem mod_binary_op_truncated_remainder :
    (∀ l r : Int, r ≠ 0 →
      mod_binary_op.apply (⟨l⟩ : cpp_int) ⟨r⟩ = ⟨l - Int.tdiv l r * r⟩ ∧
      (Int.tdiv l r).natAbs = l.natAbs / r.natAbs ∧
      ((mod_binary_op.apply (⟨l⟩ : cpp_int) ⟨r⟩).val = 0 ∨
        (0 < (mod_binary_op.apply (⟨l⟩ : cpp_int) ⟨r⟩).val ∧ 0 < l) ∨
        ((mod_binary_op.apply (⟨l⟩ : cpp_int) ⟨r⟩).val < 0 ∧ l < 0)) ∧
      |(mod_binary_op.apply (⟨l⟩ : cpp_int) ⟨r⟩).val| < |r| ∧
      (0 ≤ l → 0 < r → (mod_binary_op.apply (⟨l⟩ : cpp_int) ⟨r⟩).val = floor_mod l r) ∧
      (l < 0 → 0 < r → (mod_binary_op.apply (⟨l⟩ : cpp_int) ⟨r⟩).val ≠ 0 →
        (mod_binary_op.apply (⟨l⟩ : cpp_int) ⟨r⟩).val = floor_mod l r - r ∧
        (mod_binary_op.apply (⟨l⟩ : cpp_int) ⟨r⟩).val ≠ floor_mod l r)) ∧
    (mod_binary_op.apply (⟨-1⟩ : cpp_int) ⟨2⟩ = ⟨-1⟩ ∧ floor_mod (-1) 2 = 1) ∧
    (operator_assign 2 (.binary (binary_op.mod inferInstance).apply (.value 0) (.value 1))
      mod_1_memory).mem.elements 2 4 = [⟨-1⟩, ⟨2⟩, ⟨1⟩, ⟨0⟩] := by
  refine ⟨?_, ⟨by decide, by decide⟩, by decide⟩
  intro l r hr
  have hval : (mod_binary_op.apply (⟨l⟩ : cpp_int) ⟨r⟩).val = Int.tmod l r := rfl
  obtain ⟨hpos, hneg, hbound⟩ := tmod_sign_bound l r hr
  rw [hval]
  refine ⟨?_, Int.natAbs_tdiv l r, ?_, hbound, ?_, ?_⟩
  · show (⟨Int.tmod l r⟩ : cpp_int) = ⟨l - Int.tdiv l r * r⟩
    rw [Int.tmod_def, Int.mul_comm]
  · rcases lt_trichotomy l 0 with h | h | h
    · have := hneg (le_of_lt h)
      omega
    · subst h
      left
      exact Int.zero_tmod r
    · have := hpos (le_of_lt h)
      omega
  · intro hl hr0
    rw [floor_mod_eq_fmod, Int.fmod_eq_tmod hl (le_of_lt hr0)]
  · intro hl hr0 hnz
    have h := tmod_eq_fmod_sub l r hl hr0 hnz
    rw [floor_mod_eq_fmod]
    exact ⟨h, by omega⟩

/-- Witness for C9: `-7 % 2`. -/
theorem mod_binary_op_truncated_remainder_witness :
    mod_binary_op.apply (⟨-7⟩ : cpp_int) ⟨2⟩ = ⟨-7 - Int.tdiv (-7) 2 * 2⟩ ∧
    |(mod_binary_op.apply (⟨-7⟩ : cpp_int) ⟨2⟩).val| < |(2 : Int)| :=
  ⟨(mod_binary_op_truncated_remainder.1 (-7) 2 (by decide)).1,
    (mod_binary_op_truncated_remainder.1 (-7) 2 (by decide)).2.2.2.1⟩

/-- Witness for C10: the ratios `2, 2` on a 4x6 matrix and on a 3x4x6 tensor. -/
theorem validate_pmax_pooling_succeeds_iff_witness :
    (validate_pmax_pooling 2 2 (.expr false [4, 6]) = .ok () ↔ 4 % 2 = 0 ∧ 6 % 2 = 0) ∧
    (validate_pmax_pooling 2 2 (.expr false [3, 4, 6]) = .ok () ↔ 4 % 2 = 0 ∧ 6 % 2 = 0) :=
  ⟨(validate_pmax_pooling_succeeds_iff 2 2 (by decide) (by decide)).1 4 6,
    (validate_pmax_pooling_succeeds_iff 2 2 (by decide) (by decide)).2.1 3 4 6⟩

/-- Witness for C5: a 2x2 destination and a source of six elements, for `+=`. -/
theorem assign_size_mismatch_no_mutation_witness :
    (∃ err, ((assign_mode.add inferInstance).statement 0 (.value 1)
      (memory.of_list [tensor.of_list false [2, 2] [1, 2, 3, 4] (0 : Int),
        tensor.of_list false [2, 3] [1, 2, 3, 4, 5, 6] 0]
        (tensor.of_list false [0] [] 0))).status = .error err) ∧
    ((assign_mode.add inferInstance).statement 0 (.value 1)
      (memory.of_list [tensor.of_list false [2, 2] [1, 2, 3, 4] (0 : Int),
        tensor.of_list false [2, 3] [1, 2, 3, 4, 5, 6] 0]
        (tensor.of_list false [0] [] 0))).mem =
      memory.of_list [tensor.of_list false [2, 2] [1, 2, 3, 4] (0 : Int),
        tensor.of_list false [2, 3] [1, 2, 3, 4, 5, 6] 0]
        (tensor.of_list false [0] [] 0) :=
  ⟨(assign_size_mismatch_no_mutation (assign_mode.add inferInstance) _ 0 (.value 1) rfl
      (by decide)).1,
    (assign_size_mismatch_no_mutation (assign_mode.add inferInstance) _ 0 (.value 1) rfl
      (by decide)).2.1⟩

theorem assert_square_dyn_2d (d0 d1 : Nat) :
    assert_square (.expr false [d0, d1]) = .ok () ↔ d0 = d1 := by
  simp [assert_square, call, assert_square_fast, assert_square_dyn, all_fast, operand.is_fast,
    operand.dimensions, static_assert, cpp_assert, dim, bind, Except.bind]

theorem dim_testable.is_square_2d (f : Bool) (d0 d1 : Nat) :
    dim_testable.is_square (.expr f [d0, d1]) = .ok (d0 == d1) := by
  simp [dim_testable.is_square, operand.dimensions, cpp_assert, dim, bind, Except.bind, pure,
    Except.pure]

theorem dim_testable.is_sub_square_3d (f : Bool) (d0 d1 d2 : Nat) :
    dim_testable.is_sub_square (.expr f [d0, d1, d2]) = .ok (d1 == d2) := by
  simp [dim_testable.is_sub_square, operand.dimensions, cpp_assert, dim, bind, Except.bind, pure,
    Except.pure]

/-- C11: for every dynamically sized 2D expression, `assert_square` succeeds exactly when
`dim0 == dim1`, which is exactly when `is_square()` returns true; for every 2D expression
`is_rectangular()` returns the negation of what `is_square()` returns, and for every 3D expression
`is_sub_square()` returns `dim1 == dim2` and `is_sub_rectangular()` its negation. -/
theorem assert_square_iff_is_square :
    (∀ d0 d1 : Nat,
      (assert_square (.expr false [d0, d1]) = .ok () ↔ d0 = d1) ∧
      (assert_square (.expr false [d0, d1]) = .ok () ↔
        dim_testable.is_square (.expr false [d0, d1]) = .ok true)) ∧
    (∀ (f : Bool) (d0 d1 : Nat),
      dim_testable.is_square (.expr f [d0, d1]) = .ok (d0 == d1) ∧
      dim_testable.is_rectangular (.expr f [d0, d1]) = .ok (!(d0 == d1))) ∧
    (∀ (f : Bool) (d0 d1 d2 : Nat),
      dim_testable.is_sub_square (.expr f [d0, d1, d2]) = .ok (d1 == d2) ∧
      dim_testable.is_sub_rectangular (.expr f [d0, d1, d2]) = .ok (!(d1 == d2))) := by
  refine ⟨fun d0 d1 => ⟨assert_square_dyn_2d d0 d1, ?_⟩, fun f d0 d1 => ⟨?_, ?_⟩,
    fun f d0 d1 d2 => ⟨?_, ?_⟩⟩
  · rw [assert_square_dyn_2d, dim_testable.is_square_2d]
    simp
  · exact dim_testable.is_square_2d f d0 d1
  · simp [dim_testable.is_rectangular, dim_testable.is_square_2d, bind, Except.bind, pure,
      Except.pure]
  · exact dim_testable.is_sub_square_3d f d0 d1 d2
  · simp [dim_testable.is_sub_rectangular, dim_testable.is_sub_square_3d, bind, Except.bind,
      pure, Except.pure]

theorem std_equal_iff {T : Type} [BEq T] (n : Nat) (f g : Nat → T) :
    std_equal n f g = true ↔ ∀ k, k < n → (f k == g k) = true := by
  simp [std_equal, List.all_eq_true]

theorem comparable.operator_eq_iff {T : Type} [BEq T] (a b : sequence T) :
    comparable.operator_eq a b = true ↔
      a.size = b.size ∧ ∀ k, k < a.size → (a.elem k == b.elem k) = true := by
  by_cases h : a.size = b.size
  · simp [comparable.operator_eq, h, std_equal_iff]
  · simp [comparable.operator_eq, h]

/-- C14: `a == b` is true exactly when `size(a) == size(b)` and `a[k] == b[k]` for every `k` below
the size; `a != b` is the negation of `a == b`; and, the comparison of elements being symmetric,
`a == b` and `b == a` give the same result. -/
theorem comparable_eq_iff_same_sequence {T : Type} [BEq T] [PartialEquivBEq T]
    (a b : sequence T) :
    (comparable.operator_eq a b = true ↔
      a.size = b.size ∧ ∀ k, k < a.size → (a.elem k == b.elem k) = true) ∧
    comparable.operator_ne a b = !comparable.operator_eq a b ∧
    comparable.operator_eq a b = comparable.operator_eq b a := by
  refine ⟨comparable.operator_eq_iff a b, rfl, ?_⟩
  rw [Bool.eq_iff_iff, comparable.operator_eq_iff, comparable.operator_eq_iff]
  constructor
  · rintro ⟨hs, he⟩
    exact ⟨hs.symm, fun k hk => BEq.symm (he k (hs ▸ hk))⟩
  · rintro ⟨hs, he⟩
    exact ⟨hs.symm, fun k hk => BEq.symm (he k (hs ▸ hk))⟩

theorem one_if_binary_op.apply_eq {T : Type} [BEq T] [Zero T] [One T] (x value : T) :
    one_if_binary_op.apply x value = if x == value then 1 else 0 := by
  have h : (1.0 : ℚ) ≠ 0 := by norm_num
  simp [one_if_binary_op.apply, h]

/-- C18: `one_if_binary_op::apply(x, value)` returns one when `x == value` and zero otherwise,
for every `x` and `value`; its result depends on its operands: on rationals `apply(2, 2)` is
`1`, `apply(2, 3)` is `0`, and the two differ. -/
theorem one_if_compares_operands :
    (∀ (T : Type) [BEq T] [Zero T] [One T] (x value : T),
      ((x == value) = true → one_if_binary_op.apply x value = 1) ∧
      ((x == value) = false → one_if_binary_op.apply x value = 0)) ∧
    one_if_binary_op.apply (2 : ℚ) 2 = 1 ∧ one_if_binary_op.apply (2 : ℚ) 3 = 0 ∧
    (1 : ℚ) ≠ 0 := by
  refine ⟨?_, ?_, ?_, by norm_num⟩
  · intro T _ _ _ x value
    rw [one_if_binary_op.apply_eq]
    constructor
    · intro h; simp [h]
    · intro h; simp [h]
  · rw [one_if_binary_op.apply_eq]; simp
  · rw [one_if_binary_op.apply_eq]
    have : ((2 : ℚ) == 3) = false := by
      rw [beq_eq_false_iff_ne]; norm_num
    simp [this]

/-- Witness for C18: the integers `5` and `7`. -/
theorem one_if_compares_operands_witness :
    one_if_binary_op.apply (5 : Int) 5 = 1 ∧ one_if_binary_op.apply (5 : Int) 7 = 0 :=
  ⟨(one_if_compares_operands.1 Int 5 5).1 (by decide),
    (one_if_compares_operands.1 Int 5 7).2 (by decide)⟩

/-! ## Totality of the operators on `int` -/

theorem cpp_int.representable_iff (x : Int) :
    cpp_int.representable x = true ↔ -2147483648 ≤ x ∧ x ≤ 2147483647 := by
  simp [cpp_int.representable, INT_MIN, INT_MAX]

theorem tdiv_representable_iff (l r : Int) (hl : cpp_int.representable l = true)
    (hr : r ≠ 0) :
    cpp_int.representable (Int.tdiv l r) = true ↔ ¬ (l = INT_MIN ∧ r = -1) := by
  rw [cpp_int.representable_iff] at hl ⊢
  have habs := Int.natAbs_tdiv l r
  have hle : l.natAbs / r.natAbs ≤ l.natAbs := Nat.div_le_self _ _
  have hdiv : (Int.tdiv l r).natAbs = l.natAbs / r.natAbs := habs
  constructor
  · rintro ⟨-, hhi⟩ ⟨h1, h2⟩
    subst h1 h2
    simp [INT_MIN] at hhi
  · intro hne
    refine ⟨by omega, ?_⟩
    by_contra hgt
    have h31 : (Int.tdiv l r).natAbs = 2147483648 := by omega
    have hlabs : l.natAbs = 2147483648 := by omega
    have hrabs : r.natAbs = 1 := by
      by_contra h1
      have h2 : 1 < r.natAbs := by omega
      have := Nat.div_lt_self (by omega : 0 < l.natAbs) h2
      omega
    have hlv : l = -2147483648 := by omega
    have hrv : r = 1 ∨ r = -1 := by omega
    rcases hrv with h | h
    · subst h hlv
      revert hgt
      decide
    · exact hne ⟨by simpa [INT_MIN] using hlv, h⟩

theorem div_mod_apply_int_defined_iff (l r : Int) (hl : cpp_int.representable l = true) :
    ((div_binary_op.apply_int ⟨l⟩ ⟨r⟩).isSome = true ↔ r ≠ 0 ∧ ¬ (l = INT_MIN ∧ r = -1)) ∧
    ((mod_binary_op.apply_int ⟨l⟩ ⟨r⟩).isSome = true ↔ r ≠ 0 ∧ ¬ (l = INT_MIN ∧ r = -1)) := by
  by_cases hr : r = 0
  · simp [div_binary_op.apply_int, mod_binary_op.apply_int, cpp_int.builtin_div,
      cpp_int.builtin_mod, hr]
  · have h := tdiv_representable_iff l r hl hr
    by_cases hq : cpp_int.representable (Int.tdiv l r) = true
    · have hne := h.1 hq
      simp [div_binary_op.apply_int, mod_binary_op.apply_int, cpp_int.builtin_div,
        cpp_int.builtin_mod, cpp_int.result, hr, hq, hne]
    · have hne : ¬¬ (l = INT_MIN ∧ r = -1) := fun hn => hq (h.2 hn)
      simp only [Bool.not_eq_true] at hq
      simp [div_binary_op.apply_int, mod_binary_op.apply_int, cpp_int.builtin_div,
        cpp_int.builtin_mod, cpp_int.result, hr, hq, hne]

/-- Counterexample to C17 as stated: on `int`, `mod_binary_op::apply` and
`div_binary_op::apply` have no result when the right operand is zero, nor on `INT_MIN` and `-1`. -/
theorem div_mod_apply_int_undefined :
    mod_binary_op.apply_int ⟨1⟩ ⟨0⟩ = none ∧ div_binary_op.apply_int ⟨1⟩ ⟨0⟩ = none ∧
    mod_binary_op.apply_int ⟨INT_MIN⟩ ⟨-1⟩ = none ∧
    div_binary_op.apply_int ⟨INT_MIN⟩ ⟨-1⟩ = none := by
  decide

theorem cpp_int.wrap_of_representable (x : Int) (h : cpp_int.representable x = true) :
    cpp_int.wrap x = ⟨x⟩ := by
  rw [cpp_int.representable_iff] at h
  have : (x + 2147483648) % 4294967296 - 2147483648 = x := by omega
  simp only [cpp_int.wrap, this]

theorem cpp_int.wrap_representable (x : Int) :
    cpp_int.representable (cpp_int.wrap x).val = true := by
  rw [cpp_int.representable_iff]
  simp only [cpp_int.wrap]
  omega

/-- C17 (amended): on `int` operands `l` and `r`, `plus`, `minus` and `mul` are total: their
`apply` returns a value for every pair of operands, the mathematical result when it is
representable and the result wrapped around modulo `2^32` otherwise (`INT_MAX + 1` gives
`INT_MIN`, `INT_MIN - 1` gives `INT_MAX`, `65536 * 65536` gives `0`); `div_binary_op::apply` and
`mod_binary_op::apply` return a value exactly when `r` is not zero and the operands are not
`INT_MIN` and `-1`, and the value they return is the truncated quotient, respectively its
remainder. -/
theorem catalog_apply_int_defined_iff (l r : Int) (hl : cpp_int.representable l = true)
    (hr : cpp_int.representable r = true) :
    ((div_binary_op.apply_int ⟨l⟩ ⟨r⟩).isSome = true ↔ r ≠ 0 ∧ ¬ (l = INT_MIN ∧ r = -1)) ∧
    ((mod_binary_op.apply_int ⟨l⟩ ⟨r⟩).isSome = true ↔ r ≠ 0 ∧ ¬ (l = INT_MIN ∧ r = -1)) ∧
    (∀ v, div_binary_op.apply_int ⟨l⟩ ⟨r⟩ = some v → v = div_binary_op.apply ⟨l⟩ ⟨r⟩) ∧
    (∀ v, mod_binary_op.apply_int ⟨l⟩ ⟨r⟩ = some v → v = mod_binary_op.apply ⟨l⟩ ⟨r⟩) ∧
    (plus_binary_op.apply_int ⟨l⟩ ⟨r⟩).isSome = true ∧
    (minus_binary_op.apply_int ⟨l⟩ ⟨r⟩).isSome = true ∧
    (mul_binary_op.apply_int ⟨l⟩ ⟨r⟩).isSome = true ∧
    (∀ v, plus_binary_op.apply_int ⟨l⟩ ⟨r⟩ = some v →
      cpp_int.representable v.val = true ∧ (v.val - (l + r)) % 4294967296 = 0 ∧
      (cpp_int.representable (l + r) = true → v = plus_binary_op.apply ⟨l⟩ ⟨r⟩)) ∧
    (∀ v, minus_binary_op.apply_int ⟨l⟩ ⟨r⟩ = some v →
      cpp_int.representable v.val = true ∧ (v.val - (l - r)) % 4294967296 = 0 ∧
      (cpp_int.representable (l - r) = true → v = minus_binary_op.apply ⟨l⟩ ⟨r⟩)) ∧
    (∀ v, mul_binary_op.apply_int ⟨l⟩ ⟨r⟩ = some v →
      cpp_int.representable v.val = true ∧ (v.val - l * r) % 4294967296 = 0 ∧
      (cpp_int.representable (l * r) = true → v = mul_binary_op.apply ⟨l⟩ ⟨r⟩)) ∧
    plus_binary_op.apply_int ⟨INT_MAX⟩ ⟨1⟩ = some ⟨INT_MIN⟩ ∧
    minus_binary_op.apply_int ⟨INT_MIN⟩ ⟨1⟩ = some ⟨INT_MAX⟩ ∧
    mul_binary_op.apply_int ⟨65536⟩ ⟨65536⟩ = some ⟨0⟩ := by
  have _ := hr
  obtain ⟨hd, hm⟩ := div_mod_apply_int_defined_iff l r hl
  have hwrap : ∀ x : Int, ∀ v : cpp_int, some (cpp_int.wrap x) = some v →
      cpp_int.representable v.val = true ∧ (v.val - x) % 4294967296 = 0 ∧
      (cpp_int.representable x = true → v = ⟨x⟩) := by
    intro x v hv
    have hv2 : cpp_int.wrap x = v := Option.some.inj hv
    subst hv2
    refine ⟨cpp_int.wrap_representable x, ?_, fun hx => cpp_int.wrap_of_representable x hx⟩
    simp only [cpp_int.wrap]
    omega
  refine ⟨hd, hm, ?_, ?_, rfl, rfl, rfl, ?_, ?_, ?_, by decide, by decide, by decide⟩
  · intro v hv
    simp only [div_binary_op.apply_int, cpp_int.builtin_div, cpp_int.result] at hv
    split at hv
    · exact absurd hv (by simp)
    · split at hv
      · exact (Option.some.inj hv).symm
      · exact absurd hv (by simp)
  · intro v hv
    simp only [mod_binary_op.apply_int, cpp_int.builtin_mod] at hv
    split at hv
    · exact absurd hv (by simp)
    · split at hv
      · exact (Option.some.inj hv).symm
      · exact absurd hv (by simp)
  · intro v hv
    exact hwrap (l + r) v hv
  · intro v hv
    exact hwrap (l - r) v hv
  · intro v hv
    exact hwrap (l * r) v hv

/-- Witness for C17 (amended): `-7` and `2`, on which all five operators return a value. -/
theorem catalog_apply_int_defined_iff_witness :
    ((div_binary_op.apply_int ⟨-7⟩ ⟨2⟩).isSome = true ↔
      (2 : Int) ≠ 0 ∧ ¬ ((-7 : Int) = INT_MIN ∧ (2 : Int) = -1)) ∧
    ((mod_binary_op.apply_int ⟨-7⟩ ⟨2⟩).isSome = true ↔
      (2 : Int) ≠ 0 ∧ ¬ ((-7 : Int) = INT_MIN ∧ (2 : Int) = -1)) ∧
    (plus_binary_op.apply_int ⟨-7⟩ ⟨2⟩).isSome = true :=
  ⟨(catalog_apply_int_defined_iff (-7) 2 (by decide) (by decide)).1,
    (catalog_apply_int_defined_iff (-7) 2 (by decide) (by decide)).2.1,
    (catalog_apply_int_defined_iff (-7) 2 (by decide) (by decide)).2.2.2.2.1⟩

/-! ## cuDNN convolutions -/

theorem cudnn_run_nil (backend : cudnn_backend) (s : cudnn_state) :
    cudnn_run backend [] s = .ok s := rfl

theorem cudnn_run_cons (backend : cudnn_backend) (c : Bool × cudnn_function)
    (rest : cudnn_script) (s : cudnn_state) :
    cudnn_run backend (c :: rest) s =
      (if c.1 then cudnn_check backend c.2 s else cudnn_unchecked backend c.2 s) >>=
        fun s1 => cudnn_run backend rest s1 := by
  simp [cudnn_run, List.foldlM_cons]

theorem cudnn_run_spec (backend : cudnn_backend) (script : cudnn_script) :
    ∀ s : cudnn_state, cudnn_run backend script s =
      .ok { calls := s.calls ++ script.map Prod.snd,
            cerr := s.cerr ++ cudnn_reports backend s.calls.length script } := by
  induction script with
  | nil => intro s; simp [cudnn_run_nil, cudnn_reports]
  | cons c rest ih =>
    intro s
    obtain ⟨checked, f⟩ := c
    rw [cudnn_run_cons]
    cases checked with
    | false =>
      simp [cudnn_unchecked, bind, Except.bind, ih, cudnn_reports]
    | true =>
      by_cases hst : backend s.calls.length f = .CUDNN_STATUS_SUCCESS
      · simp [cudnn_check, bind, Except.bind, ih, cudnn_reports, hst]
      · simp [cudnn_check, bind, Except.bind, ih, cudnn_reports, hst]

theorem cudnn_reports_mem (backend : cudnn_backend) (script : cudnn_script) :
    ∀ (start n : Nat) (f : cudnn_function), script.get? n = some (true, f) →
      backend (start + n) f ≠ .CUDNN_STATUS_SUCCESS →
      (f, backend (start + n) f) ∈ cudnn_reports backend start script := by
  induction script with
  | nil => intro start n f h; simp at h
  | cons c rest ih =>
    intro start n f h hne
    cases n with
    | zero =>
      simp only [List.get?_cons_zero, Option.some.injEq] at h
      subst h
      simp only [Nat.add_zero] at hne ⊢
      simp [cudnn_reports, hne]
    | succ n =>
      simp only [List.get?_cons_succ] at h
      have := ih (start + 1) n f h (by rw [Nat.add_assoc, Nat.add_comm 1 n]; exact hne)
      obtain ⟨checked, g⟩ := c
      simp only [cudnn_reports, List.mem_append]
      right
      rw [Nat.add_assoc, Nat.add_comm 1 n] at this
      exact this

theorem cudnn_full_multi_spec (backend : cudnn_backend) (K : Nat) :
    ∀ s : cudnn_state, ∃ s1, cudnn.conv2_full_multi backend K s = .ok s1 ∧
      s1.calls = s.calls ++ cudnn_repeat K (cudnn_backward_data.map Prod.snd) := by
  induction K with
  | zero => intro s; exact ⟨s, rfl, by simp [cudnn_repeat]⟩
  | succ K ih =>
    intro s
    obtain ⟨s1, h1, hc⟩ := ih s
    refine ⟨{ calls := s1.calls ++ cudnn_backward_data.map Prod.snd,
              cerr := s1.cerr ++ cudnn_reports backend s1.calls.length cudnn_backward_data },
      ?_, ?_⟩
    · simp only [cudnn.conv2_full_multi] at h1 ⊢
      rw [List.range_succ, List.foldlM_append, h1]
      simp only [List.foldlM_cons, List.foldlM_nil, bind, Except.bind, cudnn.conv2_full,
        cudnn_run_spec]
      rfl
    · simp [cudnn_repeat, hc]

/-- Counterexample to C20 as stated: with a backend whose first call fails with
`CUDNN_STATUS_ALLOC_FAILED`, `conv2_valid` and `conv4_valid` still execute the fourteen later
backend calls, `cudnnConvolutionForward` among them, and return normally; the failure is only
reported on `std::cerr`. -/
theorem cudnn_failed_call_does_not_abort :
    cudnn_first_call_fails 0 .cudnnCreateTensorDescriptor ≠ .CUDNN_STATUS_SUCCESS ∧
    cudnn.conv2_valid cudnn_first_call_fails { calls := [], cerr := [] } =
      .ok { calls := (cudnn_forward true).map Prod.snd,
            cerr := [(.cudnnCreateTensorDescriptor, .CUDNN_STATUS_ALLOC_FAILED)] } ∧
    cudnn.conv4_valid cudnn_first_call_fails { calls := [], cerr := [] } =
      .ok { calls := (cudnn_forward false).map Prod.snd,
            cerr := [(.cudnnCreateTensorDescriptor, .CUDNN_STATUS_ALLOC_FAILED)] } ∧
    ((cudnn_forward true).map Prod.snd).length = 15 ∧
    ((cudnn_forward true).map Prod.snd).get? 10 = some .cudnnConvolutionForward :=
  ⟨by decide, rfl, rfl, rfl, rfl⟩

/-- C20 (amended): whatever statuses the backend returns, each of the cuDNN convolutions executes
all of its backend calls in program order and returns normally; every call inside `cudnn_check`
whose status is not `CUDNN_STATUS_SUCCESS` is reported on `std::cerr` with its status, and that
is all that a failing call changes. -/
theorem cudnn_failures_are_reported_only (backend : cudnn_backend) (s : cudnn_state)
    (K : Nat) :
    cudnn.conv2_valid backend s =
      .ok { calls := s.calls ++ (cudnn_forward true).map Prod.snd,
            cerr := s.cerr ++ cudnn_reports backend s.calls.length (cudnn_forward true) } ∧
    cudnn.conv4_valid backend s =
      .ok { calls := s.calls ++ (cudnn_forward false).map Prod.snd,
            cerr := s.cerr ++ cudnn_reports backend s.calls.length (cudnn_forward false) } ∧
    cudnn.conv2_full backend s =
      .ok { calls := s.calls ++ cudnn_backward_data.map Prod.snd,
            cerr := s.cerr ++ cudnn_reports backend s.calls.length cudnn_backward_data } ∧
    cudnn.conv2_full_flipped backend s =
      .ok { calls := s.calls ++ cudnn_backward_data.map Prod.snd,
            cerr := s.cerr ++ cudnn_reports backend s.calls.length cudnn_backward_data } ∧
    cudnn.conv4_full backend s =
      .ok { calls := s.calls ++ cudnn_backward_data.map Prod.snd,
            cerr := s.cerr ++ cudnn_reports backend s.calls.length cudnn_backward_data } ∧
    cudnn.conv2_valid_multi backend s =
      .ok { calls := s.calls ++ (cudnn_forward true).map Prod.snd,
            cerr := s.cerr ++ cudnn_reports backend s.calls.length (cudnn_forward true) } ∧
    cudnn.conv2_valid_multi_flipped backend s =
      .ok { calls := s.calls ++ (cudnn_forward true).map Prod.snd,
            cerr := s.cerr ++ cudnn_reports backend s.calls.length (cudnn_forward true) } ∧
    (∃ s1, cudnn.conv2_full_multi backend K s = .ok s1 ∧
      s1.calls = s.calls ++ cudnn_repeat K (cudnn_backward_data.map Prod.snd)) ∧
    (∃ s1, cudnn.conv2_full_multi_flipped backend K s = .ok s1 ∧
      s1.calls = s.calls ++ cudnn_repeat K (cudnn_backward_data.map Prod.snd)) ∧
    ∀ (script : cudnn_script) (start n : Nat) (f : cudnn_function),
      script.get? n = some (true, f) → backend (start + n) f ≠ .CUDNN_STATUS_SUCCESS →
      (f, backend (start + n) f) ∈ cudnn_reports backend start script :=
  ⟨cudnn_run_spec backend _ s, cudnn_run_spec backend _ s, cudnn_run_spec backend _ s,
    cudnn_run_spec backend _ s, cudnn_run_spec backend _ s, cudnn_run_spec backend _ s,
    cudnn_run_spec backend _ s, cudnn_full_multi_spec backend K s,
    cudnn_full_multi_spec backend K s, cudnn_reports_mem backend⟩

/-- Witness for C20 (amended): a backend whose first call fails, on `conv2_full` and on the
report of that call. -/
theorem cudnn_failures_are_reported_only_witness :
    cudnn.conv2_full cudnn_first_call_fails { calls := [], cerr := [] } =
      .ok { calls := [] ++ cudnn_backward_data.map Prod.snd,
            cerr := [] ++ cudnn_reports cudnn_first_call_fails 0 cudnn_backward_data } ∧
    (.cudnnCreateTensorDescriptor, cudnn_first_call_fails (0 + 0) .cudnnCreateTensorDescriptor) ∈
      cudnn_reports cudnn_first_call_fails 0 cudnn_backward_data :=
  ⟨(cudnn_failures_are_reported_only cudnn_first_call_fails { calls := [], cerr := [] } 1).2.2.1,
    (cudnn_failures_are_reported_only cudnn_first_call_fails { calls := [], cerr := [] }
      1).2.2.2.2.2.2.2.2.2 cudnn_backward_data 0 0 .cudnnCreateTensorDescriptor rfl
      (by decide)⟩

/-! ## Batched and scalar operators -/

theorem complex.ext_iff2 {R : Type} (x y : complex R) : x = y ↔ x.re = y.re ∧ x.im = y.im := by
  cases x; cases y; simp

/-- C19 (the code at the failing input): `div_binary_op` is vectorizable for `std::complex<float>`
and `std::complex<double>` under SSE, but its `load` divides lane by lane: for `x = 1 + i` and
`y = 1 + i` it yields `1 + i` in every complex slot, while `apply(x, y)` is `1`. The batched
functions of `plus_binary_op` and `minus_binary_op` on complex elements and of `div_binary_op`
on real elements do agree with `apply` in every slot. -/
theorem div_load_complex_differs_from_apply :
    div_binary_op.vectorizable .SSE3 .complex_float = true ∧
    div_binary_op.vectorizable .SSE3 .complex_double = true ∧
    div_binary_op.load_m128 .complex_float
        (m128.of_complex (⟨1, 1⟩ : complex ℚ) ⟨1, 1⟩) (m128.of_complex ⟨1, 1⟩ ⟨1, 1⟩) =
      m128.of_complex ⟨1, 1⟩ ⟨1, 1⟩ ∧
    div_binary_op.load_m128d .complex_double
        (m128d.of_complex (⟨1, 1⟩ : complex ℚ)) (m128d.of_complex ⟨1, 1⟩) =
      m128d.of_complex ⟨1, 1⟩ ∧
    div_binary_op.apply (⟨1, 1⟩ : complex ℚ) ⟨1, 1⟩ = ⟨1, 0⟩ ∧
    div_binary_op.load_m128 .complex_float
        (m128.of_complex (⟨1, 1⟩ : complex ℚ) ⟨1, 1⟩) (m128.of_complex ⟨1, 1⟩ ⟨1, 1⟩) ≠
      m128.of_complex (div_binary_op.apply ⟨1, 1⟩ ⟨1, 1⟩) (div_binary_op.apply ⟨1, 1⟩ ⟨1, 1⟩) ∧
    div_binary_op.load_m128d .complex_double
        (m128d.of_complex (⟨1, 1⟩ : complex ℚ)) (m128d.of_complex ⟨1, 1⟩) ≠
      m128d.of_complex (div_binary_op.apply ⟨1, 1⟩ ⟨1, 1⟩) ∧
    (∀ (R : Type) [Add R] [Sub R] (x1 x2 y1 y2 : complex R),
      plus_binary_op.load_m128 (m128.of_complex x1 x2) (m128.of_complex y1 y2) =
        m128.of_complex (plus_binary_op.apply x1 y1) (plus_binary_op.apply x2 y2) ∧
      minus_binary_op.load_m128 (m128.of_complex x1 x2) (m128.of_complex y1 y2) =
        m128.of_complex (minus_binary_op.apply x1 y1) (minus_binary_op.apply x2 y2)) ∧
    (∀ (R : Type) [Div R] (a b : m128 R) (c d : m128d R),
      div_binary_op.load_m128 .float a b =
        ⟨div_binary_op.apply a.e0 b.e0, div_binary_op.apply a.e1 b.e1,
          div_binary_op.apply a.e2 b.e2, div_binary_op.apply a.e3 b.e3⟩ ∧
      div_binary_op.load_m128d .double c d =
        ⟨div_binary_op.apply c.e0 d.e0, div_binary_op.apply c.e1 d.e1⟩) := by
  have happly : div_binary_op.apply (⟨1, 1⟩ : complex ℚ) ⟨1, 1⟩ = ⟨1, 0⟩ := by
    rw [complex.ext_iff2]
    show ((1 : ℚ) * 1 + 1 * 1) / (1 * 1 + 1 * 1) = 1 ∧ ((1 : ℚ) * 1 - 1 * 1) / (1 * 1 + 1 * 1) = 0
    constructor <;> norm_num
  have h128 : div_binary_op.load_m128 .complex_float
        (m128.of_complex (⟨1, 1⟩ : complex ℚ) ⟨1, 1⟩) (m128.of_complex ⟨1, 1⟩ ⟨1, 1⟩) =
      m128.of_complex ⟨1, 1⟩ ⟨1, 1⟩ := by
    simp [div_binary_op.load_m128, vec.div_m128, _mm_div_ps, m128.of_complex]
  have h128d : div_binary_op.load_m128d .complex_double
        (m128d.of_complex (⟨1, 1⟩ : complex ℚ)) (m128d.of_complex ⟨1, 1⟩) =
      m128d.of_complex ⟨1, 1⟩ := by
    simp [div_binary_op.load_m128d, vec.div_m128d, _mm_div_pd, m128d.of_complex]
  refine ⟨rfl, rfl, h128, h128d, happly, ?_, ?_, ?_, ?_⟩
  · rw [h128, happly]
    intro h
    have := congrArg m128.e1 h
    simp [m128.of_complex] at this
  · rw [h128d, happly]
    intro h
    have := congrArg m128d.e1 h
    simp [m128d.of_complex] at this
  · intro R _ _ x1 x2 y1 y2
    exact ⟨rfl, rfl⟩
  · intro R _ a b c d
    exact ⟨rfl, rfl⟩

/-! ## Transposition -/

theorem flat_div (a b n : Nat) (hb : b < n) : (a * n + b) / n = a := by
  rw [Nat.add_comm, Nat.add_mul_div_right _ _ (by omega : 0 < n), Nat.div_eq_of_lt hb,
    Nat.zero_add]

theorem flat_mod (a b n : Nat) (hb : b < n) : (a * n + b) % n = b := by
  rw [Nat.add_comm, Nat.add_mul_mod_self_right, Nat.mod_eq_of_lt hb]

theorem flat_inj (a b a2 b2 n : Nat) (hb : b < n) (hb2 : b2 < n)
    (h : a * n + b = a2 * n + b2) : a = a2 ∧ b = b2 := by
  have h1 := flat_div a b n hb
  have h2 := flat_mod a b n hb
  rw [h, flat_div a2 b2 n hb2] at h1
  rw [h, flat_mod a2 b2 n hb2] at h2
  exact ⟨h1.symm, h2.symm⟩

theorem flat_lt (a b r c : Nat) (ha : a < r) (hb : b < c) : a * c + b < r * c := by
  have h1 : (a + 1) * c ≤ r * c := Nat.mul_le_mul_right c ha
  rw [Nat.add_mul, Nat.one_mul] at h1
  omega

theorem memory.swap_other {T : Type} (mem : memory T) (d p q id : Nat) (h : id ≠ d) :
    (mem.swap d p q) id = mem id := by
  simp [memory.swap, memory.write_other _ _ _ _ _ h]

theorem memory.swap_shape {T : Type} (mem : memory T) (d p q : Nat) :
    ((mem.swap d p q) d).fast = (mem d).fast ∧ ((mem.swap d p q) d).dims = (mem d).dims := by
  simp [memory.swap, memory.write_fast, memory.write_dims]

theorem memory.swap_data {T : Type} (mem : memory T) (d p q x : Nat) :
    ((mem.swap d p q) d).data x =
      if x = q then (mem d).data p else if x = p then (mem d).data q else (mem d).data x := by
  simp [memory.swap, memory.write_data]

theorem flat_eq_iff (off a b a2 b2 n : Nat) (hb : b < n) (hb2 : b2 < n) :
    off + a * n + b = off + a2 * n + b2 ↔ a = a2 ∧ b = b2 := by
  constructor
  · intro h
    exact flat_inj a b a2 b2 n hb hb2 (by omega)
  · rintro ⟨h1, h2⟩
    rw [h1, h2]

theorem transpose_row_loop {T : Type} (d off n i : Nat) (hi : i < n) (mem : memory T)
    (k : Nat) (hk : k ≤ n) :
    (∀ id, id ≠ d →
      ((List.range k).foldl
        (fun m j => if i < j then m.swap d (off + i * n + j) (off + j * n + i) else m) mem) id =
        mem id) ∧
    (((List.range k).foldl
        (fun m j => if i < j then m.swap d (off + i * n + j) (off + j * n + i) else m) mem)
        d).fast = (mem d).fast ∧
    (((List.range k).foldl
        (fun m j => if i < j then m.swap d (off + i * n + j) (off + j * n + i) else m) mem)
        d).dims = (mem d).dims ∧
    (∀ x, (x < off ∨ off + n * n ≤ x) →
      (((List.range k).foldl
        (fun m j => if i < j then m.swap d (off + i * n + j) (off + j * n + i) else m) mem)
        d).data x = (mem d).data x) ∧
    ∀ a b, a < n → b < n →
      (((List.range k).foldl
        (fun m j => if i < j then m.swap d (off + i * n + j) (off + j * n + i) else m) mem)
        d).data (off + a * n + b) =
        if (a = i ∧ i < b ∧ b < k) ∨ (b = i ∧ i < a ∧ a < k) then (mem d).data (off + b * n + a)
        else (mem d).data (off + a * n + b) := by
  induction k with
  | zero =>
    refine ⟨fun _ _ => rfl, rfl, rfl, fun _ _ => rfl, ?_⟩
    intro a b _ _
    have hc : ¬ ((a = i ∧ i < b ∧ b < 0) ∨ (b = i ∧ i < a ∧ a < 0)) := by omega
    simp only [List.range_zero, List.foldl_nil, hc, if_false]
  | succ k ih =>
    obtain ⟨hoth, hfast, hdims, hout, hin⟩ := ih (by omega)
    rw [List.range_succ, List.foldl_append]
    simp only [List.foldl_cons, List.foldl_nil]
    by_cases hik : i < k
    · simp only [hik, if_true]
      have hp : off + i * n + k < off + n * n := by
        have := flat_lt i k n n hi (by omega)
        omega
      have hq : off + k * n + i < off + n * n := by
        have := flat_lt k i n n (by omega) hi
        omega
      refine ⟨?_, ?_, ?_, ?_, ?_⟩
      · intro id hid
        rw [memory.swap_other _ _ _ _ _ hid]
        exact hoth id hid
      · rw [(memory.swap_shape _ _ _ _).1]; exact hfast
      · rw [(memory.swap_shape _ _ _ _).2]; exact hdims
      · intro x hx
        rw [memory.swap_data]
        have h1 : x ≠ off + k * n + i := by omega
        have h2 : x ≠ off + i * n + k := by omega
        simp only [h1, h2, if_false]
        exact hout x hx
      · intro a b ha hb
        rw [memory.swap_data]
        by_cases h1 : a = k ∧ b = i
        · obtain ⟨rfl, rfl⟩ := h1
          rw [if_pos rfl, hin b a hb ha]
          split_ifs <;> first | rfl | (exfalso; omega)
        · have hx1 : ¬ (off + a * n + b = off + k * n + i) := by
            rw [flat_eq_iff off a b k i n hb hi]
            exact h1
          simp only [hx1, if_false]
          by_cases h2 : a = i ∧ b = k
          · obtain ⟨rfl, rfl⟩ := h2
            rw [if_pos rfl, hin b a hb ha]
            split_ifs <;> first | rfl | (exfalso; omega)
          · have hx2 : ¬ (off + a * n + b = off + i * n + k) := by
              rw [flat_eq_iff off a b i k n hb (by omega)]
              exact h2
            simp only [hx2, if_false]
            rw [hin a b ha hb]
            have hc : ((a = i ∧ i < b ∧ b < k + 1) ∨ (b = i ∧ i < a ∧ a < k + 1)) ↔
                ((a = i ∧ i < b ∧ b < k) ∨ (b = i ∧ i < a ∧ a < k)) := by omega
            simp only [hc]
    · simp only [hik, if_false]
      refine ⟨hoth, hfast, hdims, hout, ?_⟩
      intro a b ha hb
      rw [hin a b ha hb]
      have hc : ((a = i ∧ i < b ∧ b < k + 1) ∨ (b = i ∧ i < a ∧ a < k + 1)) ↔
          ((a = i ∧ i < b ∧ b < k) ∨ (b = i ∧ i < a ∧ a < k)) := by omega
      simp only [hc]

theorem transpose_rows_loop {T : Type} (d off n : Nat) (mem : memory T) (k : Nat)
    (hk : k ≤ n) :
    (∀ id, id ≠ d →
      ((List.range k).foldl
        (fun m i => (List.range n).foldl
          (fun m j => if i < j then m.swap d (off + i * n + j) (off + j * n + i) else m) m)
        mem) id = mem id) ∧
    (((List.range k).foldl
        (fun m i => (List.range n).foldl
          (fun m j => if i < j then m.swap d (off + i * n + j) (off + j * n + i) else m) m)
        mem) d).fast = (mem d).fast ∧
    (((List.range k).foldl
        (fun m i => (List.range n).foldl
          (fun m j => if i < j then m.swap d (off + i * n + j) (off + j * n + i) else m) m)
        mem) d).dims = (mem d).dims ∧
    (∀ x, (x < off ∨ off + n * n ≤ x) →
      (((List.range k).foldl
        (fun m i => (List.range n).foldl
          (fun m j => if i < j then m.swap d (off + i * n + j) (off + j * n + i) else m) m)
        mem) d).data x = (mem d).data x) ∧
    ∀ a b, a < n → b < n →
      (((List.range k).foldl
        (fun m i => (List.range n).foldl
          (fun m j => if i < j then m.swap d (off + i * n + j) (off + j * n + i) else m) m)
        mem) d).data (off + a * n + b) =
        if (a < k ∨ b < k) ∧ a ≠ b then (mem d).data (off + b * n + a)
        else (mem d).data (off + a * n + b) := by
  induction k with
  | zero =>
    refine ⟨fun _ _ => rfl, rfl, rfl, fun _ _ => rfl, ?_⟩
    intro a b _ _
    have hc : ¬ ((a < 0 ∨ b < 0) ∧ a ≠ b) := by omega
    simp only [List.range_zero, List.foldl_nil]
    rw [if_neg hc]
  | succ k ih =>
    obtain ⟨hoth, hfast, hdims, hout, hin⟩ := ih (by omega)
    rw [List.range_succ, List.foldl_append]
    simp only [List.foldl_cons, List.foldl_nil]
    obtain ⟨roth, rfast, rdims, rout, rin⟩ :=
      transpose_row_loop d off n k (by omega)
        ((List.range k).foldl
          (fun m i => (List.range n).foldl
            (fun m j => if i < j then m.swap d (off + i * n + j) (off + j * n + i) else m) m)
          mem) n (Nat.le_refl n)
    refine ⟨?_, ?_, ?_, ?_, ?_⟩
    · intro id hid
      rw [roth id hid]
      exact hoth id hid
    · rw [rfast]; exact hfast
    · rw [rdims]; exact hdims
    · intro x hx
      rw [rout x hx]
      exact hout x hx
    · intro a b ha hb
      rw [rin a b ha hb, hin a b ha hb, hin b a hb ha]
      by_cases hab : a = b
      · subst hab
        split_ifs <;> rfl
      · split_ifs <;> first | rfl | (exfalso; omega)

theorem inplace_square_transpose_spec {T : Type} (d off n : Nat) (mem : memory T) :
    (∀ id, id ≠ d → (inplace_square_transpose d off n mem) id = mem id) ∧
    ((inplace_square_transpose d off n mem) d).fast = (mem d).fast ∧
    ((inplace_square_transpose d off n mem) d).dims = (mem d).dims ∧
    (∀ x, (x < off ∨ off + n * n ≤ x) →
      ((inplace_square_transpose d off n mem) d).data x = (mem d).data x) ∧
    ∀ a b, a < n → b < n →
      ((inplace_square_transpose d off n mem) d).data (off + a * n + b) =
        (mem d).data (off + b * n + a) := by
  obtain ⟨hoth, hfast, hdims, hout, hin⟩ := transpose_rows_loop d off n mem n (Nat.le_refl n)
  refine ⟨hoth, hfast, hdims, hout, ?_⟩
  intro a b ha hb
  have h := hin a b ha hb
  rw [inplace_square_transpose, h]
  by_cases hab : a = b
  · subst hab
    split_ifs <;> rfl
  · have hc : (a < n ∨ b < n) ∧ a ≠ b := ⟨Or.inl ha, hab⟩
    rw [if_pos hc]

theorem dim_expr_two (f : Bool) (r c : Nat) :
    dim 0 (.expr f [r, c]) = r ∧ dim 1 (.expr f [r, c]) = c := by
  simp [dim]

theorem dim_expr_three (f : Bool) (d0 d1 d2 : Nat) :
    dim 0 (.expr f [d0, d1, d2]) = d0 ∧ dim 1 (.expr f [d0, d1, d2]) = d1 ∧
      dim 2 (.expr f [d0, d1, d2]) = d2 := by
  simp [dim]

theorem transpose_value_read_flat {T : Type} (mem : memory T) (a r c : Nat)
    (ha : (mem a).dims = [r, c]) (i j : Nat) (hi : i < r) :
    (transpose (matrix_node.value a)).read_flat mem (j * r + i) = (mem a).data (i * c + j) := by
  simp only [matrix_node.read_flat, transpose, matrix_node.value, ha, (dim_expr_two _ _ _).1,
    (dim_expr_two _ _ _).2, flat_div j i r hi, flat_mod j i r hi]

theorem transpose_value_stable {T : Type} (a b k : Nat) (hab : a ≠ b) (m mem : memory T)
    (h : memory.agree_from b k m mem) (x : Nat) :
    (transpose (matrix_node.value a)).read_flat m x =
      (transpose (matrix_node.value a)).read_flat mem x := by
  simp only [matrix_node.read_flat, transpose, matrix_node.value, h.1 a hab]

theorem assign_transpose_spec {T : Type} (mem : memory T) (a b r c : Nat)
    (ha : (mem a).dims = [r, c]) (hb : (mem b).dims = [c, r]) (hab : a ≠ b) :
    (assign_matrix b (transpose (matrix_node.value a)) mem).status = .ok () ∧
    ((assign_matrix b (transpose (matrix_node.value a)) mem).mem b).dims = [c, r] ∧
    (assign_matrix b (transpose (matrix_node.value a)) mem).mem a = mem a ∧
    ∀ i j, i < r → j < c →
      ((assign_matrix b (transpose (matrix_node.value a)) mem).mem b).data (j * r + i) =
        (mem a).data (i * c + j) := by
  have hv : validate_assign (.expr (mem b).fast (mem b).dims)
      ((transpose (matrix_node.value a)).traits mem) = .ok () := by
    simp only [transpose, matrix_node.value, ha, hb, (dim_expr_two _ _ _).1,
      (dim_expr_two _ _ _).2]
    exact validate_assign_tensor_ok _ _ _ _ rfl
  obtain ⟨hoth, -, hdims, hdata⟩ :=
    std_evaluate_spec (fun _ r => r) (transpose (matrix_node.value a)).read_flat b mem
      (fun k m h => transpose_value_stable a b k hab m mem h k)
  have heq : assign_matrix b (transpose (matrix_node.value a)) mem =
      { status := .ok (),
        mem := std_evaluate (fun _ r => r) (transpose (matrix_node.value a)).read_flat b mem } := by
    simp [assign_matrix, hv, std_assign_evaluate]
  rw [heq]
  refine ⟨rfl, by rw [hdims, hb], hoth a hab, ?_⟩
  intro i j hi hj
  have hlt : j * r + i < mem.size b := by
    simp only [memory.size, hb, List.prod_cons, List.prod_nil, Nat.mul_one]
    exact flat_lt j i c r hj hi
  show ((std_evaluate (fun _ r => r) (transpose (matrix_node.value a)).read_flat b mem) b).data
    (j * r + i) = _
  rw [hdata (j * r + i), if_pos hlt, transpose_value_read_flat mem a r c ha i j hi]

theorem matrix_node.value_call {T : Type} (mem : memory T) (s r c : Nat)
    (h : (mem s).dims = [r, c]) (i j : Nat) :
    (matrix_node.value s).call mem i j = (mem s).data (i * c + j) := by
  simp only [matrix_node.value, h, (dim_expr_two _ _ _).2]

/-- C13: for every `r x c` matrix `a`, `transpose(a)` is a `c x r` node with
`transpose(a)(j, i) == a(i, j)`, and a `c x r` matrix `b` built from it holds
`b(j, i) == a(i, j)` for all `i < r` and `j < c`; for a square matrix `s`, `transpose_inplace`
leaves `s(i, j)` equal to the old `s(j, i)`. -/
theorem transpose_elements {T : Type} (mem : memory T) (a b r c s n : Nat)
    (ha : (mem a).dims = [r, c]) (hb : (mem b).dims = [c, r]) (hab : a ≠ b)
    (hs : (mem s).dims = [n, n]) :
    (dim 0 ((transpose (matrix_node.value a)).traits mem) = c ∧
      dim 1 ((transpose (matrix_node.value a)).traits mem) = r) ∧
    (∀ i j, (transpose (matrix_node.value a)).call mem j i =
      (matrix_node.value a).call mem i j) ∧
    (assign_matrix b (transpose (matrix_node.value a)) mem).status = .ok () ∧
    ((assign_matrix b (transpose (matrix_node.value a)) mem).mem b).dims = [c, r] ∧
    (∀ i j, i < r → j < c →
      (matrix_node.value b).call (assign_matrix b (transpose (matrix_node.value a)) mem).mem j i =
        (matrix_node.value a).call mem i j) ∧
    ((transpose_inplace s mem) s).dims = [n, n] ∧
    ∀ i j, i < n → j < n →
      (matrix_node.value s).call (transpose_inplace s mem) i j =
        (matrix_node.value s).call mem j i := by
  obtain ⟨hst, hdims, -, hdata⟩ := assign_transpose_spec mem a b r c ha hb hab
  obtain ⟨-, -, sdims, -, sin⟩ := inplace_square_transpose_spec s 0 n mem
  have hti : transpose_inplace s mem = inplace_square_transpose s 0 n mem := by
    simp only [transpose_inplace, hs, (dim_expr_two _ _ _).1]
  refine ⟨?_, fun _ _ => rfl, hst, hdims, ?_, ?_, ?_⟩
  · simp only [transpose, matrix_node.value, ha, dim_expr_two, and_self]
  · intro i j hi hj
    rw [matrix_node.value_call _ b c r hdims, matrix_node.value_call _ a r c ha]
    exact hdata i j hi hj
  · rw [hti, sdims, hs]
  · intro i j hi hj
    have h := sin i j hi hj
    simp only [Nat.zero_add] at h
    rw [hti, matrix_node.value_call _ s n n (by rw [sdims, hs]),
      matrix_node.value_call _ s n n hs]
    exact h

/-- Witness for C13: the matrices of `transpose/fast_matrix_1` and `transpose/fast_matrix_3`:
`b(0, 1) == a(1, 0) == 3` and, after the transposition in place, `s(0, 1) == 4`. -/
theorem transpose_elements_witness :
    (assign_matrix 1 (transpose (matrix_node.value 0)) transpose_1_memory).status = .ok () ∧
    (matrix_node.value 1).call
      (assign_matrix 1 (transpose (matrix_node.value 0)) transpose_1_memory).mem 0 1 = 3 ∧
    (matrix_node.value 2).call (transpose_inplace 2 transpose_1_memory) 0 1 = 4 := by
  have h := transpose_elements transpose_1_memory 0 1 3 2 2 3 rfl rfl (by decide) rfl
  refine ⟨h.2.2.1, ?_, ?_⟩
  · rw [h.2.2.2.2.1 1 0 (by decide) (by decide)]
    norm_num [matrix_node.value, transpose_1_memory, memory.of_list, tensor.of_list, dim]
  · rw [h.2.2.2.2.2.2 0 1 (by decide) (by decide)]
    norm_num [matrix_node.value, transpose_1_memory, memory.of_list, tensor.of_list, dim]

theorem transpose_transpose_read_flat {T : Type} (mem : memory T) (a r c : Nat)
    (ha : (mem a).dims = [r, c]) (k : Nat) :
    (transpose (transpose (matrix_node.value a))).read_flat mem k = (mem a).data k := by
  simp only [matrix_node.read_flat, transpose, matrix_node.value, ha, (dim_expr_two _ _ _).1,
    (dim_expr_two _ _ _).2]
  rw [Nat.mul_comm, Nat.div_add_mod]

theorem inplace_square_transpose_twice {T : Type} (d off n : Nat) (mem : memory T) (x : Nat) :
    ((inplace_square_transpose d off n (inplace_square_transpose d off n mem)) d).data x =
      (mem d).data x := by
  obtain ⟨-, -, -, hout1, hin1⟩ := inplace_square_transpose_spec d off n mem
  obtain ⟨-, -, -, hout2, hin2⟩ :=
    inplace_square_transpose_spec d off n (inplace_square_transpose d off n mem)
  by_cases hx : x < off ∨ off + n * n ≤ x
  · rw [hout2 x hx, hout1 x hx]
  · have hlo : off ≤ x := by omega
    have hhi : x - off < n * n := by omega
    have hn : 0 < n := by
      rcases Nat.eq_zero_or_pos n with h | h
      · subst h; omega
      · exact h
    have hb : (x - off) % n < n := Nat.mod_lt _ hn
    have ha : (x - off) / n < n := Nat.div_lt_of_lt_mul hhi
    have hdec : x = off + (x - off) / n * n + (x - off) % n := by
      have := Nat.div_add_mod (x - off) n
      rw [Nat.mul_comm] at this
      omega
    rw [hdec, hin2 _ _ ha hb, hin1 _ _ hb ha]

theorem sub_transpose_inplace_spec {T : Type} (mem : memory T) (t d0 m k : Nat)
    (ht : (mem t).dims = [d0, m, m]) (hk : k < d0) :
    (∀ id, id ≠ t → (sub_transpose_inplace t k mem) id = mem id) ∧
    ((sub_transpose_inplace t k mem) t).dims = [d0, m, m] ∧
    (∀ x, (x < k * (m * m) ∨ (k + 1) * (m * m) ≤ x) →
      ((sub_transpose_inplace t k mem) t).data x = (mem t).data x) ∧
    ∀ u i j, u < d0 → i < m → j < m →
      (sub_transpose_inplace t k mem).call3 t u i j =
        if u = k then mem.call3 t k j i else mem.call3 t u i j := by
  have _ := hk
  obtain ⟨hoth, -, hdims, hout, hin⟩ := inplace_square_transpose_spec t (k * (m * m)) m mem
  have heq : sub_transpose_inplace t k mem = inplace_square_transpose t (k * (m * m)) m mem := by
    simp only [sub_transpose_inplace, ht, (dim_expr_three _ _ _ _).2.1,
      (dim_expr_three _ _ _ _).2.2]
  rw [heq]
  have hblock : k * (m * m) + m * m = (k + 1) * (m * m) := by
    rw [Nat.add_mul, Nat.one_mul]
  refine ⟨hoth, by rw [hdims, ht], ?_, ?_⟩
  · intro x hx
    exact hout x (by omega)
  · intro u i j _ hi hj
    have hd : ((inplace_square_transpose t (k * (m * m)) m mem) t).dims = [d0, m, m] := by
      rw [hdims, ht]
    simp only [memory.call3, hd, ht, (dim_expr_three _ _ _ _).2.1, (dim_expr_three _ _ _ _).2.2]
    by_cases huk : u = k
    · subst huk
      rw [if_pos rfl]
      exact hin i j hi hj
    · rw [if_neg huk]
      have hij : i * m + j < m * m := flat_lt i j m m hi hj
      apply hout
      rcases Nat.lt_or_gt_of_ne huk with h | h
      · left
        have : (u + 1) * (m * m) ≤ k * (m * m) := Nat.mul_le_mul_right _ h
        rw [Nat.add_mul, Nat.one_mul] at this
        omega
      · right
        have : (k + 1) * (m * m) ≤ u * (m * m) := Nat.mul_le_mul_right _ h
        rw [Nat.add_mul, Nat.one_mul] at this
        omega

/-- C12: for every `r x c` matrix `a`, `transpose(transpose(a))` has the extents of `a`, the same
element at every flat index, and compares equal to `a`; for a square matrix `s`, two
applications of `transpose_inplace` restore every element; and transposing in place the slice `k`
of a tensor `t` of three dimensions (with square slices) transposes that slice and leaves every
element of every other slice, and every other tensor, as it was. -/
theorem transpose_round_trip {T : Type} [DecidableEq T] (mem : memory T)
    (a r c s n t d0 m k : Nat) (ha : (mem a).dims = [r, c]) (hs : (mem s).dims = [n, n])
    (ht : (mem t).dims = [d0, m, m]) (hk : k < d0) :
    (dim 0 ((transpose (transpose (matrix_node.value a))).traits mem) = r ∧
      dim 1 ((transpose (transpose (matrix_node.value a))).traits mem) = c) ∧
    (∀ x, (transpose (transpose (matrix_node.value a))).read_flat mem x = (mem a).data x) ∧
    comparable.operator_eq ((transpose (transpose (matrix_node.value a))).sequence mem)
      (mem.sequence a) = true ∧
    (∀ x, ((transpose_inplace s (transpose_inplace s mem)) s).data x = (mem s).data x) ∧
    (∀ u i j, u < d0 → i < m → j < m →
      (sub_transpose_inplace t k mem).call3 t u i j =
        if u = k then mem.call3 t k j i else mem.call3 t u i j) ∧
    (∀ x, (x < k * (m * m) ∨ (k + 1) * (m * m) ≤ x) →
      ((sub_transpose_inplace t k mem) t).data x = (mem t).data x) ∧
    ∀ id, id ≠ t → (sub_transpose_inplace t k mem) id = mem id := by
  obtain ⟨toth, -, tout, tin⟩ := sub_transpose_inplace_spec mem t d0 m k ht hk
  have hdim : dim 0 ((transpose (transpose (matrix_node.value a))).traits mem) = r ∧
      dim 1 ((transpose (transpose (matrix_node.value a))).traits mem) = c := by
    simp only [transpose, matrix_node.value, ha, dim_expr_two, and_self]
  refine ⟨hdim, transpose_transpose_read_flat mem a r c ha, ?_, ?_, tin, tout, toth⟩
  · rw [comparable.operator_eq_iff]
    refine ⟨?_, ?_⟩
    · simp only [matrix_node.sequence, memory.sequence, memory.size, hdim.1, hdim.2, ha,
        List.prod_cons, List.prod_nil, Nat.mul_one]
    · intro x _
      simp only [matrix_node.sequence, memory.sequence,
        transpose_transpose_read_flat mem a r c ha x, beq_self_eq_true]
  · intro x
    obtain ⟨-, -, sdims, -, -⟩ := inplace_square_transpose_spec s 0 n mem
    have h1 : transpose_inplace s mem = inplace_square_transpose s 0 n mem := by
      simp only [transpose_inplace, hs, (dim_expr_two _ _ _).1]
    have h2 : transpose_inplace s (inplace_square_transpose s 0 n mem) =
        inplace_square_transpose s 0 n (inplace_square_transpose s 0 n mem) := by
      simp only [transpose_inplace, sdims, hs, (dim_expr_two _ _ _).1]
    rw [h1, h2]
    exact inplace_square_transpose_twice s 0 n mem x

/-- Witness for C12: the tensors of `transpose/dyn_matrix_3` and `transpose/expr_1`, slice `1`. -/
theorem transpose_round_trip_witness :
    (∀ x, ((transpose_inplace 0 (transpose_inplace 0 transpose_3_memory)) 0).data x =
      (transpose_3_memory 0).data x) ∧
    (sub_transpose_inplace 1 1 transpose_3_memory).call3 1 1 0 1 = 4 ∧
    (sub_transpose_inplace 1 1 transpose_3_memory).call3 1 2 0 1 = 2 := by
  have h := transpose_round_trip transpose_3_memory 0 3 3 0 3 1 3 3 1 rfl rfl rfl (by decide)
  refine ⟨h.2.2.2.1, ?_, ?_⟩
  · rw [h.2.2.2.2.1 1 0 1 (by decide) (by decide) (by decide)]
    decide
  · rw [h.2.2.2.2.1 2 0 1 (by decide) (by decide) (by decide)]
    decide

/-! ## Symmetric matrices -/

theorem sym_matrix.set_data {T : Type} (mem : memory T) (b n i j : Nat) (v : T)
    (hd : (mem b).dims = [n, n]) (hi : i < n) (hj : j < n) :
    ((sym_matrix.set b i j v mem) b).dims = [n, n] ∧
    (∀ id, id ≠ b → (sym_matrix.set b i j v mem) id = mem id) ∧
    ∀ x y, x < n → y < n →
      ((sym_matrix.set b i j v mem) b).data (x * n + y) =
        if (x = i ∧ y = j) ∨ (x = j ∧ y = i) then v else (mem b).data (x * n + y) := by
  simp only [sym_matrix.set, hd, (dim_expr_two _ _ _).2]
  refine ⟨by rw [memory.write_dims, memory.write_dims, hd], ?_, ?_⟩
  · intro id hid
    rw [memory.write_other _ _ _ _ _ hid, memory.write_other _ _ _ _ _ hid]
  · intro x y _ hy
    rw [memory.write_data, memory.write_data]
    have h1 : x * n + y = j * n + i ↔ x = j ∧ y = i :=
      ⟨fun h => flat_inj x y j i n hy hi h, fun h => by rw [h.1, h.2]⟩
    have h2 : x * n + y = i * n + j ↔ x = i ∧ y = j :=
      ⟨fun h => flat_inj x y i j n hy hj h, fun h => by rw [h.1, h.2]⟩
    simp only [h1, h2]
    split_ifs <;> first | rfl | (exfalso; omega)

theorem sym_matrix.set_invariant {T : Type} (mem : memory T) (b n i j : Nat) (v : T)
    (hinv : sym_matrix.invariant mem b n) (hi : i < n) (hj : j < n) :
    sym_matrix.invariant (sym_matrix.set b i j v mem) b n ∧
    (matrix_node.value b).call (sym_matrix.set b i j v mem) i j = v ∧
    (matrix_node.value b).call (sym_matrix.set b i j v mem) j i = v := by
  obtain ⟨hd, hsym⟩ := hinv
  obtain ⟨hd2, -, hdata⟩ := sym_matrix.set_data mem b n i j v hd hi hj
  refine ⟨⟨hd2, ?_⟩, ?_, ?_⟩
  · intro x y hx hy
    rw [hdata x y hx hy, hdata y x hy hx, hsym x y hx hy]
    split_ifs <;> first | rfl | (exfalso; omega)
  · rw [matrix_node.value_call _ b n n hd2, hdata i j hi hj]
    simp
  · rw [matrix_node.value_call _ b n n hd2, hdata j i hj hi]
    simp

theorem is_symmetric_iff {T : Type} [DecidableEq T] (mem : memory T) (a n : Nat)
    (hd : (mem a).dims = [n, n]) :
    is_symmetric mem a = true ↔
      ∀ i j, i < n → j < n → (mem a).data (i * n + j) = (mem a).data (j * n + i) := by
  simp only [is_symmetric, matrix_node.value, hd, operand.dimensions, (dim_expr_two _ _ _).1,
    (dim_expr_two _ _ _).2]
  simp only [List.length_cons, List.length_nil, beq_self_eq_true, Bool.true_and,
    List.all_eq_true, List.mem_range, beq_iff_eq]
  constructor
  · intro h i j hi hj
    exact h i hi j hj
  · intro h i hi j hj
    exact h i j hi hj

theorem memory.size_square {T : Type} (mem : memory T) (a n : Nat)
    (hd : (mem a).dims = [n, n]) : mem.size a = n * n := by
  simp [memory.size, hd]

theorem sym_matrix.assign_symmetric {T : Type} [DecidableEq T] (mem : memory T) (b a n : Nat)
    (hb : (mem b).dims = [n, n]) (ha : (mem a).dims = [n, n]) (hab : a ≠ b)
    (hsym : is_symmetric mem a = true) :
    (sym_matrix.assign b a mem).status = .ok () ∧
    sym_matrix.invariant (sym_matrix.assign b a mem).mem b n ∧
    comparable.operator_eq ((sym_matrix.assign b a mem).mem.sequence b)
      ((sym_matrix.assign b a mem).mem.sequence a) = true ∧
    comparable.operator_eq ((sym_matrix.assign b a mem).mem.sequence a)
      ((sym_matrix.assign b a mem).mem.sequence b) = true ∧
    (sym_matrix.assign b a mem).mem a = mem a := by
  have hv : validate_assign (.expr (mem b).fast (mem b).dims)
      (.expr (mem a).fast (mem a).dims) = .ok () := by
    rw [ha, hb]
    exact validate_assign_tensor_ok _ _ _ _ rfl
  have heq : sym_matrix.assign b a mem =
      { status := .ok (),
        mem := std_evaluate (fun _ r => r) (fun m i => (expr.value a).read_flat m i) b mem } := by
    simp [sym_matrix.assign, hv, hsym, std_assign_evaluate]
  obtain ⟨hoth, -, hdims, hdata⟩ :=
    std_evaluate_spec (fun _ r => r) (fun m i => (expr.value a).read_flat m i) b mem
      (fun k m h => expr.read_flat_agree b k m mem h (.value a))
  have hsz : mem.size b = n * n := memory.size_square mem b n hb
  have hcopy : ∀ k, k < n * n →
      ((std_evaluate (fun _ r => r) (fun m i => (expr.value a).read_flat m i) b mem) b).data k =
        (mem a).data k := by
    intro k hk
    rw [hdata k, hsz, if_pos hk]
    rfl
  have hasym := (is_symmetric_iff mem a n ha).1 hsym
  rw [heq]
  have hd2 : ((std_evaluate (fun _ r => r) (fun m i => (expr.value a).read_flat m i) b mem)
      b).dims = [n, n] := by rw [hdims, hb]
  have ha2 : (std_evaluate (fun _ r => r) (fun m i => (expr.value a).read_flat m i) b mem) a =
      mem a := hoth a hab
  refine ⟨rfl, ⟨hd2, ?_⟩, ?_, ?_, ha2⟩
  · intro i j hi hj
    show ((std_evaluate (fun _ r => r) (fun m i => (expr.value a).read_flat m i) b mem)
      b).data (i * n + j) = ((std_evaluate (fun _ r => r)
        (fun m i => (expr.value a).read_flat m i) b mem) b).data (j * n + i)
    rw [hcopy _ (flat_lt i j n n hi hj), hcopy _ (flat_lt j i n n hj hi)]
    exact hasym i j hi hj
  · rw [comparable.operator_eq_iff]
    refine ⟨?_, ?_⟩
    · simp only [memory.sequence, memory.size, hd2, ha2, ha]
    · intro k hk
      have hk2 : k < n * n := by
        simpa [memory.sequence, memory.size, hd2] using hk
      simp only [memory.sequence, ha2, beq_iff_eq]
      exact hcopy k hk2
  · rw [comparable.operator_eq_iff]
    refine ⟨?_, ?_⟩
    · simp only [memory.sequence, memory.size, hd2, ha2, ha]
    · intro k hk
      have hk2 : k < n * n := by
        simpa [memory.sequence, memory.size, ha2, ha] using hk
      simp only [memory.sequence, ha2, beq_iff_eq]
      exact (hcopy k hk2).symm

theorem sym_matrix.assign_not_symmetric {T : Type} [DecidableEq T] (mem : memory T)
    (b a n : Nat) (hb : (mem b).dims = [n, n]) (ha : (mem a).dims = [n, n])
    (hsym : is_symmetric mem a = false) :
    sym_matrix.assign b a mem = { status := .error .structural_invariant, mem := mem } := by
  have hv : validate_assign (.expr (mem b).fast (mem b).dims)
      (.expr (mem a).fast (mem a).dims) = .ok () := by
    rw [ha, hb]
    exact validate_assign_tensor_ok _ _ _ _ rfl
  simp [sym_matrix.assign, hv, hsym]

/-- Counterexample to C15 as stated: the dense 2x2 matrix `{0, 1, 2, 0}` is not symmetric; its
assignment to a symmetric matrix `b` is refused, `b` keeps its contents, and `b == a` is false
afterwards. -/
theorem sym_matrix_assign_not_symmetric_differs :
    (sym_4_memory 2).dims = [2, 2] ∧ (sym_4_memory 3).dims = [2, 2] ∧
    (sym_matrix.assign 3 2 sym_4_memory).status = .error .structural_invariant ∧
    comparable.operator_eq ((sym_matrix.assign 3 2 sym_4_memory).mem.sequence 3)
      ((sym_matrix.assign 3 2 sym_4_memory).mem.sequence 2) = false := by
  have h := sym_matrix.assign_not_symmetric sym_4_memory 3 2 2 rfl rfl (by decide)
  refine ⟨rfl, rfl, ?_, ?_⟩
  · rw [h]
  · rw [h]
    decide

/-- C15 (amended): a freshly constructed symmetric matrix is `n x n` and all zeros; for a
symmetric matrix `b` that satisfies `b(i, j) == b(j, i)` for all `i, j`: assigning a dense `n x n`
matrix `a` that is symmetric succeeds, keeps the property, leaves `b == a` and `a == b` true and
`a` unchanged; assigning one that is not symmetric is refused and changes nothing; and an element
write `b(i, j) = v` or a compound element update keeps the property and leaves the new value in
both `b(i, j)` and `b(j, i)`. -/
theorem sym_matrix_stays_symmetric {T : Type} [DecidableEq T] [Zero T] (mem : memory T)
    (b a n i j : Nat) (v : T) (op : T → T → T) (hinv : sym_matrix.invariant mem b n)
    (ha : (mem a).dims = [n, n]) (hab : a ≠ b) (hi : i < n) (hj : j < n) :
    (∀ (f : Bool) (m : memory T), m b = sym_matrix.construct f n →
      sym_matrix.invariant m b n ∧ ∀ x y, (matrix_node.value b).call m x y = 0) ∧
    (is_symmetric mem a = true →
      (sym_matrix.assign b a mem).status = .ok () ∧
      sym_matrix.invariant (sym_matrix.assign b a mem).mem b n ∧
      comparable.operator_eq ((sym_matrix.assign b a mem).mem.sequence b)
        ((sym_matrix.assign b a mem).mem.sequence a) = true ∧
      comparable.operator_eq ((sym_matrix.assign b a mem).mem.sequence a)
        ((sym_matrix.assign b a mem).mem.sequence b) = true ∧
      (sym_matrix.assign b a mem).mem a = mem a) ∧
    (is_symmetric mem a = false →
      (sym_matrix.assign b a mem).status = .error .structural_invariant ∧
      (sym_matrix.assign b a mem).mem = mem) ∧
    (sym_matrix.invariant (sym_matrix.set b i j v mem) b n ∧
      (matrix_node.value b).call (sym_matrix.set b i j v mem) i j = v ∧
      (matrix_node.value b).call (sym_matrix.set b i j v mem) j i = v) ∧
    (sym_matrix.invariant (sym_matrix.update op b i j v mem) b n ∧
      (matrix_node.value b).call (sym_matrix.update op b i j v mem) i j =
        op ((matrix_node.value b).call mem i j) v ∧
      (matrix_node.value b).call (sym_matrix.update op b i j v mem) j i =
        op ((matrix_node.value b).call mem i j) v) := by
  refine ⟨?_, ?_, ?_, sym_matrix.set_invariant mem b n i j v hinv hi hj,
    sym_matrix.set_invariant mem b n i j _ hinv hi hj⟩
  · intro f m hm
    refine ⟨⟨by rw [hm]; rfl, fun _ _ _ _ => by rw [hm]; rfl⟩, ?_⟩
    intro x y
    simp only [matrix_node.value, hm]
    rfl
  · intro hsym
    exact sym_matrix.assign_symmetric mem b a n hinv.1 ha hab hsym
  · intro hsym
    rw [sym_matrix.assign_not_symmetric mem b a n hinv.1 ha hsym]
    exact ⟨rfl, rfl⟩

/-- Witness for C15 (amended): the matrices of `sym/fast_matrix/4`, and the write
`b(2, 1) = 7`. -/
theorem sym_matrix_stays_symmetric_witness :
    (sym_matrix.assign 1 0 sym_4_memory).status = .ok () ∧
    comparable.operator_eq ((sym_matrix.assign 1 0 sym_4_memory).mem.sequence 1)
      ((sym_matrix.assign 1 0 sym_4_memory).mem.sequence 0) = true ∧
    (matrix_node.value 1).call (sym_matrix.set 1 2 1 7 sym_4_memory) 1 2 = 7 := by
  have hinv : sym_matrix.invariant sym_4_memory 1 3 := ⟨rfl, fun _ _ _ _ => rfl⟩
  have h := sym_matrix_stays_symmetric sym_4_memory 1 0 3 2 1 7 (fun l r => l + r) hinv rfl
    (by decide) (by decide) (by decide)
  have hs := h.2.1 (by decide)
  exact ⟨hs.1, hs.2.2.1, h.2.2.2.1.2.2⟩

/-! ## `im2col` -/

theorem foldl_writes_spec {T α : Type} (d : Nat) (t : α → Nat) (v : memory T → α → T)
    (hv : ∀ m m2 p, (∀ id, id ≠ d → m id = m2 id) → v m p = v m2 p) (ps : List α) :
    ∀ mem : memory T,
      (∀ id, id ≠ d → (ps.foldl (fun m p => m.write d (t p) (v m p)) mem) id = mem id) ∧
      ((ps.foldl (fun m p => m.write d (t p) (v m p)) mem) d).dims = (mem d).dims ∧
      (∀ x, (∀ p ∈ ps, t p ≠ x) →
        ((ps.foldl (fun m p => m.write d (t p) (v m p)) mem) d).data x = (mem d).data x) ∧
      ∀ x w, (∃ p ∈ ps, t p = x) → (∀ p ∈ ps, t p = x → v mem p = w) →
        ((ps.foldl (fun m p => m.write d (t p) (v m p)) mem) d).data x = w := by
  induction ps with
  | nil =>
    intro mem
    refine ⟨fun _ _ => rfl, rfl, fun _ _ => rfl, ?_⟩
    rintro x w ⟨p, hp, -⟩
    simp at hp
  | cons q qs ih =>
    intro mem
    obtain ⟨hoth, hdims, hun, hval⟩ := ih (mem.write d (t q) (v mem q))
    simp only [List.foldl_cons]
    have hagree : ∀ id, id ≠ d → (mem.write d (t q) (v mem q)) id = mem id :=
      fun id hid => memory.write_other _ _ _ _ _ hid
    refine ⟨?_, ?_, ?_, ?_⟩
    · intro id hid
      rw [hoth id hid, hagree id hid]
    · rw [hdims, memory.write_dims]
    · intro x hx
      rw [hun x (fun p hp => hx p (List.mem_cons_of_mem _ hp)), memory.write_data]
      have hq : x ≠ t q := fun h => hx q (List.mem_cons_self _ _) h.symm
      rw [if_neg hq]
    · intro x w hex hall
      by_cases hqs : ∃ p ∈ qs, t p = x
      · apply hval x w hqs
        intro p hp hpx
        rw [hv _ mem p hagree]
        exact hall p (List.mem_cons_of_mem _ hp) hpx
      · have hno : ∀ p ∈ qs, t p ≠ x := fun p hp hpx => hqs ⟨p, hp, hpx⟩
        rw [hun x hno, memory.write_data]
        obtain ⟨p, hp, hpx⟩ := hex
        have hpq : p = q := by
          rcases List.mem_cons.1 hp with h | h
          · exact h
          · exact absurd hpx (hno p h)
        subst hpq
        rw [if_pos hpx.symm]
        exact hall p (List.mem_cons_self _ _) hpx

theorem im2col_positions_mem (m_width k1 k2 b b_i b_j : Nat) :
    (b, b_i, b_j) ∈ im2col_positions m_width k1 k2 ↔ b < m_width ∧ b_i < k1 ∧ b_j < k2 := by
  simp only [im2col_positions, List.mem_flatMap, List.mem_map, List.mem_range, Prod.mk.injEq]
  constructor
  · rintro ⟨b2, hb2, i2, hi2, j2, hj2, rfl, rfl, rfl⟩
    exact ⟨hb2, hi2, hj2⟩
  · rintro ⟨h1, h2, h3⟩
    exact ⟨b, h1, b_i, h2, b_j, h3, rfl, rfl, rfl⟩

theorem im2col_direct_spec {T : Type} (mem : memory T) (C I m n k1 k2 : Nat)
    (hI : (mem I).dims = [m, n])
    (hC : (mem C).dims = [k1 * k2, (m - k1 + 1) * (n - k2 + 1)]) (hCI : I ≠ C)
    (h1 : 1 ≤ k1) :
    (im2col_direct C I k1 k2 mem) I = mem I ∧
    ((im2col_direct C I k1 k2 mem) C).dims = [k1 * k2, (m - k1 + 1) * (n - k2 + 1)] ∧
    ∀ r c, r < k1 * k2 → c < (m - k1 + 1) * (n - k2 + 1) →
      (matrix_node.value C).call (im2col_direct C I k1 k2 mem) r c =
        (matrix_node.value I).call mem (c % (m - k1 + 1) + r % k1)
          (c / (m - k1 + 1) + r / k1) := by
  have heq : im2col_direct C I k1 k2 mem =
      (im2col_positions ((m - k1 + 1) * (n - k2 + 1)) k1 k2).foldl
        (fun mm p => mm.write C
          ((fun p : Nat × Nat × Nat =>
            (p.2.2 * k1 + p.2.1) * ((m - k1 + 1) * (n - k2 + 1)) + p.1) p)
          ((fun (mm : memory T) (p : Nat × Nat × Nat) =>
            (mm I).data ((p.1 % (m - k1 + 1) + p.2.1) * n + (p.1 / (m - k1 + 1) + p.2.2)))
            mm p)) mem := by
    simp only [im2col_direct, hI, (dim_expr_two _ _ _).1, (dim_expr_two _ _ _).2]
  obtain ⟨hoth, hdims, -, hval⟩ :=
    foldl_writes_spec C
      (fun p : Nat × Nat × Nat => (p.2.2 * k1 + p.2.1) * ((m - k1 + 1) * (n - k2 + 1)) + p.1)
      (fun (mm : memory T) (p : Nat × Nat × Nat) =>
        (mm I).data ((p.1 % (m - k1 + 1) + p.2.1) * n + (p.1 / (m - k1 + 1) + p.2.2)))
      (by
        intro m1 m2 p h
        simp only [h I hCI])
      (im2col_positions ((m - k1 + 1) * (n - k2 + 1)) k1 k2) mem
  rw [heq]
  refine ⟨hoth I hCI, by rw [hdims, hC], ?_⟩
  intro r c hr hc
  have hk1 : 0 < k1 := h1
  have hri : r % k1 < k1 := Nat.mod_lt _ hk1
  have hrj : r / k1 < k2 := Nat.div_lt_of_lt_mul hr
  have hrdec : r / k1 * k1 + r % k1 = r := by
    rw [Nat.mul_comm]
    exact Nat.div_add_mod r k1
  rw [matrix_node.value_call _ C (k1 * k2) ((m - k1 + 1) * (n - k2 + 1)) (by rw [hdims, hC]),
    matrix_node.value_call _ I m n hI]
  apply hval
  · refine ⟨(c, r % k1, r / k1), (im2col_positions_mem _ _ _ _ _ _).2 ⟨hc, hri, hrj⟩, ?_⟩
    simp only [hrdec]
  · rintro ⟨b, b_i, b_j⟩ hp ht
    obtain ⟨hb, hbi, -⟩ := (im2col_positions_mem _ _ _ _ _ _).1 hp
    simp only at ht
    obtain ⟨hrow, hcol⟩ := flat_inj _ b r c _ hb hc ht
    have hbi2 : b_i = r % k1 := by rw [← hrow, flat_mod b_j b_i k1 hbi]
    have hbj2 : b_j = r / k1 := by rw [← hrow, flat_div b_j b_i k1 hbi]
    simp only [hcol, hbi2, hbj2]

/-- C16: for every `m x n` input `I` and window `k1 x k2` with `1 <= k1 <= m` and `1 <= k2 <= n`,
with `H = m - k1 + 1` and `W = n - k2 + 1`, `im2col_direct(C, I, k1, k2)` leaves `I` as it was and
fills the `(k1*k2) x (H*W)` matrix `C` with
`C(r, c) == I(c mod H + r mod k1, c div H + r div k1)`, an element of `I`, for every `r < k1*k2`
and `c < H*W`; for the 4x4 matrix `1..16` and a 2x2 window, column 0 is `{1, 5, 2, 6}` and
column 8 is `{11, 15, 12, 16}`. -/
theorem im2col_direct_fills_patches :
    (∀ (T : Type) (mem : memory T) (C I m n k1 k2 : Nat),
      (mem I).dims = [m, n] →
      (mem C).dims = [k1 * k2, (m - k1 + 1) * (n - k2 + 1)] → I ≠ C →
      1 ≤ k1 → k1 ≤ m → 1 ≤ k2 → k2 ≤ n →
      (im2col_direct C I k1 k2 mem) I = mem I ∧
      ∀ r c, r < k1 * k2 → c < (m - k1 + 1) * (n - k2 + 1) →
        c % (m - k1 + 1) + r % k1 < m ∧ c / (m - k1 + 1) + r / k1 < n ∧
        (matrix_node.value C).call (im2col_direct C I k1 k2 mem) r c =
          (matrix_node.value I).call mem (c % (m - k1 + 1) + r % k1)
            (c / (m - k1 + 1) + r / k1)) ∧
    (List.range 4).map
        (fun r => (matrix_node.value 1).call (im2col_direct 1 0 2 2 im2col_1_memory) r 0) =
      [1, 5, 2, 6] ∧
    (List.range 4).map
        (fun r => (matrix_node.value 1).call (im2col_direct 1 0 2 2 im2col_1_memory) r 8) =
      [11, 15, 12, 16] := by
  refine ⟨?_, ?_, ?_⟩
  · intro T mem C I m n k1 k2 hI hC hCI h1 h1m h2 h2n
    obtain ⟨hsame, -, hfill⟩ := im2col_direct_spec mem C I m n k1 k2 hI hC hCI h1
    refine ⟨hsame, ?_⟩
    intro r c hr hc
    have hH : c % (m - k1 + 1) < m - k1 + 1 := Nat.mod_lt _ (by omega)
    have hW : c / (m - k1 + 1) < n - k2 + 1 := Nat.div_lt_of_lt_mul hc
    have hri : r % k1 < k1 := Nat.mod_lt _ h1
    have hrj : r / k1 < k2 := Nat.div_lt_of_lt_mul hr
    exact ⟨by omega, by omega, hfill r c hr hc⟩
  · obtain ⟨-, -, hfill⟩ := im2col_direct_spec im2col_1_memory 1 0 4 4 2 2 rfl rfl (by decide)
      (by decide)
    simp only [List.range_succ, List.range_zero, List.nil_append, List.cons_append,
      List.map_cons, List.map_nil]
    rw [hfill 0 0 (by decide) (by decide), hfill 1 0 (by decide) (by decide),
      hfill 2 0 (by decide) (by decide), hfill 3 0 (by decide) (by decide)]
    norm_num [matrix_node.value, im2col_1_memory, memory.of_list, tensor.of_list, dim]
  · obtain ⟨-, -, hfill⟩ := im2col_direct_spec im2col_1_memory 1 0 4 4 2 2 rfl rfl (by decide)
      (by decide)
    simp only [List.range_succ, List.range_zero, List.nil_append, List.cons_append,
      List.map_cons, List.map_nil]
    rw [hfill 0 8 (by decide) (by decide), hfill 1 8 (by decide) (by decide),
      hfill 2 8 (by decide) (by decide), hfill 3 8 (by decide) (by decide)]
    norm_num [matrix_node.value, im2col_1_memory, memory.of_list, tensor.of_list, dim]

/-- Witness for C16: the matrices of `im2col/im2col_1`, row `1` and column `5`:
`C(1, 5) == I(3, 1)`. -/
theorem im2col_direct_fills_patches_witness :
    (matrix_node.value 1).call (im2col_direct 1 0 2 2 im2col_1_memory) 1 5 =
      (matrix_node.value 0).call im2col_1_memory (5 % (4 - 2 + 1) + 1 % 2)
        (5 / (4 - 2 + 1) + 1 / 2) :=
  ((im2col_direct_fills_patches.1 ℚ im2col_1_memory 1 0 4 4 2 2 rfl rfl (by decide) (by decide)
    (by decide) (by decide) (by decide)).2 1 5 (by decide) (by decide)).2.2

/-- Witness for C14: the vectors `{1, 2, 3}` and `{1, 2, 4}` of integers, whose `==` is
symmetric: `a != b` is the negation of `a == b`, and `a == b` is `b == a`. -/
theorem comparable_eq_iff_same_sequence_witness :
    comparable.operator_ne (⟨3, fun k => [1, 2, 3].getD k 0⟩ : sequence Int)
        ⟨3, fun k => [1, 2, 4].getD k 0⟩ =
      !comparable.operator_eq (⟨3, fun k => [1, 2, 3].getD k 0⟩ : sequence Int)
        ⟨3, fun k => [1, 2, 4].getD k 0⟩ ∧
    comparable.operator_eq (⟨3, fun k => [1, 2, 3].getD k 0⟩ : sequence Int)
        ⟨3, fun k => [1, 2, 4].getD k 0⟩ =
      comparable.operator_eq (⟨3, fun k => [1, 2, 4].getD k 0⟩ : sequence Int)
        ⟨3, fun k => [1, 2, 3].getD k 0⟩ :=
  (comparable_eq_iff_same_sequence (⟨3, fun k => [1, 2, 3].getD k 0⟩ : sequence Int)
    ⟨3, fun k => [1, 2, 4].getD k 0⟩).2

/-! ## `max`, `min` and `clip` -/

theorem std_max_eq_max {T : Type} [LinearOrder T] (a b : T) : std_max a b = max a b := by
  unfold std_max
  split_ifs with h
  · exact (max_eq_right h.le).symm
  · exact (max_eq_left (not_lt.mp h)).symm

theorem std_min_eq_min {T : Type} [LinearOrder T] (a b : T) : std_min a b = min a b := by
  unfold std_min
  split_ifs with h
  · exact (min_eq_right h.le).symm
  · exact (min_eq_left (not_lt.mp h)).symm

theorem assign_scalar_expr_elementwise {T : Type} (op : T → T → T) (mem : memory T)
    (a d : Nat) (s : T) (hd : mem.size d = mem.size a) :
    binary_expr mem op (.value a) (.scalar s) = .ok (.binary op (.value a) (.scalar s)) ∧
    (operator_assign d (.binary op (.value a) (.scalar s)) mem).status = .ok () ∧
    ∀ i, i < mem.size a →
      ((operator_assign d (.binary op (.value a) (.scalar s)) mem).mem d).data i =
        op ((mem a).data i) s := by
  have h1 : validate_assign (.expr (mem d).fast (mem d).dims)
      ((expr.binary op (.value a) (.scalar s)).traits mem) = .ok () := by
    simp only [expr.traits, operand.is_generator]
    exact validate_assign_tensor_ok _ _ _ _ hd
  obtain ⟨hs, -, hdata⟩ := operator_assign_ok d (.binary op (.value a) (.scalar s)) mem h1
  refine ⟨(scalar_expr_elementwise op mem a s).1, hs, ?_⟩
  intro i hi
  rw [hdata d i, if_pos ⟨rfl, hd ▸ hi⟩]
  rfl

/-- C25: for every matrix `a` and scalar `s` of a linearly ordered element type, `max(a, s)` and
`min(a, s)` are built, and at every index `i` below the size, read from the node or from a
destination `d` of the size of `a` they were assigned to, `max(a, s)[i] == max(a[i], s)` and
`min(a, s)[i] == min(a[i], s)`; each result equals one of its two operands, is `>=` both of
them for `max` and `<=` both of them for `min`; `max({-1, 2, 0, 1}, 1) == {1, 2, 1, 1}` and
`min({-1, 2, 0, 1}, 1) == {-1, 1, 0, 1}`. -/
theorem max_min_elementwise :
    (∀ (T : Type) [LinearOrder T] (mem : memory T) (a d : Nat) (s : T),
      mem.size d = mem.size a →
      binary_expr mem max_binary_op.apply (.value a) (.scalar s) =
        .ok (.binary max_binary_op.apply (.value a) (.scalar s)) ∧
      binary_expr mem min_binary_op.apply (.value a) (.scalar s) =
        .ok (.binary min_binary_op.apply (.value a) (.scalar s)) ∧
      ∀ i, i < mem.size a →
        (expr.binary max_binary_op.apply (.value a) (.scalar s)).read_flat mem i =
          max ((mem a).data i) s ∧
        (expr.binary min_binary_op.apply (.value a) (.scalar s)).read_flat mem i =
          min ((mem a).data i) s ∧
        ((operator_assign d (.binary max_binary_op.apply (.value a) (.scalar s)) mem).mem d).data
          i = max ((mem a).data i) s ∧
        ((operator_assign d (.binary min_binary_op.apply (.value a) (.scalar s)) mem).mem d).data
          i = min ((mem a).data i) s ∧
        (max_binary_op.apply ((mem a).data i) s = (mem a).data i ∨
          max_binary_op.apply ((mem a).data i) s = s) ∧
        (mem a).data i ≤ max_binary_op.apply ((mem a).data i) s ∧
        s ≤ max_binary_op.apply ((mem a).data i) s ∧
        (min_binary_op.apply ((mem a).data i) s = (mem a).data i ∨
          min_binary_op.apply ((mem a).data i) s = s) ∧
        min_binary_op.apply ((mem a).data i) s ≤ (mem a).data i ∧
        min_binary_op.apply ((mem a).data i) s ≤ s) ∧
    (operator_assign 1 (.binary max_binary_op.apply (.value 0) (.scalar 1))
      max_memory).mem.elements 1 4 = [1, 2, 1, 1] ∧
    (operator_assign 1 (.binary min_binary_op.apply (.value 0) (.scalar 1))
      max_memory).mem.elements 1 4 = [-1, 1, 0, 1] := by
  have main : ∀ (T : Type) [LinearOrder T] (mem : memory T) (a d : Nat) (s : T),
      mem.size d = mem.size a →
      ∀ i, i < mem.size a →
        ((operator_assign d (.binary max_binary_op.apply (.value a) (.scalar s)) mem).mem d).data
          i = max ((mem a).data i) s ∧
        ((operator_assign d (.binary min_binary_op.apply (.value a) (.scalar s)) mem).mem d).data
          i = min ((mem a).data i) s := by
    intro T _ mem a d s hd i hi
    rw [(assign_scalar_expr_elementwise max_binary_op.apply mem a d s hd).2.2 i hi,
      (assign_scalar_expr_elementwise min_binary_op.apply mem a d s hd).2.2 i hi]
    exact ⟨std_max_eq_max _ _, std_min_eq_min _ _⟩
  refine ⟨?_, ?_, ?_⟩
  · intro T _ mem a d s hd
    refine ⟨(assign_scalar_expr_elementwise max_binary_op.apply mem a d s hd).1,
      (assign_scalar_expr_elementwise min_binary_op.apply mem a d s hd).1, ?_⟩
    intro i hi
    have hmax : max_binary_op.apply ((mem a).data i) s = max ((mem a).data i) s :=
      std_max_eq_max _ _
    have hmin : min_binary_op.apply ((mem a).data i) s = min ((mem a).data i) s :=
      std_min_eq_min _ _
    refine ⟨hmax, hmin, (main T mem a d s hd i hi).1, (main T mem a d s hd i hi).2, ?_, ?_, ?_,
      ?_, ?_, ?_⟩
    · rw [hmax]
      exact max_choice _ _
    · rw [hmax]
      exact le_max_left _ _
    · rw [hmax]
      exact le_max_right _ _
    · rw [hmin]
      exact min_choice _ _
    · rw [hmin]
      exact min_le_left _ _
    · rw [hmin]
      exact min_le_right _ _
  · have h := fun i hi => (main ℚ max_memory 0 1 1 rfl i hi).1
    simp only [memory.elements, List.range_succ, List.range_zero, List.nil_append,
      List.cons_append, List.map_cons, List.map_nil]
    rw [h 0 (by decide), h 1 (by decide), h 2 (by decide), h 3 (by decide)]
    norm_num [max_memory, memory.of_list, tensor.of_list]
  · have h := fun i hi => (main ℚ max_memory 0 1 1 rfl i hi).2
    simp only [memory.elements, List.range_succ, List.range_zero, List.nil_append,
      List.cons_append, List.map_cons, List.map_nil]
    rw [h 0 (by decide), h 1 (by decide), h 2 (by decide), h 3 (by decide)]
    norm_num [max_memory, memory.of_list, tensor.of_list]

/-- Witness for C25: the matrix of `fast_matrix/max` and the scalar `1`, assigned to `d`. -/
theorem max_min_elementwise_witness :
    ∀ i, i < 4 →
      ((operator_assign 1 (.binary max_binary_op.apply (.value 0) (.scalar 1))
        max_memory).mem 1).data i = max ((max_memory 0).data i) 1 ∧
      ((operator_assign 1 (.binary min_binary_op.apply (.value 0) (.scalar 1))
        max_memory).mem 1).data i = min ((max_memory 0).data i) 1 :=
  fun i hi =>
    ⟨((max_min_elementwise.1 ℚ max_memory 0 1 1 rfl).2.2 i hi).2.2.1,
      ((max_min_elementwise.1 ℚ max_memory 0 1 1 rfl).2.2 i hi).2.2.2.1⟩

/-- C29: for every `clip_scalar_op` with bounds `min <= max` over a linearly ordered type and
every `x`, `apply(x) == std::min(std::max(x, min), max)` lies in `[min, max]`, equals `x`
whenever `min <= x <= max`, `min` when `x < min` and `max` when `x > max`, and is idempotent; it
is `max_scalar_op(min)` followed by `min_scalar_op(max)`. -/
theorem clip_scalar_op_clamps {T : Type} [LinearOrder T] (op : clip_scalar_op T) (x : T)
    (h : op.min ≤ op.max) :
    op.apply x = min (max x op.min) op.max ∧
    op.min ≤ op.apply x ∧ op.apply x ≤ op.max ∧
    (op.min ≤ x → x ≤ op.max → op.apply x = x) ∧
    (x < op.min → op.apply x = op.min) ∧
    (op.max < x → op.apply x = op.max) ∧
    op.apply (op.apply x) = op.apply x ∧
    op.apply x = (min_scalar_op.mk op.max).apply ((max_scalar_op.mk op.min).apply x) := by
  have heq : ∀ y, op.apply y = min (max y op.min) op.max := by
    intro y
    simp only [clip_scalar_op.apply, std_max_eq_max, std_min_eq_min]
  have hlo : op.min ≤ op.apply x := by
    rw [heq]
    exact le_min (le_max_right _ _) h
  have hhi : op.apply x ≤ op.max := by
    rw [heq]
    exact min_le_right _ _
  have hin : ∀ y, op.min ≤ y → y ≤ op.max → op.apply y = y := by
    intro y h1 h2
    rw [heq, max_eq_left h1, min_eq_left h2]
  refine ⟨heq x, hlo, hhi, hin x, ?_, ?_, hin _ hlo hhi, rfl⟩
  · intro hx
    rw [heq, max_eq_right hx.le, min_eq_left h]
  · intro hx
    rw [heq, min_eq_right (le_max_of_le_left hx.le)]

/-- Witness for C29: the bounds `0` and `10` and the value `12`, which is clipped to `10`. -/
theorem clip_scalar_op_clamps_witness :
    (⟨0, 10⟩ : clip_scalar_op Int).apply 12 = 10 ∧
    (⟨0, 10⟩ : clip_scalar_op Int).apply ((⟨0, 10⟩ : clip_scalar_op Int).apply 12) =
      (⟨0, 10⟩ : clip_scalar_op Int).apply 12 :=
  ⟨(clip_scalar_op_clamps (⟨0, 10⟩ : clip_scalar_op Int) 12 (by decide)).2.2.2.2.2.1
      (by decide),
    (clip_scalar_op_clamps (⟨0, 10⟩ : clip_scalar_op Int) 12 (by decide)).2.2.2.2.2.2.1⟩

/-! ## The SSE complex multiplication -/

/-- C27: for complex pairs `x = (xr, xi)` and `y = (yr, yi)` packed as `[re, im]` lanes,
`vec::mul<true>` returns in each complex slot `(xr*yr - xi*yi, xi*yr + xr*yi)`, both in the
two-slot `__m128` form and in the one-slot `__m128d` form; that is the value of
`mul_binary_op::apply(x, y)`, and what `mul_binary_op::load` returns for complex elements; where
addition commutes, the imaginary lane is also `xr*yi + xi*yr`. On `(1 + 2i) * (3 + 4i)` both give
`-5 + 10i`. -/
theorem vec_mul_complex_eq_apply :
    (∀ (R : Type) [Add R] [Sub R] [Mul R] (x1 x2 y1 y2 : complex R),
      vec.mul_m128 true (m128.of_complex x1 x2) (m128.of_complex y1 y2) =
        ⟨x1.re * y1.re - x1.im * y1.im, x1.im * y1.re + x1.re * y1.im,
          x2.re * y2.re - x2.im * y2.im, x2.im * y2.re + x2.re * y2.im⟩ ∧
      vec.mul_m128 true (m128.of_complex x1 x2) (m128.of_complex y1 y2) =
        m128.of_complex (mul_binary_op.apply x1 y1) (mul_binary_op.apply x2 y2) ∧
      mul_binary_op.load_m128 .complex_float (m128.of_complex x1 x2) (m128.of_complex y1 y2) =
        m128.of_complex (mul_binary_op.apply x1 y1) (mul_binary_op.apply x2 y2) ∧
      vec.mul_m128d true (m128d.of_complex x1) (m128d.of_complex y1) =
        ⟨x1.re * y1.re - x1.im * y1.im, x1.im * y1.re + x1.re * y1.im⟩ ∧
      vec.mul_m128d true (m128d.of_complex x1) (m128d.of_complex y1) =
        m128d.of_complex (mul_binary_op.apply x1 y1) ∧
      mul_binary_op.load_m128d .complex_double (m128d.of_complex x1) (m128d.of_complex y1) =
        m128d.of_complex (mul_binary_op.apply x1 y1) ∧
      ((∀ a b : R, a + b = b + a) →
        (vec.mul_m128d true (m128d.of_complex x1) (m128d.of_complex y1)).e1 =
          x1.re * y1.im + x1.im * y1.re ∧
        (vec.mul_m128 true (m128.of_complex x1 x2) (m128.of_complex y1 y2)).e1 =
          x1.re * y1.im + x1.im * y1.re ∧
        (vec.mul_m128 true (m128.of_complex x1 x2) (m128.of_complex y1 y2)).e3 =
          x2.re * y2.im + x2.im * y2.re)) ∧
    vec.mul_m128d true (m128d.of_complex (⟨1, 2⟩ : complex ℚ)) (m128d.of_complex ⟨3, 4⟩) =
      m128d.of_complex ⟨-5, 10⟩ ∧
    mul_binary_op.apply (⟨1, 2⟩ : complex ℚ) ⟨3, 4⟩ = ⟨-5, 10⟩ := by
  refine ⟨?_, ?_, ?_⟩
  · intro R _ _ _ x1 x2 y1 y2
    refine ⟨rfl, rfl, rfl, rfl, rfl, rfl, ?_⟩
    intro hc
    exact ⟨hc _ _, hc _ _, hc _ _⟩
  · simp only [vec.mul_m128d, m128d.of_complex, _mm_movedup_pd, _mm_mul_pd, _mm_shuffle_pd,
      _MM_SHUFFLE2, _mm_addsub_pd, if_true]
    norm_num
  · show (⟨1 * 3 - 2 * 4, 2 * 3 + 1 * 4⟩ : complex ℚ) = ⟨-5, 10⟩
    norm_num

/-- Witness for C27: the rationals, whose addition commutes, and `(1 + 2i) * (3 + 4i)`. -/
theorem vec_mul_complex_eq_apply_witness :
    (vec.mul_m128d true (m128d.of_complex (⟨1, 2⟩ : complex ℚ)) (m128d.of_complex ⟨3, 4⟩)).e1 =
      1 * 4 + 2 * 3 :=
  ((vec_mul_complex_eq_apply.1 ℚ ⟨1, 2⟩ ⟨1, 2⟩ ⟨3, 4⟩ ⟨3, 4⟩).2.2.2.2.2.2 add_comm).1

/-! ## `dim_view`: traits, element access, writes and memory range -/

theorem dim_view.value_at2 {T : Type} (mem : memory T) (s r c : Nat)
    (h : (mem s).dims = [r, c]) (i j : Nat) :
    (expr.value s : expr T).at2 mem i j = (mem s).data (i * c + j) := by
  simp only [expr.at2, expr.traits, expr.read_flat, h, (dim_expr_two _ _ _).2]

/-- C26: for every sub expression and index `i`, a `dim_view` is one-dimensional
(`dimensions() == 1`, `dim(v, 0) == size(v)`): with `D == 1` it has size `dim(sub, 1)` and element
`j` equal to `sub(i, j)`; with `D == 2` it has size `dim(sub, 0)` and element `j` equal to
`sub(j, i)`; `operator[]`, `operator()` and `read_flat` return the same value for every `j`; and
the static `size()` over the type of the sub expression equals the run-time `size(v)`. Over the
2x3 matrix `{1, 2, 3, 4, 5, 6}` the row view at `1` is `{4, 5, 6}` and the column view at `1`
is `{2, 5}`. -/
theorem dim_view_is_one_dimensional :
    (∀ (T : Type) (mem : memory T) (sub : expr T) (i D : Nat), D = 1 ∨ D = 2 →
      dim_view.dimensions = 1 ∧
      (⟨D, sub, i⟩ : dim_view T).valid = .ok () ∧
      (⟨D, sub, i⟩ : dim_view T).dim mem 0 = .ok ((⟨D, sub, i⟩ : dim_view T).size mem) ∧
      dim_view.static_size D (sub.traits mem) = (⟨D, sub, i⟩ : dim_view T).size mem ∧
      dim_view.static_dim D (sub.traits mem) 0 = .ok ((⟨D, sub, i⟩ : dim_view T).size mem) ∧
      ∀ j, (⟨D, sub, i⟩ : dim_view T).operator_index mem j =
          (⟨D, sub, i⟩ : dim_view T).read_flat mem j ∧
        (⟨D, sub, i⟩ : dim_view T).operator_call mem j =
          (⟨D, sub, i⟩ : dim_view T).read_flat mem j) ∧
    (∀ (T : Type) (mem : memory T) (sub : expr T) (i : Nat),
      (⟨1, sub, i⟩ : dim_view T).size mem = dim 1 (sub.traits mem) ∧
      (⟨2, sub, i⟩ : dim_view T).size mem = dim 0 (sub.traits mem) ∧
      ∀ j, (⟨1, sub, i⟩ : dim_view T).read_flat mem j = sub.at2 mem i j ∧
        (⟨2, sub, i⟩ : dim_view T).read_flat mem j = sub.at2 mem j i) ∧
    (∀ (T : Type) (mem : memory T) (s r c i : Nat), (mem s).dims = [r, c] →
      (⟨1, .value s, i⟩ : dim_view T).size mem = c ∧
      (⟨2, .value s, i⟩ : dim_view T).size mem = r ∧
      ∀ j, (⟨1, .value s, i⟩ : dim_view T).operator_index mem j = (mem s).data (i * c + j) ∧
        (⟨2, .value s, i⟩ : dim_view T).operator_index mem j = (mem s).data (j * c + i)) ∧
    (List.range ((⟨1, .value 0, 1⟩ : dim_view Int).size dim_view_memory)).map
        ((⟨1, .value 0, 1⟩ : dim_view Int).operator_index dim_view_memory) = [4, 5, 6] ∧
    (List.range ((⟨2, .value 0, 1⟩ : dim_view Int).size dim_view_memory)).map
        ((⟨2, .value 0, 1⟩ : dim_view Int).operator_index dim_view_memory) = [2, 5] := by
  refine ⟨?_, ?_, ?_, by decide, by decide⟩
  · intro T mem sub i D hD
    rcases hD with rfl | rfl
    · exact ⟨rfl, rfl, rfl, rfl, rfl, fun _ => ⟨rfl, rfl⟩⟩
    · exact ⟨rfl, rfl, rfl, rfl, rfl, fun _ => ⟨rfl, rfl⟩⟩
  · intro T mem sub i
    exact ⟨rfl, rfl, fun _ => ⟨rfl, rfl⟩⟩
  · intro T mem s r c i h
    have h0 := (dim_expr_two (mem s).fast r c).1
    have h1 := (dim_expr_two (mem s).fast r c).2
    refine ⟨?_, ?_, ?_⟩
    · simp only [dim_view.size, expr.traits, h, h1, beq_self_eq_true, if_true]
    · simp [dim_view.size, expr.traits, h, h0]
    · intro j
      constructor
      · simp only [dim_view.operator_index, beq_self_eq_true, if_true]
        exact dim_view.value_at2 mem s r c h i j
      · simp only [dim_view.operator_index]
        exact dim_view.value_at2 mem s r c h j i

/-- Witness for C26: the column view at `1` of the 2x3 matrix `{1, 2, 3, 4, 5, 6}`. -/
theorem dim_view_is_one_dimensional_witness :
    (⟨2, .value 0, 1⟩ : dim_view Int).dim dim_view_memory 0 =
        .ok ((⟨2, .value 0, 1⟩ : dim_view Int).size dim_view_memory) ∧
      (⟨2, .value 0, 1⟩ : dim_view Int).size dim_view_memory = 2 :=
  ⟨(dim_view_is_one_dimensional.1 Int dim_view_memory (.value 0) 1 2 (Or.inr rfl)).2.2.1,
    (dim_view_is_one_dimensional.2.2.1 Int dim_view_memory 0 2 3 1 rfl).2.1⟩

theorem dim_view.set_value {T : Type} (mem : memory T) (s r c : Nat)
    (h : (mem s).dims = [r, c]) (i j : Nat) (x : T) :
    (⟨1, .value s, i⟩ : dim_view T).set_index j x mem = some (mem.write s (i * c + j) x) ∧
    (⟨1, .value s, i⟩ : dim_view T).set_call j x mem = some (mem.write s (i * c + j) x) ∧
    (⟨2, .value s, i⟩ : dim_view T).set_index j x mem = some (mem.write s (j * c + i) x) ∧
    (⟨2, .value s, i⟩ : dim_view T).set_call j x mem = some (mem.write s (j * c + i) x) := by
  have h1 := (dim_expr_two (mem s).fast r c).2
  refine ⟨?_, ?_, ?_, ?_⟩ <;>
    simp [dim_view.set_index, dim_view.set_call, dim_view.operator_index_ref,
      dim_view.operator_call_ref, expr.ref2, memory.store, expr.traits, h, h1]

theorem memory.write_at2 {T : Type} (mem : memory T) (s r c : Nat)
    (h : (mem s).dims = [r, c]) (i j : Nat) (x : T) (hj : j < c) :
    (expr.value s : expr T).at2 (mem.write s (i * c + j) x) i j = x ∧
    (∀ i2 j2, j2 < c → (i2, j2) ≠ (i, j) →
      (expr.value s : expr T).at2 (mem.write s (i * c + j) x) i2 j2 =
        (expr.value s : expr T).at2 mem i2 j2) ∧
    (∀ k, k ≠ i * c + j → ((mem.write s (i * c + j) x) s).data k = (mem s).data k) ∧
    (∀ id, id ≠ s → (mem.write s (i * c + j) x) id = mem id) ∧
    ((mem.write s (i * c + j) x) s).dims = (mem s).dims ∧
    ((mem.write s (i * c + j) x) s).fast = (mem s).fast := by
  have hd : ((mem.write s (i * c + j) x) s).dims = [r, c] := by
    rw [memory.write_dims, h]
  refine ⟨?_, ?_, ?_, fun id hid => memory.write_other mem s _ x id hid,
    memory.write_dims mem s _ x, memory.write_fast mem s _ x⟩
  · rw [dim_view.value_at2 _ s r c hd, memory.write_data, if_pos rfl]
  · intro i2 j2 hj2 hne
    rw [dim_view.value_at2 _ s r c hd, dim_view.value_at2 _ s r c h, memory.write_data,
      if_neg]
    intro heq
    obtain ⟨h1, h2⟩ := flat_inj i2 j2 i j c hj2 hj heq
    exact hne (by rw [h1, h2])
  · intro k hk
    rw [memory.write_data, if_neg hk]

/-- C22: a write through a `dim_view` over a 2D matrix `sub` reaches `sub` and nothing else. For
a row view (`D == 1`) at index `i`, `view[j] = x` and `view(j) = x` with `j` below the row length
set `sub(i, j)` to `x`, leave every other element of `sub`, its extents and every other tensor
unchanged, and a later read `view[j]` returns `x`; for a column view (`D == 2`) at index `i` below
the row length they set `sub(j, i)` and leave every other element unchanged. -/
theorem dim_view_write_reaches_sub {T : Type} (mem : memory T) (s r c i j : Nat) (x : T)
    (h : (mem s).dims = [r, c]) :
    (j < c →
      (⟨1, .value s, i⟩ : dim_view T).set_index j x mem = some (mem.write s (i * c + j) x) ∧
      (⟨1, .value s, i⟩ : dim_view T).set_call j x mem = some (mem.write s (i * c + j) x) ∧
      (expr.value s : expr T).at2 (mem.write s (i * c + j) x) i j = x ∧
      (∀ i2 j2, j2 < c → (i2, j2) ≠ (i, j) →
        (expr.value s : expr T).at2 (mem.write s (i * c + j) x) i2 j2 =
          (expr.value s : expr T).at2 mem i2 j2) ∧
      (∀ k, k ≠ i * c + j → ((mem.write s (i * c + j) x) s).data k = (mem s).data k) ∧
      (∀ id, id ≠ s → (mem.write s (i * c + j) x) id = mem id) ∧
      ((mem.write s (i * c + j) x) s).dims = (mem s).dims ∧
      (⟨1, .value s, i⟩ : dim_view T).operator_index (mem.write s (i * c + j) x) j = x ∧
      (⟨1, .value s, i⟩ : dim_view T).operator_call (mem.write s (i * c + j) x) j = x) ∧
    (i < c →
      (⟨2, .value s, i⟩ : dim_view T).set_index j x mem = some (mem.write s (j * c + i) x) ∧
      (⟨2, .value s, i⟩ : dim_view T).set_call j x mem = some (mem.write s (j * c + i) x) ∧
      (expr.value s : expr T).at2 (mem.write s (j * c + i) x) j i = x ∧
      (∀ i2 j2, j2 < c → (i2, j2) ≠ (j, i) →
        (expr.value s : expr T).at2 (mem.write s (j * c + i) x) i2 j2 =
          (expr.value s : expr T).at2 mem i2 j2) ∧
      (∀ k, k ≠ j * c + i → ((mem.write s (j * c + i) x) s).data k = (mem s).data k) ∧
      (∀ id, id ≠ s → (mem.write s (j * c + i) x) id = mem id) ∧
      ((mem.write s (j * c + i) x) s).dims = (mem s).dims ∧
      (⟨2, .value s, i⟩ : dim_view T).operator_index (mem.write s (j * c + i) x) j = x ∧
      (⟨2, .value s, i⟩ : dim_view T).operator_call (mem.write s (j * c + i) x) j = x) := by
  obtain ⟨hs1, hs2, hs3, hs4⟩ := dim_view.set_value mem s r c h i j x
  constructor
  · intro hj
    obtain ⟨w1, w2, w3, w4, w5, -⟩ := memory.write_at2 mem s r c h i j x hj
    exact ⟨hs1, hs2, w1, w2, w3, w4, w5, w1, w1⟩
  · intro hi
    obtain ⟨w1, w2, w3, w4, w5, -⟩ := memory.write_at2 mem s r c h j i x hi
    exact ⟨hs3, hs4, w1, w2, w3, w4, w5, w1, w1⟩

/-- Witness for C22: in the 2x3 matrix `{1, 2, 3, 4, 5, 6}`, `view[2] = 9` through the row view
at `1` sets `sub(1, 2)`, and `view[0] = 9` through the column view at `1` sets `sub(0, 1)`. -/
theorem dim_view_write_reaches_sub_witness :
    (expr.value 0 : expr Int).at2 (dim_view_memory.write 0 (1 * 3 + 2) 9) 1 2 = 9 ∧
    (expr.value 0 : expr Int).at2 (dim_view_memory.write 0 (0 * 3 + 1) 9) 0 1 = 9 ∧
    (((dim_view_memory.write 0 (1 * 3 + 2) 9) 0).data 4 = (dim_view_memory 0).data 4) :=
  ⟨((dim_view_write_reaches_sub dim_view_memory 0 2 3 1 2 9 rfl).1 (by decide)).2.2.1,
    ((dim_view_write_reaches_sub dim_view_memory 0 2 3 1 0 9 rfl).2 (by decide)).2.2.1,
    ((dim_view_write_reaches_sub dim_view_memory 0 2 3 1 2 9 rfl).1 (by decide)).2.2.2.2.1 4
      (by decide)⟩

theorem subsize_two (f : Bool) (r c : Nat) (hr : 0 < r) : subsize (.expr f [r, c]) = c := by
  simp only [subsize, size, Option.getD_some, (dim_expr_two f r c).1, List.prod_cons,
    List.prod_nil, Nat.mul_one]
  exact Nat.mul_div_cancel_left c hr

/-- C28: for every row view (`D == 1`) at index `i < dim0` over a direct-access `r x c` matrix
`sub`, the row length being `L = size(sub) / dim0 = c`: `memory_start()` is
`sub.memory_start() + i * L` and `memory_end()` is `sub.memory_start() + (i + 1) * L`, so that
`memory_end() - memory_start() == L == size(view)`; the range lies inside the buffer of `sub`;
the ranges of two views with different row indices are disjoint; and the const and the
non-const accessors return the same addresses. -/
theorem dim_view_memory_range {T : Type} (mem : memory T) (s r c i i2 base : Nat)
    (h : (mem s).dims = [r, c]) (hi : i < r) (hi2 : i2 < r) :
    (⟨1, .value s, i⟩ : dim_view T).is_direct = true ∧
    subsize ((expr.value s : expr T).traits mem) = mem.size s / r ∧
    (⟨1, .value s, i⟩ : dim_view T).size mem = mem.size s / r ∧
    (⟨1, .value s, i⟩ : dim_view T).memory_start mem base =
      .ok (base + i * (mem.size s / r)) ∧
    (⟨1, .value s, i⟩ : dim_view T).memory_end mem base =
      .ok (base + (i + 1) * (mem.size s / r)) ∧
    (base + (i + 1) * (mem.size s / r)) - (base + i * (mem.size s / r)) = mem.size s / r ∧
    base ≤ base + i * (mem.size s / r) ∧
    base + (i + 1) * (mem.size s / r) ≤ base + mem.size s ∧
    (i ≠ i2 →
      base + (i + 1) * (mem.size s / r) ≤ base + i2 * (mem.size s / r) ∨
      base + (i2 + 1) * (mem.size s / r) ≤ base + i * (mem.size s / r)) ∧
    (⟨1, .value s, i⟩ : dim_view T).memory_start_const mem base =
      (⟨1, .value s, i⟩ : dim_view T).memory_start mem base ∧
    (⟨1, .value s, i⟩ : dim_view T).memory_end_const mem base =
      (⟨1, .value s, i⟩ : dim_view T).memory_end mem base := by
  have hr : 0 < r := by omega
  have hsz : mem.size s = r * c := by
    simp [memory.size, h]
  have hL : mem.size s / r = c := by
    rw [hsz]
    exact Nat.mul_div_cancel_left c hr
  have hsub : subsize ((expr.value s : expr T).traits mem) = c := by
    simp only [expr.traits, h]
    exact subsize_two _ r c hr
  rw [hL]
  refine ⟨rfl, hsub, ?_, ?_, ?_, ?_, ?_, ?_, ?_, rfl, rfl⟩
  · simp only [dim_view.size, expr.traits, h, (dim_expr_two _ r c).2, beq_self_eq_true,
      if_true]
  · simp only [dim_view.memory_start, hsub]
    rfl
  · simp only [dim_view.memory_end, hsub]
    rfl
  · rw [Nat.add_mul, Nat.one_mul]
    omega
  · omega
  · have : (i + 1) * c ≤ r * c := Nat.mul_le_mul_right c hi
    omega
  · intro hne
    rcases Nat.lt_or_gt_of_ne hne with hlt | hgt
    · left
      have : (i + 1) * c ≤ i2 * c := Nat.mul_le_mul_right c hlt
      omega
    · right
      have : (i2 + 1) * c ≤ i * c := Nat.mul_le_mul_right c hgt
      omega

/-- Witness for C28: the row views at `0` and `1` of the 2x3 matrix `{1, 2, 3, 4, 5, 6}`, whose
buffer starts at the address `100`: the ranges are `[100, 103)` and `[103, 106)`. -/
theorem dim_view_memory_range_witness :
    (⟨1, .value 0, 1⟩ : dim_view Int).memory_start dim_view_memory 100 =
        .ok (100 + 1 * (dim_view_memory.size 0 / 2)) ∧
      (⟨1, .value 0, 1⟩ : dim_view Int).memory_end dim_view_memory 100 =
        .ok (100 + (1 + 1) * (dim_view_memory.size 0 / 2)) ∧
      dim_view_memory.size 0 / 2 = 3 :=
  ⟨(dim_view_memory_range dim_view_memory 0 2 3 1 0 100 rfl (by decide) (by decide)).2.2.2.1,
    (dim_view_memory_range dim_view_memory 0 2 3 1 0 100 rfl (by decide)
      (by decide)).2.2.2.2.1,
    by decide⟩

/-! ## Validation depends on the shapes only -/

theorem expr.traits_same_shapes {T : Type} (mem mem2 : memory T)
    (h : memory.same_shapes mem mem2) (e : expr T) : e.traits mem = e.traits mem2 := by
  induction e with
  | value id => simp only [expr.traits, (h id).1, (h id).2]
  | scalar s => rfl
  | generator g => rfl
  | unary op sub ih => simpa only [expr.traits] using ih
  | binary op lhs rhs ihl ihr => simp only [expr.traits, ihl, ihr]

theorem operator_assign_same_shapes {T : Type} (d : Nat) (e : expr T) (mem : memory T) :
    memory.same_shapes mem (operator_assign d e mem).mem := by
  cases hv : validate_assign (.expr (mem d).fast (mem d).dims) (e.traits mem) with
  | error err =>
    intro id
    have := assign_with_error std_assign_evaluate d e mem err hv
    unfold operator_assign
    rw [this]
    exact ⟨rfl, rfl⟩
  | ok u =>
    intro id
    obtain ⟨-, hshape, -⟩ := operator_assign_ok d e mem hv
    exact ⟨(hshape id).1.symm, (hshape id).2.symm⟩

theorem size_eq_is_generator (a b : operand) (ha : is_etl_expr a = true)
    (hb : is_etl_expr b = true) (h : size a = size b) : a.is_generator = b.is_generator := by
  cases a <;> cases b <;> simp_all [size, operand.is_generator, is_etl_expr]

theorem validate_expression_congr (lhs rhs lhs2 rhs2 : operand)
    (hl : is_etl_expr lhs = true) (hr : is_etl_expr rhs = true)
    (hl2 : is_etl_expr lhs2 = true) (hr2 : is_etl_expr rhs2 = true)
    (hgl : lhs.is_generator = lhs2.is_generator) (hgr : rhs.is_generator = rhs2.is_generator)
    (hsl : size lhs = size lhs2) (hsr : size rhs = size rhs2) :
    validate_expression lhs rhs = .ok () ↔ validate_expression lhs2 rhs2 = .ok () := by
  obtain ⟨g1, s1⟩ := validate_expression_succeeds_iff lhs rhs hl hr
  obtain ⟨g2, s2⟩ := validate_expression_succeeds_iff lhs2 rhs2 hl2 hr2
  by_cases hg : lhs.is_generator = true ∨ rhs.is_generator = true
  · have hg2 : lhs2.is_generator = true ∨ rhs2.is_generator = true := by
      rw [← hgl, ← hgr]
      exact hg
    exact ⟨fun _ => g2 hg2, fun _ => g1 hg⟩
  · have hnl : lhs.is_generator = false := by
      cases hx : lhs.is_generator
      · rfl
      · exact absurd (Or.inl hx) hg
    have hnr : rhs.is_generator = false := by
      cases hx : rhs.is_generator
      · rfl
      · exact absurd (Or.inr hx) hg
    rw [s1 hnl hnr, s2 (hgl ▸ hnl) (hgr ▸ hnr), hsl, hsr]

theorem validate_assign_congr (lhs rhs lhs2 rhs2 : operand)
    (hl : is_etl_expr lhs = true) (hl2 : is_etl_expr lhs2 = true)
    (hgr : rhs.is_generator = rhs2.is_generator)
    (hsl : size lhs = size lhs2) (hsr : size rhs = size rhs2) :
    validate_assign lhs rhs = .ok () ↔ validate_assign lhs2 rhs2 = .ok () := by
  obtain ⟨g1, s1, -⟩ := validate_assign_succeeds_iff lhs rhs hl
  obtain ⟨g2, s2, -⟩ := validate_assign_succeeds_iff lhs2 rhs2 hl2
  cases hg : rhs.is_generator
  · rw [s1 hg, s2 (hgr ▸ hg), hsl, hsr]
  · exact ⟨fun _ => g2 (hgr ▸ hg), fun _ => g1 hg⟩

theorem binary_expr_ok_iff {T : Type} (mem : memory T) (op : T → T → T) (l r e : expr T) :
    binary_expr mem op l r = .ok e ↔
      validate_expression (l.traits mem) (r.traits mem) = .ok () ∧ e = .binary op l r := by
  unfold binary_expr
  cases h : validate_expression (l.traits mem) (r.traits mem) with
  | error err => simp [bind, Except.bind]
  | ok u =>
    simp only [bind, Except.bind, pure, Except.pure, Except.ok.injEq, true_and]
    exact eq_comm

theorem except_unit_twice (x : Except check_error Unit) : (x >>= fun _ => x) = x := by
  cases x with
  | error err => rfl
  | ok u => rfl

/-- C23: validation depends on the generator flags and the sizes of its operands only: operands
with the same flags and sizes are accepted or rejected alike by `validate_expression` and by
`validate_assign`; running a validation a second time gives the outcome of the first; for the
operands of a tree the outcome is the same in every state of the tensors with the same shapes, in
particular after any assignment statement; so a tree that passed the validation of its
construction passes it again when it is evaluated, and is built again unchanged. -/
theorem validation_depends_on_shapes_only :
    (∀ lhs rhs lhs2 rhs2 : operand,
      is_etl_expr lhs = true → is_etl_expr rhs = true →
      is_etl_expr lhs2 = true → is_etl_expr rhs2 = true →
      lhs.is_generator = lhs2.is_generator → rhs.is_generator = rhs2.is_generator →
      size lhs = size lhs2 → size rhs = size rhs2 →
      (validate_expression lhs rhs = .ok () ↔ validate_expression lhs2 rhs2 = .ok ()) ∧
      (validate_assign lhs rhs = .ok () ↔ validate_assign lhs2 rhs2 = .ok ())) ∧
    (∀ lhs rhs : operand,
      (validate_expression lhs rhs >>= fun _ => validate_expression lhs rhs) =
        validate_expression lhs rhs ∧
      (validate_assign lhs rhs >>= fun _ => validate_assign lhs rhs) =
        validate_assign lhs rhs) ∧
    (∀ (T : Type) (mem mem2 : memory T) (l r : expr T) (d : Nat),
      memory.same_shapes mem mem2 →
      validate_expression (l.traits mem2) (r.traits mem2) =
        validate_expression (l.traits mem) (r.traits mem) ∧
      validate_assign (.expr (mem2 d).fast (mem2 d).dims) (r.traits mem2) =
        validate_assign (.expr (mem d).fast (mem d).dims) (r.traits mem) ∧
      (operator_assign d r mem2).status = (operator_assign d r mem).status) ∧
    (∀ (T : Type) (mem : memory T) (d : Nat) (e0 : expr T),
      memory.same_shapes mem (operator_assign d e0 mem).mem) ∧
    (∀ (T : Type) (mem mem2 : memory T) (op : T → T → T) (l r e : expr T),
      memory.same_shapes mem mem2 →
      binary_expr mem op l r = .ok e →
      validate_expression (l.traits mem2) (r.traits mem2) = .ok () ∧
      binary_expr mem2 op l r = .ok e) := by
  refine ⟨?_, ?_, ?_, ?_, ?_⟩
  · intro lhs rhs lhs2 rhs2 hl hr hl2 hr2 hgl hgr hsl hsr
    exact ⟨validate_expression_congr lhs rhs lhs2 rhs2 hl hr hl2 hr2 hgl hgr hsl hsr,
      validate_assign_congr lhs rhs lhs2 rhs2 hl hl2 hgr hsl hsr⟩
  · intro lhs rhs
    exact ⟨except_unit_twice _, except_unit_twice _⟩
  · intro T mem mem2 l r d h
    have hl := expr.traits_same_shapes mem mem2 h l
    have hr := expr.traits_same_shapes mem mem2 h r
    have hv : validate_assign (.expr (mem2 d).fast (mem2 d).dims) (r.traits mem2) =
        validate_assign (.expr (mem d).fast (mem d).dims) (r.traits mem) := by
      rw [hr, (h d).1, (h d).2]
    refine ⟨by rw [hl, hr], hv, ?_⟩
    unfold operator_assign assign_with
    rw [hv]
    cases validate_assign (.expr (mem d).fast (mem d).dims) (r.traits mem) <;> rfl
  · intro T mem d e0
    exact operator_assign_same_shapes d e0 mem
  · intro T mem mem2 op l r e h hb
    obtain ⟨hv, he⟩ := (binary_expr_ok_iff mem op l r e).1 hb
    have hv2 : validate_expression (l.traits mem2) (r.traits mem2) = .ok () := by
      rw [← expr.traits_same_shapes mem mem2 h l, ← expr.traits_same_shapes mem mem2 h r]
      exact hv
    exact ⟨hv2, (binary_expr_ok_iff mem2 op l r e).2 ⟨hv2, he⟩⟩

/-- Witness for C23: the tree `a + b` of `fast_matrix/add_1`, built before the statement
`c = a + b` and validated again after it. -/
theorem validation_depends_on_shapes_only_witness :
    validate_expression
        ((expr.value 0 : expr ℚ).traits
          (operator_assign 2 (.binary plus_binary_op.apply (.value 0) (.value 1))
            add_1_memory).mem)
        ((expr.value 1 : expr ℚ).traits
          (operator_assign 2 (.binary plus_binary_op.apply (.value 0) (.value 1))
            add_1_memory).mem) = .ok () :=
  (validation_depends_on_shapes_only.2.2.2.2 ℚ add_1_memory _ plus_binary_op.apply (.value 0)
    (.value 1) (.binary plus_binary_op.apply (.value 0) (.value 1))
    (validation_depends_on_shapes_only.2.2.2.1 ℚ add_1_memory 2
      (.binary plus_binary_op.apply (.value 0) (.value 1)))
    ((binary_expr_ok_iff add_1_memory plus_binary_op.apply (.value 0) (.value 1) _).2
      ⟨(validate_expression_sized _ _ _ _).2 rfl, rfl⟩)).1

/-! ## GPU residency of the operands of the accelerated operations -/

theorem gpu_run_nil (s : gpu_residency) : gpu_run [] s = s := rfl

theorem gpu_run_cons (ev : gpu_event) (steps : List gpu_event) (s : gpu_residency) :
    gpu_run (ev :: steps) s = gpu_run steps (ev.apply s) := rfl

theorem gpu_run_append (l1 l2 : List gpu_event) (s : gpu_residency) :
    gpu_run (l1 ++ l2) s = gpu_run l2 (gpu_run l1 s) := by
  simp [gpu_run, List.foldl_append]

theorem gpu_event.apply_cpu (s : gpu_residency) (ev : gpu_event) (x : gpu_operand)
    (h : ev ≠ .invalidate_cpu x) :
    (ev.apply s x).cpu_up_to_date =
      ((s x).cpu_up_to_date || decide (ev = .gpu_copy_from x)) := by
  cases ev with
  | invalidate_cpu e =>
    have hne : x ≠ e := fun hx => h (by rw [hx])
    simp [gpu_event.apply, Function.update_noteq hne]
  | gpu_copy_from e =>
    by_cases hx : x = e
    · subst hx
      simp [gpu_event.apply, gpu_memory_handler.gpu_copy_from]
    · have : e ≠ x := fun h2 => hx h2.symm
      simp [gpu_event.apply, Function.update_noteq hx, this]
  | gpu_allocate_copy_if_necessary e =>
    by_cases hx : x = e
    · subst hx
      simp only [gpu_event.apply, Function.update_same,
        gpu_memory_handler.gpu_allocate_copy_if_necessary]
      split_ifs <;> simp
    · simp [gpu_event.apply, Function.update_noteq hx]
  | _ =>
    rename_i e
    by_cases hx : x = e
    · subst hx
      simp [gpu_event.apply, gpu_memory_handler.ensure_gpu_up_to_date,
        gpu_memory_handler.ensure_gpu_allocated, gpu_memory_handler.gpu_allocate_if_necessary,
        gpu_memory_handler.gpu_evict]
    · simp [gpu_event.apply, Function.update_noteq hx]

theorem gpu_run_cpu (steps : List gpu_event) (s : gpu_residency) (x : gpu_operand)
    (h : gpu_event.invalidate_cpu x ∉ steps) :
    (gpu_run steps s x).cpu_up_to_date =
      ((s x).cpu_up_to_date || decide (gpu_event.gpu_copy_from x ∈ steps)) := by
  induction steps generalizing s with
  | nil => simp [gpu_run_nil]
  | cons ev steps ih =>
    have hev : ev ≠ .invalidate_cpu x := fun hx => h (by simp [hx])
    have hrest : gpu_event.invalidate_cpu x ∉ steps := fun hx => h (List.mem_cons_of_mem _ hx)
    rw [gpu_run_cons, ih _ hrest, gpu_event.apply_cpu s ev x hev]
    by_cases h1 : ev = .gpu_copy_from x
    · simp [h1]
    · have h2 : gpu_event.gpu_copy_from x ≠ ev := fun hx => h1 hx.symm
      simp [h1, h2]

theorem cudnn.single_call_residency (steps : List gpu_event)
    (f : gpu_kernel) (ins : List gpu_operand) (input kernel conv : gpu_operand)
    (hs : steps = [.gpu_allocate_copy_if_necessary input, .gpu_allocate_copy_if_necessary kernel,
      .gpu_allocate_if_necessary conv, .backend_call f ins conv])
    (s : gpu_residency) :
    (gpu_run (gpu_before_call steps) s input).gpu_allocated = true ∧
    (gpu_run (gpu_before_call steps) s kernel).gpu_allocated = true ∧
    (gpu_run (gpu_before_call steps) s conv).gpu_allocated = true ∧
    ((s input).gpu_allocated = false → input ≠ kernel →
      (gpu_run (gpu_before_call steps) s input).gpu_up_to_date = true) ∧
    (∀ x, (gpu_run steps s x).cpu_up_to_date = (s x).cpu_up_to_date) := by
  subst hs
  have hb : gpu_before_call [gpu_event.gpu_allocate_copy_if_necessary input,
      .gpu_allocate_copy_if_necessary kernel, .gpu_allocate_if_necessary conv,
      .backend_call f ins conv] =
      [.gpu_allocate_copy_if_necessary input, .gpu_allocate_copy_if_necessary kernel,
        .gpu_allocate_if_necessary conv] := rfl
  rw [hb]
  have alloc_copy : ∀ h : gpu_memory_handler,
      h.gpu_allocate_copy_if_necessary.gpu_allocated = true := by
    intro h
    unfold gpu_memory_handler.gpu_allocate_copy_if_necessary
    split_ifs with hx
    · exact hx
    · rfl
  refine ⟨?_, ?_, ?_, ?_, ?_⟩
  · simp only [gpu_run_cons, gpu_run_nil, gpu_event.apply]
    by_cases h1 : input = conv
    · subst h1
      simp [gpu_memory_handler.gpu_allocate_if_necessary]
    · rw [Function.update_noteq h1]
      by_cases h2 : input = kernel
      · subst h2
        simp [alloc_copy]
      · rw [Function.update_noteq h2]
        simp [alloc_copy]
  · simp only [gpu_run_cons, gpu_run_nil, gpu_event.apply]
    by_cases h1 : kernel = conv
    · subst h1
      simp [gpu_memory_handler.gpu_allocate_if_necessary]
    · rw [Function.update_noteq h1]
      simp [alloc_copy]
  · simp [gpu_run_cons, gpu_run_nil, gpu_event.apply,
      gpu_memory_handler.gpu_allocate_if_necessary]
  · intro hna hne
    simp only [gpu_run_cons, gpu_run_nil, gpu_event.apply]
    by_cases h1 : input = conv
    · subst h1
      simp [gpu_memory_handler.gpu_allocate_if_necessary, Function.update_noteq hne,
        gpu_memory_handler.gpu_allocate_copy_if_necessary, hna]
    · rw [Function.update_noteq h1, Function.update_noteq hne]
      simp [gpu_memory_handler.gpu_allocate_copy_if_necessary, hna]
  · intro x
    rw [gpu_run_cpu _ s x (by simp)]
    simp

theorem cudnn.full_multi_residency_cpu (K : Nat) (flipped : Bool)
    (input kernel conv : gpu_operand) (s : gpu_residency) (x : gpu_operand) :
    (gpu_run (if flipped then cudnn.conv2_full_multi_flipped_residency K input kernel conv
        else cudnn.conv2_full_multi_residency K input kernel conv) s x).cpu_up_to_date =
      ((s x).cpu_up_to_date || decide (∃ i, i < K ∧ x = .sub conv i)) := by
  have hsame : cudnn.conv2_full_multi_flipped_residency K input kernel conv =
      cudnn.conv2_full_multi_residency K input kernel conv := rfl
  rw [hsame, ite_self]
  have hno : gpu_event.invalidate_cpu x ∉ cudnn.conv2_full_multi_residency K input kernel conv := by
    simp [cudnn.conv2_full_multi_residency, cudnn.conv2_full_residency,
      cudnn.backward_data_residency, List.mem_flatMap]
  rw [gpu_run_cpu _ s x hno]
  congr 1
  have hiff : gpu_event.gpu_copy_from x ∈ cudnn.conv2_full_multi_residency K input kernel conv ↔
      ∃ i, i < K ∧ x = .sub conv i := by
    simp [cudnn.conv2_full_multi_residency, cudnn.conv2_full_residency,
      cudnn.backward_data_residency, List.mem_flatMap]
  simp only [hiff]

/-- Counterexample to C21 as stated: from operands that live on the host only, `conv2_valid`,
`conv2_full` and `conv2_valid_multi` of cuDNN return with the result on the device and the host
copy of `conv` still marked current, and `conv2_full_multi` returns with the host copy of every
`conv(i)` current; `batch_outer` of cuBLAS does mark the host copy of `c` stale. -/
theorem cudnn_conv_host_copy_not_marked_stale :
    (gpu_run (cudnn.conv2_valid_residency (.tensor 0) (.tensor 1) (.tensor 2)) gpu_host_only
      (.tensor 2)) =
      { gpu_allocated := true, cpu_up_to_date := true, gpu_up_to_date := true } ∧
    (gpu_run (cudnn.conv2_full_residency (.tensor 0) (.tensor 1) (.tensor 2)) gpu_host_only
      (.tensor 2)).cpu_up_to_date = true ∧
    (gpu_run (cudnn.conv2_valid_multi_residency (.tensor 0) (.tensor 1) (.tensor 2))
      gpu_host_only (.tensor 2)).cpu_up_to_date = true ∧
    (gpu_run (cudnn.conv2_full_multi_residency 2 (.tensor 0) (.tensor 1) (.tensor 2))
      gpu_host_only (.sub (.tensor 2) 0)).cpu_up_to_date = true ∧
    (gpu_run (cudnn.conv2_full_multi_residency 2 (.tensor 0) (.tensor 1) (.tensor 2))
      gpu_host_only (.sub (.tensor 2) 1)).cpu_up_to_date = true ∧
    (gpu_run (cublas.batch_outer true (.tensor 0) (.tensor 1) (.tensor 2)) gpu_host_only
      (.tensor 2)).cpu_up_to_date = false := by
  refine ⟨?_, ?_, ?_, ?_, ?_, ?_⟩
  · simp [gpu_run, cudnn.conv2_valid_residency, cudnn.forward_residency, gpu_event.apply,
      gpu_host_only, gpu_memory_handler.gpu_allocate_if_necessary]
  · rw [(cudnn.single_call_residency
      (cudnn.conv2_full_residency (.tensor 0) (.tensor 1) (.tensor 2)) _ _ _ _ _ rfl
      gpu_host_only).2.2.2.2]
    rfl
  · rw [(cudnn.single_call_residency
      (cudnn.conv2_valid_multi_residency (.tensor 0) (.tensor 1) (.tensor 2)) _ _ _ _ _ rfl
      gpu_host_only).2.2.2.2]
    rfl
  · have h := cudnn.full_multi_residency_cpu 2 false (.tensor 0) (.tensor 1) (.tensor 2)
      gpu_host_only (.sub (.tensor 2) 0)
    simp only [Bool.false_eq_true, if_false] at h
    rw [h]
    rfl
  · have h := cudnn.full_multi_residency_cpu 2 false (.tensor 0) (.tensor 1) (.tensor 2)
      gpu_host_only (.sub (.tensor 2) 1)
    simp only [Bool.false_eq_true, if_false] at h
    rw [h]
    rfl
  · simp [gpu_run, cublas.batch_outer, gpu_event.apply, gpu_memory_handler.invalidate_cpu]

theorem gpu_event.ensure_keeps_gpu_up_to_date (s : gpu_residency) (e x : gpu_operand)
    (h : (s x).gpu_up_to_date = true) :
    ((gpu_event.ensure_gpu_up_to_date e).apply s x).gpu_up_to_date = true ∧
    ((gpu_event.ensure_gpu_allocated e).apply s x).gpu_up_to_date = true := by
  by_cases hx : x = e
  · subst hx
    simp [gpu_event.apply, gpu_memory_handler.ensure_gpu_up_to_date,
      gpu_memory_handler.ensure_gpu_allocated, h]
  · simp [gpu_event.apply, Function.update_noteq hx, h]

theorem gpu_event.ensure_gpu_up_to_date_self (s : gpu_residency) (x : gpu_operand) :
    ((gpu_event.ensure_gpu_up_to_date x).apply s x).gpu_up_to_date = true := by
  simp [gpu_event.apply, gpu_memory_handler.ensure_gpu_up_to_date]

theorem cublas.batch_outer_residency (single : Bool) (a b c : gpu_operand) (s : gpu_residency) :
    gpu_before_call (cublas.batch_outer single a b c) =
      [.ensure_gpu_up_to_date a, .ensure_gpu_up_to_date b, .ensure_gpu_allocated c] ∧
    (gpu_run (gpu_before_call (cublas.batch_outer single a b c)) s a).gpu_up_to_date = true ∧
    (gpu_run (gpu_before_call (cublas.batch_outer single a b c)) s b).gpu_up_to_date = true ∧
    (gpu_run (gpu_before_call (cublas.batch_outer single a b c)) s c).gpu_allocated = true ∧
    (gpu_run (cublas.batch_outer single a b c) s c).cpu_up_to_date = false := by
  have hb : gpu_before_call (cublas.batch_outer single a b c) =
      [.ensure_gpu_up_to_date a, .ensure_gpu_up_to_date b, .ensure_gpu_allocated c] := rfl
  rw [hb]
  refine ⟨rfl, ?_, ?_, ?_, ?_⟩
  · simp only [gpu_run_cons, gpu_run_nil]
    exact (gpu_event.ensure_keeps_gpu_up_to_date _ c a
      (gpu_event.ensure_keeps_gpu_up_to_date _ b a
        (gpu_event.ensure_gpu_up_to_date_self s a)).1).2
  · simp only [gpu_run_cons, gpu_run_nil]
    exact (gpu_event.ensure_keeps_gpu_up_to_date _ c b
      (gpu_event.ensure_gpu_up_to_date_self _ b)).2
  · simp [gpu_run_cons, gpu_run_nil, gpu_event.apply, gpu_memory_handler.ensure_gpu_allocated]
  · simp [gpu_run, cublas.batch_outer, gpu_event.apply, gpu_memory_handler.invalidate_cpu]

/-- C21 (amended): whatever the residency of the operands, cuBLAS `batch_outer(a, b, c)` calls
`ensure_gpu_up_to_date` on `a` and `b` and `ensure_gpu_allocated` on `c` before its backend call,
at which `a` and `b` are current on the device, and `invalidate_cpu` on `c` after it, so that
the host copy of `c` is marked stale when it returns. Each cuDNN convolution `conv2_valid`,
`conv4_valid`, `conv2_valid_multi`, `conv2_valid_multi_flipped`, `conv2_full`, `conv2_full_flipped`
and `conv4_full` has `input`, `kernel` and `conv` allocated on the device before its backend
call, makes no call of `invalidate_cpu`, and leaves the staleness mark of every host copy, that
of `conv` included, as it found it. `conv2_full_multi` and `conv2_full_multi_flipped` copy every
`conv(i)` back to the host: on return its host copy is current, and the mark of every other
operand is as before. -/
theorem accelerated_operations_residency (s : gpu_residency) (a b c : gpu_operand)
    (single : Bool) (K : Nat) :
    (cublas.batch_outer single a b c =
      [.ensure_gpu_up_to_date a, .ensure_gpu_up_to_date b, .ensure_gpu_allocated c] ++
        [.backend_call (if single then .cublasSgemm else .cublasDgemm) [b, a] c,
          .invalidate_cpu c] ∧
      (gpu_run (gpu_before_call (cublas.batch_outer single a b c)) s a).gpu_up_to_date = true ∧
      (gpu_run (gpu_before_call (cublas.batch_outer single a b c)) s b).gpu_up_to_date = true ∧
      (gpu_run (gpu_before_call (cublas.batch_outer single a b c)) s c).gpu_allocated = true ∧
      (gpu_run (cublas.batch_outer single a b c) s c).cpu_up_to_date = false) ∧
    (∀ steps, steps ∈ [cudnn.conv2_valid_residency a b c, cudnn.conv4_valid_residency a b c,
        cudnn.conv2_valid_multi_residency a b c, cudnn.conv2_valid_multi_flipped_residency a b c,
        cudnn.conv2_full_residency a b c, cudnn.conv2_full_flipped_residency a b c,
        cudnn.conv4_full_residency a b c] →
      (gpu_run (gpu_before_call steps) s a).gpu_allocated = true ∧
      (gpu_run (gpu_before_call steps) s b).gpu_allocated = true ∧
      (gpu_run (gpu_before_call steps) s c).gpu_allocated = true ∧
      gpu_event.invalidate_cpu c ∉ steps ∧
      ∀ x, (gpu_run steps s x).cpu_up_to_date = (s x).cpu_up_to_date) ∧
    (∀ x, (gpu_run (cudnn.conv2_full_multi_residency K a b c) s x).cpu_up_to_date =
      ((s x).cpu_up_to_date || decide (∃ i, i < K ∧ x = .sub c i))) ∧
    (∀ x, (gpu_run (cudnn.conv2_full_multi_flipped_residency K a b c) s x).cpu_up_to_date =
      ((s x).cpu_up_to_date || decide (∃ i, i < K ∧ x = .sub c i))) ∧
    (∀ i, i < K →
      (gpu_run (cudnn.conv2_full_multi_residency K a b c) s (.sub c i)).cpu_up_to_date = true ∧
      (gpu_run (cudnn.conv2_full_multi_flipped_residency K a b c) s (.sub c i)).cpu_up_to_date =
        true) := by
  have hm : ∀ x, (gpu_run (cudnn.conv2_full_multi_residency K a b c) s x).cpu_up_to_date =
      ((s x).cpu_up_to_date || decide (∃ i, i < K ∧ x = .sub c i)) := by
    intro x
    have h := cudnn.full_multi_residency_cpu K false a b c s x
    simpa only [Bool.false_eq_true, if_false] using h
  refine ⟨?_, ?_, hm, hm, ?_⟩
  · obtain ⟨-, h1, h2, h3, h4⟩ := cublas.batch_outer_residency single a b c s
    exact ⟨rfl, h1, h2, h3, h4⟩
  · intro steps hsteps
    have hcases : steps = cudnn.forward_residency a b c ∨
        steps = cudnn.backward_data_residency a b c := by
      simp only [List.mem_cons, List.mem_singleton, List.not_mem_nil, or_false] at hsteps
      rcases hsteps with h | h | h | h | h | h | h
      · exact Or.inl h
      · exact Or.inl h
      · exact Or.inl h
      · exact Or.inl h
      · exact Or.inr h
      · exact Or.inr h
      · exact Or.inr h
    rcases hcases with h | h
    · obtain ⟨h1, h2, h3, -, h5⟩ := cudnn.single_call_residency steps _ _ a b c h s
      refine ⟨h1, h2, h3, ?_, h5⟩
      rw [h]
      simp [cudnn.forward_residency]
    · obtain ⟨h1, h2, h3, -, h5⟩ := cudnn.single_call_residency steps _ _ a b c h s
      refine ⟨h1, h2, h3, ?_, h5⟩
      rw [h]
      simp [cudnn.backward_data_residency]
  · intro i hi
    have : (gpu_run (cudnn.conv2_full_multi_residency K a b c) s (.sub c i)).cpu_up_to_date =
        true := by
      rw [hm]
      have hex : ∃ j, j < K ∧ gpu_operand.sub c i = .sub c j := ⟨i, hi, rfl⟩
      rw [decide_eq_true hex, Bool.or_true]
    exact ⟨this, this⟩

/-- Witness for C21: operands that live on the host only, and a kernel of two sub kernels: the
host copy of `conv(1)` is current when `conv2_full_multi` returns, and the host copy of `conv` is
still marked current when `conv2_valid` returns. -/
theorem accelerated_operations_residency_witness :
    (gpu_run (cudnn.conv2_full_multi_residency 2 (.tensor 0) (.tensor 1) (.tensor 2))
      gpu_host_only (.sub (.tensor 2) 1)).cpu_up_to_date = true ∧
    (gpu_run (cudnn.conv2_valid_residency (.tensor 0) (.tensor 1) (.tensor 2)) gpu_host_only
      (.tensor 2)).cpu_up_to_date = (gpu_host_only (.tensor 2)).cpu_up_to_date :=
  ⟨((accelerated_operations_residency gpu_host_only (.tensor 0) (.tensor 1) (.tensor 2) true
      2).2.2.2.2 1 (by decide)).1,
    ((accelerated_operations_residency gpu_host_only (.tensor 0) (.tensor 1) (.tensor 2) true
      2).2.1 _ (List.mem_cons_self _ _)).2.2.2.2 (.tensor 2)⟩

/-! ## Rounding to `double` -/

theorem round_half_even_intCast (z : ℤ) : round_half_even (z : ℚ) = z := by
  simp [round_half_even]

theorem round_half_even_error (x : ℚ) : |(round_half_even x : ℚ) - x| ≤ 1 / 2 := by
  have h1 : (⌊x⌋ : ℚ) ≤ x := Int.floor_le x
  have h2 : x < ⌊x⌋ + 1 := Int.lt_floor_add_one x
  unfold round_half_even
  split_ifs with ha hb hc
  · rw [abs_le]
    constructor <;> linarith
  · rw [abs_le]
    push_cast
    constructor <;> linarith
  · rw [abs_le]
    constructor <;> linarith
  · rw [abs_le]
    push_cast
    constructor <;> linarith

theorem int_log_two_eq (q : ℚ) (e : ℤ) (h1 : (2 : ℚ) ^ e ≤ q) (h2 : q < (2 : ℚ) ^ (e + 1)) :
    Int.log 2 q = e := by
  have hq : 0 < q := lt_of_lt_of_le (zpow_pos (by norm_num) e) h1
  have ha : e ≤ Int.log 2 q := by
    apply (Int.zpow_le_iff_le_log (by norm_num) hq).1
    exact_mod_cast h1
  have hb : Int.log 2 q < e + 1 := by
    apply (Int.lt_zpow_iff_log_lt (by norm_num) hq).1
    exact_mod_cast h2
  omega

theorem binary64.round_of_pos (q : ℚ) (hq : 0 < q) :
    binary64.round q =
      round_half_even (q / 2 ^ (Int.log 2 q - 52)) * 2 ^ (Int.log 2 q - 52) := by
  unfold binary64.round
  rw [if_neg hq.ne', abs_of_pos hq]

theorem binary64.round_eval (q : ℚ) (e z : ℤ) (h1 : (2 : ℚ) ^ e ≤ q)
    (h2 : q < (2 : ℚ) ^ (e + 1)) (hz : round_half_even (q / 2 ^ (e - 52)) = z) :
    binary64.round q = z * 2 ^ (e - 52) := by
  have hq : 0 < q := lt_of_lt_of_le (zpow_pos (by norm_num) e) h1
  rw [binary64.round_of_pos q hq, int_log_two_eq q e h1 h2, hz]

theorem binary64.round_error (q : ℚ) (hq : 0 < q) :
    |binary64.round q - q| ≤ q / 2 ^ 53 := by
  have hlog : (2 : ℚ) ^ Int.log 2 q ≤ q := by
    have := Int.zpow_log_le_self (R := ℚ) (b := 2) (by norm_num) hq
    exact_mod_cast this
  have hu : (0 : ℚ) < 2 ^ (Int.log 2 q - 52) := zpow_pos (by norm_num) _
  rw [binary64.round_of_pos q hq]
  have herr := round_half_even_error (q / 2 ^ (Int.log 2 q - 52))
  have hmul : |(round_half_even (q / 2 ^ (Int.log 2 q - 52)) : ℚ) * 2 ^ (Int.log 2 q - 52) - q| =
      |(round_half_even (q / 2 ^ (Int.log 2 q - 52)) : ℚ) - q / 2 ^ (Int.log 2 q - 52)| *
        2 ^ (Int.log 2 q - 52) := by
    rw [← abs_of_pos hu, ← abs_mul, abs_of_pos hu, sub_mul, div_mul_cancel₀ _ hu.ne']
  rw [hmul]
  have hsplit : (2 : ℚ) ^ (Int.log 2 q - 52) = 2 ^ Int.log 2 q / 2 ^ 52 := by
    rw [zpow_sub₀ (by norm_num)]
    norm_num
  calc |(round_half_even (q / 2 ^ (Int.log 2 q - 52)) : ℚ) - q / 2 ^ (Int.log 2 q - 52)| *
        2 ^ (Int.log 2 q - 52)
      ≤ 1 / 2 * 2 ^ (Int.log 2 q - 52) := mul_le_mul_of_nonneg_right herr hu.le
    _ = 2 ^ Int.log 2 q / 2 ^ 53 := by
        rw [hsplit]
        ring
    _ ≤ q / 2 ^ 53 := by
        apply div_le_div_of_nonneg_right hlog
        positivity

theorem binary64.round_exact (m : ℕ) (k : ℤ) (hm0 : 0 < m) (hm : m < 2 ^ 53) :
    binary64.round ((m : ℚ) * 2 ^ k) = (m : ℚ) * 2 ^ k := by
  have h2 : (0 : ℚ) < 2 := by norm_num
  have hq : (0 : ℚ) < (m : ℚ) * 2 ^ k := mul_pos (by exact_mod_cast hm0) (zpow_pos h2 k)
  have hlog : (2 : ℚ) ^ Int.log 2 ((m : ℚ) * 2 ^ k) ≤ (m : ℚ) * 2 ^ k := by
    have := Int.zpow_log_le_self (R := ℚ) (b := 2) (by norm_num) hq
    exact_mod_cast this
  have hup : (m : ℚ) * 2 ^ k < 2 ^ (53 + k) := by
    rw [zpow_add₀ h2.ne']
    apply mul_lt_mul_of_pos_right _ (zpow_pos h2 k)
    exact_mod_cast hm
  have he : Int.log 2 ((m : ℚ) * 2 ^ k) < 53 + k :=
    (zpow_lt_zpow_iff_right₀ (by norm_num : (1 : ℚ) < 2)).1 (lt_of_le_of_lt hlog hup)
  rw [binary64.round_of_pos _ hq]
  generalize Int.log 2 ((m : ℚ) * 2 ^ k) = L at he ⊢
  obtain ⟨t, ht⟩ : ∃ t : ℕ, (t : ℤ) = k - (L - 52) :=
    ⟨(k - (L - 52)).toNat, Int.toNat_of_nonneg (by omega)⟩
  have hk : k = (t : ℤ) + (L - 52) := by omega
  subst hk
  have hu : (2 : ℚ) ^ (L - 52) ≠ 0 := (zpow_pos h2 _).ne'
  have hscaled : (m : ℚ) * 2 ^ ((t : ℤ) + (L - 52)) / 2 ^ (L - 52) = ((m * 2 ^ t : ℤ) : ℚ) := by
    rw [div_eq_iff hu, zpow_add₀ h2.ne', zpow_natCast]
    push_cast
    ring
  rw [hscaled, round_half_even_intCast, zpow_add₀ h2.ne', zpow_natCast]
  push_cast
  ring

theorem binary64.round_natCast (n : ℕ) (hn : n ≤ 2 ^ 53) : binary64.round (n : ℚ) = n := by
  rcases Nat.eq_zero_or_pos n with h0 | hpos
  · subst h0
    simp [binary64.round]
  · rcases Nat.lt_or_ge n (2 ^ 53) with hlt | hge
    · have := binary64.round_exact n 0 hpos hlt
      simpa using this
    · have hn2 : n = 2 ^ 53 := le_antisymm hn hge
      have := binary64.round_exact 1 53 (by norm_num) (by norm_num)
      rw [hn2]
      norm_num at this ⊢
      exact this

theorem binary64.round_inv_two_pow (k : ℕ) :
    binary64.round (1 / 2 ^ k : ℚ) = 1 / 2 ^ k := by
  have := binary64.round_exact 1 (-(k : ℤ)) (by norm_num) (by norm_num)
  rw [zpow_neg, zpow_natCast] at this
  simpa using this

theorem round_half_even_eval (x : ℚ) (z : ℤ) (h1 : (z : ℚ) ≤ x) (h2 : x < z + 1 / 2) :
    round_half_even x = z := by
  have hf : ⌊x⌋ = z := by
    rw [Int.floor_eq_iff]
    constructor
    · exact h1
    · linarith
  unfold round_half_even
  rw [hf, if_pos (by linarith)]

theorem avg_pool_derivative_of_window (n : ℕ) (hn0 : 0 < n) (hn : n ≤ 2 ^ 53) :
    cpp_double.div (.finite 1) (cpp_double.of_size_t n) =
      .finite (binary64.round (1 / (n : ℚ))) := by
  have hne : (n : ℚ) ≠ 0 := by exact_mod_cast hn0.ne'
  simp only [cpp_double.of_size_t, binary64.round_natCast n hn, cpp_double.div, if_neg hne]

theorem binary64.round_one_div_49 :
    binary64.round (1 / 49 : ℚ) = 5882252574524729 / 2 ^ 58 := by
  have h := binary64.round_eval (1 / 49) (-6) 5882252574524729 (by norm_num) (by norm_num)
    (round_half_even_eval _ _ (by norm_num) (by norm_num))
  rw [h]
  norm_num

theorem binary64.round_one_div_49_mul_49 :
    binary64.round (5882252574524729 / 2 ^ 58 * 49 : ℚ) = 1 - 1 / 2 ^ 53 := by
  have h := binary64.round_eval (5882252574524729 / 2 ^ 58 * 49) (-1) 9007199254740991
    (by norm_num) (by norm_num) (round_half_even_eval _ _ (by norm_num) (by norm_num))
  rw [h]
  norm_num

theorem binary64.one_div_round_bound (x : ℚ) (hx : 0 < x) :
    0 < binary64.round x ∧
    |binary64.round (1 / binary64.round x) * x - 1| ≤ 1 / 2 ^ 51 := by
  have hy := binary64.round_error x hx
  set y := binary64.round x with hydef
  have hylow : x / 2 ≤ y := by
    have h1 := (abs_le.1 hy).1
    have h2 : x / 2 ^ 53 ≤ x / 2 := by
      apply div_le_div_of_nonneg_left hx.le (by norm_num) (by norm_num)
    linarith
  have hypos : 0 < y := by linarith
  have hr := binary64.round_error (1 / y) (by positivity)
  set r := binary64.round (1 / y) with hrdef
  refine ⟨hypos, ?_⟩
  have hxy : x / y ≤ 2 := by
    rw [div_le_iff₀ hypos]
    linarith
  have hdec : r * x - 1 = (r - 1 / y) * x + (x - y) / y := by
    field_simp
    ring
  have hA : |(r - 1 / y) * x| ≤ x / y / 2 ^ 53 := by
    rw [abs_mul, abs_of_pos hx]
    calc |r - 1 / y| * x ≤ 1 / y / 2 ^ 53 * x := mul_le_mul_of_nonneg_right hr hx.le
      _ = x / y / 2 ^ 53 := by ring
  have hB : |(x - y) / y| ≤ x / y / 2 ^ 53 := by
    rw [abs_div, abs_of_pos hypos, abs_sub_comm]
    calc |y - x| / y ≤ x / 2 ^ 53 / y := div_le_div_of_nonneg_right hy hypos.le
      _ = x / y / 2 ^ 53 := by ring
  rw [hdec]
  calc |(r - 1 / y) * x + (x - y) / y| ≤ |(r - 1 / y) * x| + |(x - y) / y| := abs_add _ _
    _ ≤ x / y / 2 ^ 53 + x / y / 2 ^ 53 := add_le_add hA hB
    _ ≤ 2 / 2 ^ 53 + 2 / 2 ^ 53 := by
        apply add_le_add <;> exact div_le_div_of_nonneg_right hxy (by positivity)
    _ = 1 / 2 ^ 51 := by norm_num

theorem avg_pool_derivative_window_bound (n : ℕ) (hn0 : 0 < n) :
    cpp_double.div (.finite 1) (cpp_double.of_size_t n) =
      .finite (binary64.round (1 / binary64.round (n : ℚ))) ∧
    |binary64.round (1 / binary64.round (n : ℚ)) * n - 1| ≤ 1 / 2 ^ 51 := by
  have hx : (0 : ℚ) < n := by exact_mod_cast hn0
  obtain ⟨hpos, hb⟩ := binary64.one_div_round_bound (n : ℚ) hx
  refine ⟨?_, hb⟩
  simp only [cpp_double.of_size_t, cpp_double.div, if_neg hpos.ne']

theorem binary64.round_two_pow (k : ℕ) : binary64.round ((2 : ℚ) ^ k) = 2 ^ k := by
  have := binary64.round_exact 1 (k : ℤ) (by norm_num) (by norm_num)
  rw [zpow_natCast] at this
  simpa using this

theorem avg_pool_derivative_of_two_pow (n k : ℕ) (hn : n = 2 ^ k) :
    cpp_double.div (.finite 1) (cpp_double.of_size_t n) = .finite (1 / (n : ℚ)) ∧
    cpp_double.mul (cpp_double.div (.finite 1) (cpp_double.of_size_t n))
      (cpp_double.of_size_t n) = .finite 1 := by
  subst hn
  have hcast : (((2 ^ k : ℕ) : ℕ) : ℚ) = (2 : ℚ) ^ k := by push_cast; rfl
  have hne : (2 : ℚ) ^ k ≠ 0 := by positivity
  have hdiv : cpp_double.div (.finite 1) (cpp_double.of_size_t (2 ^ k)) =
      .finite (1 / (2 : ℚ) ^ k) := by
    simp only [cpp_double.of_size_t, hcast, binary64.round_two_pow, cpp_double.div, if_neg hne,
      binary64.round_inv_two_pow]
  refine ⟨by rw [hdiv, hcast], ?_⟩
  rw [hdiv]
  simp only [cpp_double.of_size_t, hcast, binary64.round_two_pow, cpp_double.mul]
  rw [one_div, inv_mul_cancel₀ hne]
  have := binary64.round_two_pow 0
  simpa using this

theorem size_t.mul_of_lt (a b : ℕ) (h : a * b < 2 ^ 64) : size_t.mul a b = a * b :=
  Nat.mod_eq_of_lt h

/-- Counterexample to C30 as stated: with the ratios `2^32` and `2^32` the product wraps around to
zero in `std::size_t` and the function returns `+infinity`; with `2^32` and `2^32 + 1` it returns
`1 / 2^32`; and with the ratios `7` and `7` the value times the window size `49`, computed in
`double`, is `1 - 2^-53`, not `1`. -/
theorem avg_pool_derivative_not_exact :
    avg_pool_derivative_2d () () (2 ^ 32) (2 ^ 32) = .infinity ∧
    avg_pool_derivative_2d_static (2 ^ 32) (2 ^ 32) () () = .infinity ∧
    avg_pool_derivative_3d () () (2 ^ 32) (2 ^ 16) (2 ^ 16) = .infinity ∧
    avg_pool_derivative_2d () () (2 ^ 32) (2 ^ 32 + 1) = .finite (1 / 2 ^ 32) ∧
    ((1 : ℚ) / 2 ^ 32 ≠ 1 / (2 ^ 32 * (2 ^ 32 + 1))) ∧
    cpp_double.mul (avg_pool_derivative_2d () () 7 7) (cpp_double.of_size_t (size_t.mul 7 7)) =
      .finite (1 - 1 / 2 ^ 53) ∧
    cpp_double.mul (avg_pool_derivative_2d () () 7 7) (cpp_double.of_size_t (size_t.mul 7 7)) ≠
      .finite 1 := by
  have h0 : size_t.mul (2 ^ 32) (2 ^ 32) = 0 := by decide
  have h1 : size_t.mul (size_t.mul (2 ^ 32) (2 ^ 16)) (2 ^ 16) = 0 := by decide
  have h2 : size_t.mul (2 ^ 32) (2 ^ 32 + 1) = 2 ^ 32 := by decide
  have h49 : size_t.mul 7 7 = 49 := by decide
  have hinf : cpp_double.div (.finite 1) (cpp_double.of_size_t 0) = .infinity := by
    simp [cpp_double.div, cpp_double.of_size_t, binary64.round]
  have hmul : cpp_double.mul (avg_pool_derivative_2d () () 7 7)
      (cpp_double.of_size_t (size_t.mul 7 7)) = .finite (1 - 1 / 2 ^ 53) := by
    unfold avg_pool_derivative_2d
    rw [h49, avg_pool_derivative_of_window 49 (by norm_num) (by norm_num)]
    have h49r : binary64.round (49 : ℚ) = 49 := by
      have := binary64.round_natCast 49 (by norm_num)
      simpa using this
    simp only [cpp_double.of_size_t, cpp_double.mul, Nat.cast_ofNat]
    rw [binary64.round_one_div_49, h49r, binary64.round_one_div_49_mul_49]
  refine ⟨?_, ?_, ?_, ?_, by norm_num, hmul, ?_⟩
  · unfold avg_pool_derivative_2d
    rw [h0, hinf]
  · unfold avg_pool_derivative_2d_static
    rw [h0, hinf]
  · unfold avg_pool_derivative_3d
    rw [h1, hinf]
  · unfold avg_pool_derivative_2d
    rw [h2]
    have := (avg_pool_derivative_of_two_pow (2 ^ 32) 32 rfl).1
    rw [this]
    norm_num
  · rw [hmul]
    intro h
    injection h with h
    norm_num at h

theorem avg_pool_derivative_window (n : ℕ) (hn0 : 0 < n) :
    cpp_double.div (.finite 1) (cpp_double.of_size_t n) =
      .finite (binary64.round (1 / binary64.round (n : ℚ))) ∧
    |binary64.round (1 / binary64.round (n : ℚ)) * n - 1| ≤ 1 / 2 ^ 51 ∧
    (n ≤ 2 ^ 53 →
      cpp_double.div (.finite 1) (cpp_double.of_size_t n) =
        .finite (binary64.round (1 / (n : ℚ))) ∧
      |binary64.round (1 / (n : ℚ)) - 1 / (n : ℚ)| ≤ 1 / (n : ℚ) / 2 ^ 53) ∧
    (∀ k, n = 2 ^ k →
      cpp_double.div (.finite 1) (cpp_double.of_size_t n) = .finite (1 / (n : ℚ)) ∧
      cpp_double.mul (cpp_double.div (.finite 1) (cpp_double.of_size_t n))
        (cpp_double.of_size_t n) = .finite 1) := by
  have hx : (0 : ℚ) < n := by exact_mod_cast hn0
  obtain ⟨hd, hb⟩ := avg_pool_derivative_window_bound n hn0
  refine ⟨hd, hb, ?_, fun k hk => avg_pool_derivative_of_two_pow n k hk⟩
  intro hn
  exact ⟨avg_pool_derivative_of_window n hn0 hn,
    binary64.round_error (1 / (n : ℚ)) (by positivity)⟩

/-- C30 (amended): the value that `avg_pool_derivative_2d` and `avg_pool_derivative_3d` return
does not depend on `input` or `output`, and the compile-time form and the run-time form return
the same value for equal ratios. For ratios `>= 1` whose product `w` is below `2^64` (so that it
does not wrap around in `std::size_t`) the value is the finite `double` quotient
`1.0 / double(w)`; times `w` it is within `2^-51` of `1`; for `w <= 2^53` it is the `double`
nearest to `1 / w`, within a relative error of `2^-53`; and when `w` is a power of two it is
exactly `1 / w` and the value times the window size, computed in `double`, is exactly `1`. -/
theorem avg_pool_derivative_is_constant {E F E2 F2 : Type} (input : E) (output : F)
    (input2 : E2) (output2 : F2) (c1 c2 c3 : ℕ) (h1 : 1 ≤ c1) (h2 : 1 ≤ c2) (h3 : 1 ≤ c3) :
    (avg_pool_derivative_2d input2 output2 c1 c2 = avg_pool_derivative_2d input output c1 c2 ∧
      avg_pool_derivative_3d input2 output2 c1 c2 c3 =
        avg_pool_derivative_3d input output c1 c2 c3 ∧
      avg_pool_derivative_2d_static c1 c2 input output =
        avg_pool_derivative_2d input output c1 c2 ∧
      avg_pool_derivative_3d_static c1 c2 c3 input output =
        avg_pool_derivative_3d input output c1 c2 c3) ∧
    (c1 * c2 < 2 ^ 64 →
      avg_pool_derivative_2d input output c1 c2 =
        .finite (binary64.round (1 / binary64.round ((c1 * c2 : ℕ) : ℚ))) ∧
      |binary64.round (1 / binary64.round ((c1 * c2 : ℕ) : ℚ)) * (c1 * c2 : ℕ) - 1| ≤
        1 / 2 ^ 51 ∧
      (c1 * c2 ≤ 2 ^ 53 →
        avg_pool_derivative_2d input output c1 c2 =
          .finite (binary64.round (1 / ((c1 * c2 : ℕ) : ℚ))) ∧
        |binary64.round (1 / ((c1 * c2 : ℕ) : ℚ)) - 1 / ((c1 * c2 : ℕ) : ℚ)| ≤
          1 / ((c1 * c2 : ℕ) : ℚ) / 2 ^ 53) ∧
      (∀ k, c1 * c2 = 2 ^ k →
        avg_pool_derivative_2d input output c1 c2 = .finite (1 / ((c1 * c2 : ℕ) : ℚ)) ∧
        cpp_double.mul (avg_pool_derivative_2d input output c1 c2)
          (cpp_double.of_size_t (size_t.mul c1 c2)) = .finite 1)) ∧
    (c1 * c2 * c3 < 2 ^ 64 →
      avg_pool_derivative_3d input output c1 c2 c3 =
        .finite (binary64.round (1 / binary64.round ((c1 * c2 * c3 : ℕ) : ℚ))) ∧
      |binary64.round (1 / binary64.round ((c1 * c2 * c3 : ℕ) : ℚ)) * (c1 * c2 * c3 : ℕ) - 1| ≤
        1 / 2 ^ 51 ∧
      (c1 * c2 * c3 ≤ 2 ^ 53 →
        avg_pool_derivative_3d input output c1 c2 c3 =
          .finite (binary64.round (1 / ((c1 * c2 * c3 : ℕ) : ℚ))) ∧
        |binary64.round (1 / ((c1 * c2 * c3 : ℕ) : ℚ)) - 1 / ((c1 * c2 * c3 : ℕ) : ℚ)| ≤
          1 / ((c1 * c2 * c3 : ℕ) : ℚ) / 2 ^ 53) ∧
      (∀ k, c1 * c2 * c3 = 2 ^ k →
        avg_pool_derivative_3d input output c1 c2 c3 =
          .finite (1 / ((c1 * c2 * c3 : ℕ) : ℚ)) ∧
        cpp_double.mul (avg_pool_derivative_3d input output c1 c2 c3)
          (cpp_double.of_size_t (size_t.mul (size_t.mul c1 c2) c3)) = .finite 1)) := by
  refine ⟨⟨rfl, rfl, rfl, rfl⟩, ?_, ?_⟩
  · intro hlt
    have hpos : 0 < c1 * c2 := Nat.mul_pos h1 h2
    have hm := size_t.mul_of_lt c1 c2 hlt
    unfold avg_pool_derivative_2d
    rw [hm]
    exact avg_pool_derivative_window (c1 * c2) hpos
  · intro hlt
    have hpos12 : 0 < c1 * c2 := Nat.mul_pos h1 h2
    have hpos : 0 < c1 * c2 * c3 := Nat.mul_pos hpos12 h3
    have h12 : c1 * c2 < 2 ^ 64 :=
      lt_of_le_of_lt (Nat.le_mul_of_pos_right (c1 * c2) h3) hlt
    have hm : size_t.mul (size_t.mul c1 c2) c3 = c1 * c2 * c3 := by
      rw [size_t.mul_of_lt c1 c2 h12, size_t.mul_of_lt (c1 * c2) c3 hlt]
    unfold avg_pool_derivative_3d
    rw [hm]
    exact avg_pool_derivative_window (c1 * c2 * c3) hpos

/-- Witness for C30: the ratios `2`, `2` and `2`: the 2D derivative is `1 / 4`, the 3D derivative
is `1 / 8`, and each times its window size is `1`. -/
theorem avg_pool_derivative_is_constant_witness :
    avg_pool_derivative_2d () () 2 2 = .finite (1 / ((2 * 2 : ℕ) : ℚ)) ∧
    cpp_double.mul (avg_pool_derivative_2d () () 2 2) (cpp_double.of_size_t (size_t.mul 2 2)) =
      .finite 1 ∧
    avg_pool_derivative_3d () () 2 2 2 = .finite (1 / ((2 * 2 * 2 : ℕ) : ℚ)) :=
  ⟨(((avg_pool_derivative_is_constant () () () () 2 2 2 (by decide) (by decide)
      (by decide)).2.1 (by decide)).2.2.2 2 (by decide)).1,
    (((avg_pool_derivative_is_constant () () () () 2 2 2 (by decide) (by decide)
      (by decide)).2.1 (by decide)).2.2.2 2 (by decide)).2,
    (((avg_pool_derivative_is_constant () () () () 2 2 2 (by decide) (by decide)
      (by decide)).2.2 (by decide)).2.2.2 3 (by decide)).1⟩

end etl
